import Mathlib

/-!
# oke-ingress-operator: reconcilers of `main.go`

A shallow embedding of the two reconcilers of `main.go`:

* Controller A, `SliceReconciler.Reconcile`: labels the nodes that host a ready
  endpoint of the ingress Service;
* Controller B, `ServiceReconciler.Reconcile`: computes the candidate backend
  nodes of an annotated LoadBalancer Service and touches a trigger annotation.

The cluster object store is explicit state (`Cluster`); the calls of the
controller-runtime client (`Get`, `List`, `Patch`) are functions on that state,
and their transient failures are decided by an explicit `Faults` record.
Go maps (`map[string]string`) are association lists read by key.
-/

namespace OkeIngress

/-! ## Go string maps -/

/-- A Go `map[string]string`: an association list, read by its first binding. -/
abbrev StrMap := List (String × String)

namespace StrMap

/-- The comma-ok read `v, ok := m[k]`. -/
def lookup (m : StrMap) (k : String) : Option String :=
  match m with
  | [] => none
  | (k', v) :: rest => if k' = k then some v else lookup rest k

/-- The plain index expression `m[k]`: the zero value `""` for an absent key. -/
def get (m : StrMap) (k : String) : String :=
  (lookup m k).getD ""

/-- The builtin `delete(m, k)`. -/
def delete (m : StrMap) (k : String) : StrMap :=
  m.filter (fun p => decide (p.1 ≠ k))

/-- The assignment `m[k] = v`. -/
def set (m : StrMap) (k v : String) : StrMap :=
  (k, v) :: delete m k

end StrMap

/-- A Go set `map[string]struct{}`, in insertion order. -/
abbrev StrSet := List String

/-- The assignment `s[x] = struct{}{}`. -/
def StrSet.insert (s : StrSet) (x : String) : StrSet :=
  if x ∈ s then s else s ++ [x]

/-! ## Cluster objects -/

/-- One entry of `node.Status.Conditions`. -/
structure NodeCondition where
  Type_ : String
  Status : String
  deriving DecidableEq, Repr

/-- One entry of `node.Status.Addresses`. -/
structure NodeAddress where
  Type_ : String
  Address : String
  deriving DecidableEq, Repr

/-- The fields of `corev1.Node` that the operator reads or writes. -/
structure Node where
  Name : String
  Labels : StrMap
  Unschedulable : Bool
  Conditions : List NodeCondition
  Addresses : List NodeAddress
  deriving DecidableEq, Repr

/-- One `discoveryv1.Endpoint`: `NodeName *string` and `Conditions.Ready *bool`. -/
structure Endpoint where
  NodeName : Option String
  Ready : Option Bool
  deriving DecidableEq, Repr

/-- The fields of `discoveryv1.EndpointSlice` that the operator reads. -/
structure EndpointSlice where
  Namespace : String
  Name : String
  Labels : StrMap
  Endpoints : List Endpoint
  deriving DecidableEq, Repr

/-- The fields of `corev1.Service` that the operator reads or writes. -/
structure Service where
  Namespace : String
  Name : String
  Type_ : String
  ExternalTrafficPolicy : String
  Annotations : StrMap
  deriving DecidableEq, Repr

/-- The object store: every Node, Service and EndpointSlice of the cluster. -/
structure Cluster where
  nodes : List Node
  services : List Service
  slices : List EndpointSlice
  deriving DecidableEq, Repr

/-- The label `kubernetes.io/service-name` (`discoveryv1.LabelServiceName`). -/
def LabelServiceName : String := "kubernetes.io/service-name"

/-- The constant `corev1.ServiceTypeLoadBalancer`. -/
def ServiceTypeLoadBalancer : String := "LoadBalancer"

/-- The constant `corev1.ServiceExternalTrafficPolicyTypeLocal`. -/
def ServiceExternalTrafficPolicyTypeLocal : String := "Local"

/-- The constant `corev1.ServiceExternalTrafficPolicyTypeCluster`. -/
def ServiceExternalTrafficPolicyTypeCluster : String := "Cluster"

/-- The constant `AnnotationNodeSelector` of `main.go`. -/
def AnnotationNodeSelector : String := "oci.oraclecloud.com/node-label-selector"

/-- The constant `AnnotationTrigger` of `main.go`. -/
def AnnotationTrigger : String := "oci.oraclecloud.com/trigger-reconcile"

/-! ## The client -/

/-- Transient failures of the client calls of one pass: which read fails, and
which patch (by object name) the store rejects. -/
structure Faults where
  getService : Bool
  listNodes : Bool
  listSlices : Bool
  patchService : Bool
  patchNode : String → Bool

/-- No call fails. -/
def Faults.none : Faults :=
  { getService := false, listNodes := false, listSlices := false,
    patchService := false, patchNode := fun _ => false }

/-- The errors a pass can return to the dispatcher. -/
inductive Err where
  | getService
  | listNodes
  | listSlices
  | patchNode (name : String)
  | patchService
  deriving DecidableEq, Repr

/-- The list call for EndpointSlices with `Namespace: ns` and the label selector
`labels.SelectorFromSet({kubernetes.io/service-name: svc})`: the slices of the
namespace that carry the label with exactly that value. -/
def listSlicesFor (c : Cluster) (ns svc : String) : List EndpointSlice :=
  c.slices.filter (fun es =>
    decide (es.Namespace = ns) && decide (es.Labels.lookup LabelServiceName = some svc))

/-! ## Controller A: EndpointSlice-driven node labeler -/

/-- The struct `LabelerConfig`. -/
structure LabelerConfig where
  IngressNS : String
  IngressSvc : String
  LabelKey : String
  LabelVal : String
  deriving DecidableEq, Repr

/-- Go's `unicode.IsSpace` on the code points `strings.TrimSpace` strips. -/
def isSpace (c : Char) : Bool :=
  c = ' ' || c = '\t' || c = '\n' || c = '\x0b' || c = '\x0c' || c = '\r' ||
  c = '\u0085' || c = '\u00a0' || c = '\u1680' ||
  (0x2000 ≤ c.toNat && c.toNat ≤ 0x200a) ||
  c = '\u2028' || c = '\u2029' || c = '\u202f' || c = '\u205f' || c = '\u3000'

/-- Go's `strings.TrimSpace`. -/
def trimSpace (s : String) : String :=
  String.mk ((s.data.dropWhile isSpace).reverse.dropWhile isSpace).reverse

/-- The function `getenv(k, def)`: `env` is `os.Getenv`. -/
def getenv (env : String → String) (k dflt : String) : String :=
  let v := trimSpace (env k)
  if v ≠ "" then v else dflt

/-- The `LabelerConfig` that `main` builds from the environment. -/
def mainLabelerConfig (env : String → String) : LabelerConfig :=
  { IngressNS := getenv env "INGRESS_NAMESPACE" "ingress-nginx"
    IngressSvc := getenv env "INGRESS_SERVICE" "ingress-nginx-controller"
    LabelKey := getenv env "LABEL_KEY" "role"
    LabelVal := getenv env "LABEL_VALUE" "ingress" }

/-- The inner loop of lines 84-90: the endpoints of one slice. An endpoint adds
its node name when `Ready` is set and true and `NodeName` is set and not empty. -/
def desiredAddEndpoints (desired : StrSet) : List Endpoint → StrSet
  | [] => desired
  | ep :: rest =>
    match ep.Ready, ep.NodeName with
    | some true, some name =>
      if name ≠ "" then desiredAddEndpoints (desired.insert name) rest
      else desiredAddEndpoints desired rest
    | _, _ => desiredAddEndpoints desired rest

/-- The outer loop of lines 83-91 over `slices.Items`. -/
def desiredAddSlices (desired : StrSet) : List EndpointSlice → StrSet
  | [] => desired
  | es :: rest => desiredAddSlices (desiredAddEndpoints desired es.Endpoints) rest

/-- The set `desired` of lines 82-91, from the listed slices. -/
def desiredNodes (slices : List EndpointSlice) : StrSet :=
  desiredAddSlices [] slices

/-- The merge patch of one node: the label key it sets (`some v`) or removes. -/
structure NodePatch where
  NodeName : String
  Key : String
  Value : Option String
  deriving DecidableEq, Repr

/-- The store's effect of a node merge patch on the node it names. -/
def NodePatch.apply (p : NodePatch) (n : Node) : Node :=
  match p.Value with
  | some v => { n with Labels := n.Labels.set p.Key v }
  | none => { n with Labels := n.Labels.delete p.Key }

/-- What a pass of Controller A leaves behind: the nodes of the store, the
patches it issued (in order), and the error it returns, if any. -/
structure LabelPass where
  nodes : List Node
  patches : List NodePatch
  err : Option Err
  deriving DecidableEq, Repr

/-- The expression `has` of line 103. -/
def hasLabel (cfg : LabelerConfig) (n : Node) : Bool :=
  n.Labels.get cfg.LabelKey == cfg.LabelVal

/-- The loop of lines 101-127 over `nodes.Items`. A rejected patch leaves its
node as it was and ends the pass with that error. -/
def labelNodes (cfg : LabelerConfig) (patchFails : String → Bool) (desired : StrSet) :
    List Node → LabelPass
  | [] => { nodes := [], patches := [], err := none }
  | n :: rest =>
    let has := hasLabel cfg n
    let want := decide (n.Name ∈ desired)
    if want && !has then
      let p : NodePatch := { NodeName := n.Name, Key := cfg.LabelKey, Value := some cfg.LabelVal }
      if patchFails n.Name then
        { nodes := n :: rest, patches := [p], err := some (Err.patchNode n.Name) }
      else
        let r := labelNodes cfg patchFails desired rest
        { nodes := p.apply n :: r.nodes, patches := p :: r.patches, err := r.err }
    else if !want && has then
      let p : NodePatch := { NodeName := n.Name, Key := cfg.LabelKey, Value := none }
      if patchFails n.Name then
        { nodes := n :: rest, patches := [p], err := some (Err.patchNode n.Name) }
      else
        let r := labelNodes cfg patchFails desired rest
        { nodes := p.apply n :: r.nodes, patches := p :: r.patches, err := r.err }
    else
      let r := labelNodes cfg patchFails desired rest
      { nodes := n :: r.nodes, patches := r.patches, err := r.err }

/-- The set `desired` that a pass of Controller A computes from the store: the
slices it lists for the configured Service, then lines 82-91. -/
def DesiredNodeSetA (cfg : LabelerConfig) (c : Cluster) : StrSet :=
  desiredNodes (listSlicesFor c cfg.IngressNS cfg.IngressSvc)

/-- The method `SliceReconciler.Reconcile`: list the slices, compute `desired`,
list the nodes, patch the labels. The request is only logged. -/
def SliceReconciler.Reconcile (cfg : LabelerConfig) (f : Faults) (c : Cluster) : LabelPass :=
  if f.listSlices then { nodes := c.nodes, patches := [], err := some Err.listSlices }
  else
    let desired := DesiredNodeSetA cfg c
    if f.listNodes then { nodes := c.nodes, patches := [], err := some Err.listNodes }
    else labelNodes cfg f.patchNode desired c.nodes

/-- The store after a pass of Controller A. -/
def SliceReconciler.after (cfg : LabelerConfig) (f : Faults) (c : Cluster) : Cluster :=
  { c with nodes := (SliceReconciler.Reconcile cfg f c).nodes }

/-- A node carries the marker label: the key is bound to the configured value. -/
def carriesMarker (cfg : LabelerConfig) (n : Node) : Prop :=
  n.Labels.lookup cfg.LabelKey = some cfg.LabelVal

instance (cfg : LabelerConfig) (n : Node) : Decidable (carriesMarker cfg n) := by
  unfold carriesMarker; infer_instance

/-- An endpoint that Controller A counts: ready, on the node name `n`. -/
def readyOn (n : String) (ep : Endpoint) : Prop :=
  ep.NodeName = some n ∧ ep.Ready = some true

/-! ## Time: `time.Now().UTC().Format(time.RFC3339Nano)`

The Go standard library is not part of the repository; this is its documented
behaviour for a UTC instant, with the layout `2006-01-02T15:04:05.999999999Z07:00`:
a year of at least four digits, two-digit fields, the fractional second with
its trailing zeros removed (and no decimal point when it is zero), then `Z`. -/

/-- An instant as `time.Time` holds it: Unix seconds and nanoseconds within the
second (`nsec < 10^9`). -/
structure Time where
  sec : Int
  nsec : Nat
  deriving DecidableEq, Repr

/-- The nanosecond field is within the second. -/
def Time.wellFormed (t : Time) : Prop := t.nsec < 1000000000

/-- The chronological order of instants (`t.Before(u)`). -/
def Time.before (t u : Time) : Prop :=
  t.sec < u.sec ∨ (t.sec = u.sec ∧ t.nsec < u.nsec)

instance (t u : Time) : Decidable (t.before u) := by
  unfold Time.before; infer_instance

instance (t : Time) : Decidable t.wellFormed := by
  unfold Time.wellFormed; infer_instance

/-- The ASCII digit of `d < 10`. -/
def digitChar (d : Nat) : Char := Char.ofNat (48 + d)

/-- The last `w` decimal digits of `u`, most significant first. -/
def padDigits : Nat → Nat → List Char
  | 0, _ => []
  | w + 1, u => padDigits w (u / 10) ++ [digitChar (u % 10)]

/-- The loop `for u2 := u; u2 > 0; u2 /= 10 { n++ }` of `appendInt`. -/
def countDigits : Nat → Nat → Nat
  | 0, _ => 0
  | fuel + 1, u => if u = 0 then 0 else 1 + countDigits fuel (u / 10)

/-- The number of decimal digits of `u` (one for zero). -/
def numDigits (u : Nat) : Nat := if u = 0 then 1 else countDigits u u

/-- Go's `appendInt(b, x, width)`: the decimal form of `x`, zero-padded to at
least `width` digits, after a minus sign when `x` is negative. -/
def appendInt (x : Int) (width : Nat) : List Char :=
  let u := x.natAbs
  let ds := padDigits (max width (numDigits u)) u
  if x < 0 then '-' :: ds else ds

/-- The trimming loop of `appendNano`: drop the trailing `0` digits. -/
def trimZeros (l : List Char) : List Char :=
  (l.reverse.dropWhile (fun c => c == '0')).reverse

/-- Go's `appendNano` for the layout element `.999999999`: nothing for zero,
else a point and the nine digits without their trailing zeros. -/
def appendNano (nanosec : Nat) : List Char :=
  if nanosec = 0 then [] else '.' :: trimZeros (appendInt nanosec 9)

/-- The digits `appendNano` writes after the point: the nine digits of the
nanosecond without their trailing zeros (none at all for a whole second). -/
def fractionDigits (nanosec : Nat) : List Char := trimZeros (appendInt nanosec 9)

/-- Go's `isLeap`. -/
def isLeap (year : Int) : Bool :=
  year % 4 == 0 && (year % 100 != 0 || year % 400 == 0)

/-- Go's table `daysBefore`: the days of a common year before each month. -/
def daysBefore : List Int := [0, 31, 59, 90, 120, 151, 181, 212, 243, 273, 304, 334, 365]

/-- The year part of Go's `absDate`, from the days since 1 January of year 1:
cut off the 400-year, 100-year, 4-year and 1-year cycles. Returns the year and
the day within the year (from 0). -/
def yearOfDays (d : Int) : Int × Int :=
  let n400 := d / 146097
  let d1 := d - 146097 * n400
  let n100 := d1 / 36524
  let n100 := n100 - n100 / 4
  let d2 := d1 - 36524 * n100
  let n4 := d2 / 1461
  let d3 := d2 - 1461 * n4
  let n1 := d3 / 365
  let n1 := n1 - n1 / 4
  let d4 := d3 - 365 * n1
  (400 * n400 + 100 * n100 + 4 * n4 + n1 + 1, d4)

/-- The month estimate of Go's `absDate` for the day `day` (from 0) of a common
year: assume 31-day months, then correct by the table `daysBefore`. Returns
the month (from 1) and the day of the month (from 1). -/
def monthOfCommonDay (day : Int) : Int × Int :=
  let month := day / 31
  let end_ := daysBefore.getD (month + 1).toNat 0
  if day ≥ end_ then (month + 2, day - end_ + 1)
  else (month + 1, day - daysBefore.getD month.toNat 0 + 1)

/-- The month part of Go's `absDate`: month and day of the month of the day
`yday` of a leap or common year; in a leap year day 59 is 29 February and the
later days shift by one. -/
def monthDay (leap : Bool) (yday : Int) : Int × Int :=
  if leap && yday == 31 + 29 - 1 then (2, 29)
  else monthOfCommonDay (if leap && yday > 31 + 29 - 1 then yday - 1 else yday)

/-- The characters of `t.UTC().Format(time.RFC3339Nano)`. -/
def rfc3339NanoChars (t : Time) : List Char :=
  let days := t.sec / 86400 + 719162
  let rem := t.sec % 86400
  let yd := yearOfDays days
  let md := monthDay (isLeap yd.1) yd.2
  let hour := rem / 3600
  let min := rem % 3600 / 60
  let s := rem % 60
  appendInt yd.1 4 ++ '-' :: appendInt md.1 2 ++ '-' :: appendInt md.2 2 ++ 'T' ::
    appendInt hour 2 ++ ':' :: appendInt min 2 ++ ':' :: appendInt s 2 ++
    appendNano t.nsec ++ ['Z']

/-- The string `t.UTC().Format(time.RFC3339Nano)`. -/
def formatRFC3339Nano (t : Time) : String :=
  String.mk (rfc3339NanoChars t)

/-- The instants whose UTC year has four digits: from 0000-01-01T00:00:00Z up to
9999-12-31T23:59:59.999999999Z. -/
def Time.fourDigitYear (t : Time) : Prop :=
  -62167219200 ≤ t.sec ∧ t.sec < 253402300800

instance (t : Time) : Decidable t.fourDigitYear := by
  unfold Time.fourDigitYear; infer_instance

/-- The strict lexicographic order of pairs (month, day). -/
def pairLt (p q : Int × Int) : Prop := p.1 < q.1 ∨ (p.1 = q.1 ∧ p.2 < q.2)

instance (p q : Int × Int) : Decidable (pairLt p q) := by
  unfold pairLt; infer_instance

/-- The year digits of a day count: the cycle counts that `yearOfDays` cuts off. -/
structure YearDigits (d : Int) where
  n400 : Int
  n100 : Int
  n4 : Int
  n1 : Int
  yd : Int
  hyear : yearOfDays d = (400 * n400 + 100 * n100 + 4 * n4 + n1 + 1, yd)
  hsum : d = 146097 * n400 + 36524 * n100 + 1461 * n4 + 365 * n1 + yd
  h100 : 0 ≤ n100 ∧ n100 ≤ 3
  h4 : 0 ≤ n4 ∧ n4 ≤ 24
  h1 : 0 ≤ n1 ∧ n1 ≤ 3
  hyd : 0 ≤ yd ∧ yd ≤ 365
  hlast : yd = 365 → n1 = 3 ∧ (n4 = 24 → n100 = 3)
  ht3 : 365 * n1 + yd ≤ 1460
  ht2 : 1461 * n4 + 365 * n1 + yd ≤ 36524
  ht2' : 1461 * n4 + 365 * n1 + yd = 36524 → n100 = 3
  ht1 : 0 ≤ 36524 * n100 + 1461 * n4 + 365 * n1 + yd ∧
    36524 * n100 + 1461 * n4 + 365 * n1 + yd < 146097

/-! ## Controller B: Service -> poke CCM backend-set sync -/

/-- The part of `k8s.io/apimachinery/pkg/labels` the operator calls: the parser
`labels.Parse` (with the text of its error) and `Selector.Matches`. The library
is not part of the repository, so the reconciler takes it as a parameter. -/
structure SelectorLib (Sel : Type) where
  Parse : String → Except String Sel
  Matches : Sel → StrMap → Bool

/-- A reconcile request: `req.NamespacedName`. -/
structure Request where
  Namespace : String
  Name : String
  deriving DecidableEq, Repr

/-- An event recorded on a Service by `Recorder.Eventf`. -/
structure Event where
  Namespace : String
  Name : String
  Type_ : String
  Reason : String
  Message : String
  deriving DecidableEq, Repr

/-- The constant `corev1.EventTypeWarning`. -/
def EventTypeWarning : String := "Warning"

/-- The constant `corev1.EventTypeNormal`. -/
def EventTypeNormal : String := "Normal"

/-- The merge patch of a Service: the annotation it sets. -/
structure ServicePatch where
  Namespace : String
  Name : String
  Key : String
  Value : String
  deriving DecidableEq, Repr

/-- The store's effect of a Service merge patch: the named Service gets the
annotation, every other object is as before. -/
def ServicePatch.apply (p : ServicePatch) (c : Cluster) : Cluster :=
  { c with services := c.services.map (fun s =>
      if s.Namespace = p.Namespace ∧ s.Name = p.Name then
        { s with Annotations := s.Annotations.set p.Key p.Value }
      else s) }

/-- A patch call of either kind. -/
inductive Patch where
  | node (p : NodePatch)
  | service (p : ServicePatch)
  deriving DecidableEq, Repr

/-- The client call `r.Get(ctx, req.NamespacedName, &svc)` on the store. -/
def getService (c : Cluster) (req : Request) : Option Service :=
  c.services.find? (fun s => decide (s.Namespace = req.Namespace ∧ s.Name = req.Name))

/-- The function `isNodeReady`: the status of the first `Ready` condition. -/
def isNodeReadyConds : List NodeCondition → Bool
  | [] => false
  | c :: rest => if c.Type_ = "Ready" then decide (c.Status = "True") else isNodeReadyConds rest

/-- The function `isNodeReady`. -/
def isNodeReady (n : Node) : Bool := isNodeReadyConds n.Conditions

/-- The function `isNodeSchedulable`. -/
def isNodeSchedulable (n : Node) : Bool := !n.Unschedulable

/-- The loop of `nodePrimaryInternalIP` over `n.Status.Addresses`. -/
def primaryInternalIPOf : List NodeAddress → String
  | [] => ""
  | a :: rest => if a.Type_ = "InternalIP" then a.Address else primaryInternalIPOf rest

/-- The function `nodePrimaryInternalIP`. -/
def nodePrimaryInternalIP (n : Node) : String := primaryInternalIPOf n.Addresses

/-- The loop of lines 199-206: the addresses of the ready, schedulable nodes of
the listed nodes. -/
def candidateLoop (acc : StrSet) : List Node → StrSet
  | [] => acc
  | n :: rest =>
    if isNodeReady n && isNodeSchedulable n then
      let ip := nodePrimaryInternalIP n
      if ip ≠ "" then candidateLoop (acc.insert ip) rest else candidateLoop acc rest
    else candidateLoop acc rest

/-- The inner loop of lines 222-226: every endpoint with a node name, ready or
not, adds that name. -/
def nodesWithEPEndpoints (acc : StrSet) : List Endpoint → StrSet
  | [] => acc
  | ep :: rest =>
    match ep.NodeName with
    | some name => nodesWithEPEndpoints (acc.insert name) rest
    | none => nodesWithEPEndpoints acc rest

/-- The outer loop of lines 221-227. -/
def nodesWithEPSlices (acc : StrSet) : List EndpointSlice → StrSet
  | [] => acc
  | es :: rest => nodesWithEPSlices (nodesWithEPEndpoints acc es.Endpoints) rest

/-- The loop of lines 229-236: the listed nodes that host an endpoint and pass
the three checks again. -/
def filteredLoop {Sel : Type} (lib : SelectorLib Sel) (selector : Sel) (nodesWithEP : StrSet)
    (acc : StrSet) : List Node → StrSet
  | [] => acc
  | n :: rest =>
    if decide (n.Name ∈ nodesWithEP) && isNodeReady n && isNodeSchedulable n &&
        lib.Matches selector n.Labels then
      let ip := nodePrimaryInternalIP n
      if ip ≠ "" then filteredLoop lib selector nodesWithEP (acc.insert ip) rest
      else filteredLoop lib selector nodesWithEP acc rest
    else filteredLoop lib selector nodesWithEP acc rest

/-- The list call of line 194: the nodes whose labels match the selector. -/
def listNodesMatching {Sel : Type} (lib : SelectorLib Sel) (selector : Sel) (c : Cluster) :
    List Node :=
  c.nodes.filter (fun n => lib.Matches selector n.Labels)

/-- Lines 193-239: the candidate set `candidateIPs` of a Service whose selector
parsed, or the error of a failed read. -/
def candidateIPs {Sel : Type} (lib : SelectorLib Sel) (f : Faults) (c : Cluster)
    (svc : Service) (selector : Sel) : Except Err StrSet :=
  if f.listNodes then Except.error Err.listNodes
  else
    let nodeList := listNodesMatching lib selector c
    let candidates := candidateLoop [] nodeList
    if svc.ExternalTrafficPolicy = ServiceExternalTrafficPolicyTypeLocal then
      if f.listSlices then Except.error Err.listSlices
      else
        let slices := listSlicesFor c svc.Namespace svc.Name
        let nodesWithEP := nodesWithEPSlices [] slices
        Except.ok (filteredLoop lib selector nodesWithEP [] nodeList)
    else Except.ok candidates

/-- The sampling loop of lines 257-265 over the iteration order `ips` of the
candidate set: stop after the fifth address. -/
def sampleLoop (i : Nat) (acc : List String) : List String → List String
  | [] => acc
  | ip :: rest =>
    let acc := acc ++ [ip]
    let i := i + 1
    if i = 5 then acc else sampleLoop i acc rest

/-- The verb `%v` of `fmt` on a `[]string`. -/
def formatStrings (l : List String) : String :=
  "[" ++ " ".intercalate l ++ "]"

/-- What a pass of Controller B leaves behind: the store, the patch calls it
issued, the events it recorded, the candidate set if it computed one, and the
error it returns, if any. -/
structure SyncPass where
  cluster : Cluster
  patches : List Patch
  events : List Event
  candidates : Option StrSet
  err : Option Err
  deriving DecidableEq, Repr

/-- A pass that ends without a call that writes: `return ctrl.Result{}, nil`
or `return ctrl.Result{}, err`. -/
def SyncPass.ret (c : Cluster) (err : Option Err) : SyncPass :=
  { cluster := c, patches := [], events := [], candidates := none, err := err }

/-- Lines 241-273: the trigger patch and the informational event. `iter` is the
order in which Go ranges over the map `candidateIPs`. -/
def pokeCCM (iter : StrSet → List String) (now : Time) (f : Faults) (c : Cluster)
    (svc : Service) (candidates : StrSet) : SyncPass :=
  let ts := formatRFC3339Nano now
  let p : ServicePatch :=
    { Namespace := svc.Namespace, Name := svc.Name, Key := AnnotationTrigger, Value := ts }
  if f.patchService then
    { cluster := c, patches := [Patch.service p], events := [],
      candidates := some candidates, err := some Err.patchService }
  else
    let msg :=
      if candidates.length > 0 then
        "Triggered CCM refresh for " ++ toString candidates.length ++
          " candidate backend nodes (e.g., " ++ formatStrings (sampleLoop 0 [] (iter candidates))
          ++ ")"
      else "Triggered CCM refresh; zero matching backend nodes after filters"
    { cluster := p.apply c, patches := [Patch.service p],
      events := [{ Namespace := svc.Namespace, Name := svc.Name, Type_ := EventTypeNormal,
                   Reason := "TriggerCCM", Message := msg }],
      candidates := some candidates, err := none }

/-- Lines 172-174: the read `r.Get` of the requested Service followed by
`client.IgnoreNotFound`: a failed read is an error, an absent Service is not. -/
def readService (f : Faults) (c : Cluster) (req : Request) : Except Err (Option Service) :=
  if f.getService then Except.error Err.getService else Except.ok (getService c req)

/-- The warning event of line 184. -/
def invalidSelectorEvent (svc : Service) (e : String) : Event :=
  { Namespace := svc.Namespace, Name := svc.Name, Type_ := EventTypeWarning,
    Reason := "InvalidSelector",
    Message := "failed to parse " ++ AnnotationNodeSelector ++ ": " ++ e }

/-- The method `ServiceReconciler.Reconcile`. -/
def ServiceReconciler.Reconcile {Sel : Type} (lib : SelectorLib Sel)
    (iter : StrSet → List String) (now : Time) (f : Faults) (c : Cluster) (req : Request) :
    SyncPass :=
  match readService f c req with
  | Except.error e => SyncPass.ret c (some e)
  | Except.ok none => SyncPass.ret c none
  | Except.ok (some svc) =>
    if svc.Type_ ≠ ServiceTypeLoadBalancer then SyncPass.ret c none
    else
      match svc.Annotations.lookup AnnotationNodeSelector with
      | none => SyncPass.ret c none
      | some selectorString =>
        if selectorString = "" then SyncPass.ret c none
        else
          match lib.Parse selectorString with
          | Except.error e =>
            { cluster := c, patches := [], events := [invalidSelectorEvent svc e],
              candidates := none, err := none }
          | Except.ok selector =>
            match candidateIPs lib f c svc selector with
            | Except.error e => SyncPass.ret c (some e)
            | Except.ok candidates => pokeCCM iter now f c svc candidates

/-- The Service that a pass reads is in scope: it is of type LoadBalancer and its
selector annotation is present, not empty, and parses to `selector`. -/
def InScope {Sel : Type} (lib : SelectorLib Sel) (svc : Service) (selector : Sel) : Prop :=
  svc.Type_ = ServiceTypeLoadBalancer ∧
  ∃ s, svc.Annotations.lookup AnnotationNodeSelector = some s ∧ s ≠ "" ∧
    lib.Parse s = Except.ok selector

/-- The set `nodesWithEP` of a Service: lines 211-227. -/
def nodesWithEP (c : Cluster) (svc : Service) : StrSet :=
  nodesWithEPSlices [] (listSlicesFor c svc.Namespace svc.Name)

/-- A selector library for the examples: the one-requirement fragment
`key=value` of the selector grammar. -/
def eqSelectorLib : SelectorLib (String × String) :=
  { Parse := fun s =>
      match s.data.span (fun ch => ch != '=') with
      | (k, '=' :: v) =>
        if k = [] ∨ '=' ∈ v then Except.error "invalid selector"
        else Except.ok (String.mk k, String.mk v)
      | _ => Except.error "invalid selector"
    Matches := fun sel m => decide (m.lookup sel.1 = some sel.2) }

/-! ## Example cluster (the scenario of the specification, section 8) -/

/-- The default configuration of `main`. -/
def exampleConfig : LabelerConfig :=
  { IngressNS := "ingress-nginx", IngressSvc := "ingress-nginx-controller",
    LabelKey := "role", LabelVal := "ingress" }

/-- A bare node. -/
def exampleNode (name : String) (labels : StrMap) : Node :=
  { Name := name, Labels := labels, Unschedulable := false, Conditions := [], Addresses := [] }

/-- Ready endpoints on `a` and `b`; node `c` wrongly carries `role=ingress`. -/
def exampleCluster : Cluster :=
  { nodes := [exampleNode "a" [], exampleNode "b" [("zone", "x")],
              exampleNode "c" [("role", "ingress")], exampleNode "d" [("role", "db")]]
    services := []
    slices := [{ Namespace := "ingress-nginx", Name := "s1",
                 Labels := [(LabelServiceName, "ingress-nginx-controller")],
                 Endpoints := [{ NodeName := some "a", Ready := some true },
                               { NodeName := some "b", Ready := some true },
                               { NodeName := some "d", Ready := some false }] }] }

/-- A ready, schedulable node with labels and addresses. -/
def readyNode (name : String) (labels : StrMap) (addrs : List NodeAddress) : Node :=
  { Name := name, Labels := labels, Unschedulable := false,
    Conditions := [{ Type_ := "MemoryPressure", Status := "False" },
                   { Type_ := "Ready", Status := "True" }],
    Addresses := addrs }

/-- The Service `ns/web` of the specification, with a given traffic policy and
selector annotation. -/
def webService (policy selector : String) : Service :=
  { Namespace := "ns", Name := "web", Type_ := "LoadBalancer",
    ExternalTrafficPolicy := policy,
    Annotations := [("team", "edge"), (AnnotationNodeSelector, selector)] }

/-- The request for `ns/web`. -/
def webRequest : Request := { Namespace := "ns", Name := "web" }

/-- A membership record of `ns/web` that references only `n1`. -/
def webSlice : EndpointSlice :=
  { Namespace := "ns", Name := "web-abc", Labels := [(LabelServiceName, "web")],
    Endpoints := [{ NodeName := some "n1", Ready := some false }] }

/-- The scenario of the specification: `n1` and `n2` match `tier=edge`, are ready
and schedulable; only `n1` hosts an endpoint of `ns/web`. -/
def webCluster (policy : String) : Cluster :=
  { nodes := [readyNode "n1" [("tier", "edge")] [{ Type_ := "InternalIP", Address := "10.0.0.1" }],
              readyNode "n2" [("tier", "edge")] [{ Type_ := "Hostname", Address := "n2" },
                                                 { Type_ := "InternalIP", Address := "10.0.0.2" }]]
    services := [webService policy "tier=edge"]
    slices := [webSlice] }

/-- Go's map order is unspecified; the examples range in insertion order. -/
def insertionOrder : StrSet → List String := fun s => s

/-- An instant of the examples: 2024-01-01T12:00:00Z. -/
def noon : Time := { sec := 1704110400, nsec := 0 }

/-- A later record set for the example: ready endpoints on `b` and `d`. -/
def exampleRecords2 : List EndpointSlice :=
  [{ Namespace := "ingress-nginx", Name := "s1",
     Labels := [(LabelServiceName, "ingress-nginx-controller")],
     Endpoints := [{ NodeName := some "b", Ready := some true },
                   { NodeName := some "d", Ready := some true }] }]

/-- A record of the ingress Service whose only endpoint is ready and names the
empty node name. -/
def emptyNameCluster : Cluster :=
  { nodes := [], services := []
    slices := [{ Namespace := "ingress-nginx", Name := "s1",
                 Labels := [(LabelServiceName, "ingress-nginx-controller")],
                 Endpoints := [{ NodeName := some "", Ready := some true }] }] }

/-- The trigger patch of line 248 for a Service at an instant. -/
def triggerPatch (svc : Service) (now : Time) : ServicePatch :=
  { Namespace := svc.Namespace, Name := svc.Name, Key := AnnotationTrigger,
    Value := formatRFC3339Nano now }

/-- No endpoint of the Service's membership records references the node. -/
def hostsNoEndpoint (c : Cluster) (svc : Service) (n : Node) : Prop :=
  ∀ es ∈ listSlicesFor c svc.Namespace svc.Name, ∀ ep ∈ es.Endpoints,
    ep.NodeName ≠ some n.Name

instance (c : Cluster) (svc : Service) (n : Node) : Decidable (hostsNoEndpoint c svc n) := by
  unfold hostsNoEndpoint; infer_instance

/-- Two Services that differ at most in the trigger annotation. -/
def Service.sameButTrigger (s1 s2 : Service) : Prop :=
  s1.Namespace = s2.Namespace ∧ s1.Name = s2.Name ∧ s1.Type_ = s2.Type_ ∧
  s1.ExternalTrafficPolicy = s2.ExternalTrafficPolicy ∧
  ∀ k, k ≠ AnnotationTrigger → s1.Annotations.lookup k = s2.Annotations.lookup k

/-- Two stores that differ at most in the trigger annotation of their Services. -/
def Cluster.sameButTrigger (c1 c2 : Cluster) : Prop :=
  c1.nodes = c2.nodes ∧ c1.slices = c2.slices ∧
  List.Forall₂ Service.sameButTrigger c1.services c2.services

/-- The node `n2` of the scenario without an address of type `InternalIP`. -/
def noAddressNode : Node :=
  readyNode "n2" [("tier", "edge")] [{ Type_ := "Hostname", Address := "n2" }]

/-- The scenario under Cluster policy, where `n2` reports no internal address. -/
def noAddressCluster : Cluster :=
  { nodes := [readyNode "n1" [("tier", "edge")] [{ Type_ := "InternalIP", Address := "10.0.0.1" }],
              noAddressNode]
    services := [webService "Cluster" "tier=edge"]
    slices := [webSlice] }

/-- A node `n2` that reports the same internal address as `n1`. -/
def sharedAddressNode : Node :=
  readyNode "n2" [("tier", "edge")] [{ Type_ := "InternalIP", Address := "10.0.0.1" }]

/-- The scenario under Local policy, where `n2` shares the address of `n1`. -/
def sharedAddressCluster : Cluster :=
  { nodes := [readyNode "n1" [("tier", "edge")] [{ Type_ := "InternalIP", Address := "10.0.0.1" }],
              sharedAddressNode]
    services := [webService "Local" "tier=edge"]
    slices := [webSlice] }

/-- The node `n2` of the scenario. -/
def nodeN2 : Node :=
  readyNode "n2" [("tier", "edge")] [{ Type_ := "Hostname", Address := "n2" },
                                     { Type_ := "InternalIP", Address := "10.0.0.2" }]

/-- The scenario with a selector annotation that does not parse. -/
def malformedCluster : Cluster :=
  { webCluster "Local" with services := [webService "Local" "tier"] }

/-- The Service that the pass reads is out of scope: it is absent, or not of
type LoadBalancer, or its selector annotation is absent or empty. -/
def OutOfScope (f : Faults) (c : Cluster) (req : Request) : Prop :=
  readService f c req = Except.ok none ∨
  ∃ svc, readService f c req = Except.ok (some svc) ∧
    (svc.Type_ ≠ ServiceTypeLoadBalancer ∨
     svc.Annotations.lookup AnnotationNodeSelector = none ∨
     svc.Annotations.lookup AnnotationNodeSelector = some "")

/-- The scenario with a Service of type ClusterIP. -/
def clusterIPCluster : Cluster :=
  { webCluster "Local" with
    services := [{ webService "Local" "tier=edge" with Type_ := "ClusterIP" }] }

/-- The scenario where the Service already carries a trigger annotation. -/
def triggeredCluster : Cluster :=
  { webCluster "Local" with
    services := [{ webService "Local" "tier=edge" with
      Annotations := (AnnotationTrigger, "2023-12-31T08:00:00.5Z") ::
        (webService "Local" "tier=edge").Annotations }] }

/-- The trigger annotation of the requested Service in a store, if any. -/
def triggerOf (c : Cluster) (req : Request) : Option String :=
  (getService c req).bind (fun s => s.Annotations.lookup AnnotationTrigger)

/-- A tenth of a second after `noon`: 2024-01-01T12:00:00.1Z. -/
def noonTenth : Time := { sec := 1704110400, nsec := 100000000 }

/-- An instant with two fractional digits: 2024-01-01T12:00:00.25Z. -/
def noonQuarter : Time := { sec := 1704110400, nsec := 250000000 }

/-- Half a second after `noon`: 2024-01-01T12:00:00.5Z. -/
def noonHalf : Time := { sec := 1704110400, nsec := 500000000 }

/-- The second after `noon`: 2024-01-01T12:00:01Z. -/
def noonNext : Time := { sec := 1704110401, nsec := 0 }

/-- The last second of the year 9999: 9999-12-31T23:59:59Z. -/
def lastOf9999 : Time := { sec := 253402300799, nsec := 0 }

/-- The first second of the year 10000, rendered `10000-01-01T00:00:00Z`. -/
def firstOf10000 : Time := { sec := 253402300800, nsec := 0 }

/-- The first second of the year before the year before 0000, rendered
`-0002-01-01T00:00:00Z`. -/
def firstOfMinus2 : Time := { sec := -62230291200, nsec := 0 }

/-- The first second of the year before 0000, rendered `-0001-01-01T00:00:00Z`. -/
def firstOfMinus1 : Time := { sec := -62198755200, nsec := 0 }

/-! ## Events, predicates and mappers -/

/-- A cluster object as the handlers receive it (`client.Object`): the type
assertion `obj.(*T)` succeeds on the matching constructor only. -/
inductive ClientObject where
  | node (n : Node)
  | service (s : Service)
  | slice (es : EndpointSlice)
  deriving DecidableEq, Repr

/-- The struct `event.CreateEvent`. -/
structure CreateEvent where
  Object : ClientObject
  deriving DecidableEq, Repr

/-- The struct `event.UpdateEvent`. -/
structure UpdateEvent where
  ObjectOld : ClientObject
  ObjectNew : ClientObject
  deriving DecidableEq, Repr

/-- The struct `event.DeleteEvent`. -/
structure DeleteEvent where
  Object : ClientObject
  deriving DecidableEq, Repr

/-- The method `SliceReconciler.isIngressSlice`. -/
def isIngressSlice (cfg : LabelerConfig) (obj : ClientObject) : Bool :=
  match obj with
  | ClientObject.slice es =>
    if es.Namespace ≠ cfg.IngressNS then false
    else es.Labels.get LabelServiceName == cfg.IngressSvc
  | _ => false

/-- The `CreateFunc` of `pred` in `SliceReconciler.SetupWithManager`. -/
def SliceReconciler.CreateFunc (cfg : LabelerConfig) (e : CreateEvent) : Bool :=
  isIngressSlice cfg e.Object

/-- The `UpdateFunc` of `pred` in `SliceReconciler.SetupWithManager`. -/
def SliceReconciler.UpdateFunc (cfg : LabelerConfig) (e : UpdateEvent) : Bool :=
  isIngressSlice cfg e.ObjectNew || isIngressSlice cfg e.ObjectOld

/-- The `DeleteFunc` of `pred` in `SliceReconciler.SetupWithManager`. -/
def SliceReconciler.DeleteFunc (cfg : LabelerConfig) (e : DeleteEvent) : Bool :=
  isIngressSlice cfg e.Object

/-- The function `isLBWithSelector`. -/
def isLBWithSelector (obj : ClientObject) : Bool :=
  match obj with
  | ClientObject.service svc =>
    if svc.Type_ ≠ ServiceTypeLoadBalancer then false
    else (svc.Annotations.lookup AnnotationNodeSelector).isSome
  | _ => false

/-- The `CreateFunc` of `svcPred`. -/
def svcPred.CreateFunc (e : CreateEvent) : Bool := isLBWithSelector e.Object

/-- The `UpdateFunc` of `svcPred`. -/
def svcPred.UpdateFunc (e : UpdateEvent) : Bool := isLBWithSelector e.ObjectNew

/-- The `DeleteFunc` of `svcPred`. -/
def svcPred.DeleteFunc (_e : DeleteEvent) : Bool := false

/-- The keys of a Go map, each once. -/
def StrMap.keys : StrMap → List String
  | [] => []
  | (k, _) :: rest => if k ∈ StrMap.keys rest then StrMap.keys rest else k :: StrMap.keys rest

/-- The builtin `len(m)` of a Go map: the number of its keys. -/
def StrMap.len (m : StrMap) : Nat := (StrMap.keys m).length

/-- The function `labels.Equals` of apimachinery (not part of the repository):
the two sets have the same size and every key of the first is in the second
with the same value. -/
def labelsEquals (labels1 labels2 : StrMap) : Bool :=
  if StrMap.len labels1 ≠ StrMap.len labels2 then false
  else (StrMap.keys labels1).all (fun k =>
    match labels2.lookup k with
    | none => false
    | some value => decide (labels1.lookup k = some value))

/-- The `CreateFunc` of `nodePred`. -/
def nodePred.CreateFunc (_e : CreateEvent) : Bool := true

/-- The `UpdateFunc` of `nodePred`. The two type assertions to `*corev1.Node`
have no `ok` form: on another kind of object they panic (`none`). -/
def nodePred.UpdateFunc (e : UpdateEvent) : Option Bool :=
  match e.ObjectOld, e.ObjectNew with
  | ClientObject.node oldN, ClientObject.node newN =>
    if isNodeReady oldN != isNodeReady newN ||
        isNodeSchedulable oldN != isNodeSchedulable newN then some true
    else some (!labelsEquals oldN.Labels newN.Labels)
  | _, _ => none

/-- The `DeleteFunc` of `nodePred`. -/
def nodePred.DeleteFunc (_e : DeleteEvent) : Bool := true

/-- The request for a Service: its namespace and name. -/
def requestFor (s : Service) : Request := { Namespace := s.Namespace, Name := s.Name }

/-- The loop of lines 302-306 over `list.Items`. -/
def nodeToSvcLoop (out : List Request) : List Service → List Request
  | [] => out
  | s :: rest =>
    if isLBWithSelector (ClientObject.service s) then nodeToSvcLoop (out ++ [requestFor s]) rest
    else nodeToSvcLoop out rest

/-- The map function `nodeToSvc`: `listFails` says whether the list call for
Services fails; the object that triggered the event is not looked at. -/
def nodeToSvc (listFails : Bool) (c : Cluster) (_obj : ClientObject) : List Request :=
  if listFails then [] else nodeToSvcLoop [] c.services

/-- The map function `esToSvc`. The type assertion to `*discoveryv1.EndpointSlice`
panics (`none`) on another kind of object. -/
def esToSvc (f : Faults) (c : Cluster) (obj : ClientObject) : Option (List Request) :=
  match obj with
  | ClientObject.slice es =>
    let svcName := es.Labels.get LabelServiceName
    if svcName = "" then some []
    else if f.getService then some []
    else
      match getService c { Namespace := es.Namespace, Name := svcName } with
      | none => some []
      | some svc =>
        if !isLBWithSelector (ClientObject.service svc) then some []
        else some [requestFor svc]
  | _ => none

/-! ## Statements about the reconcilers -/

/-- Two nodes that differ at most in the label `key`. -/
def Node.sameButLabel (key : String) (n n' : Node) : Prop :=
  n'.Name = n.Name ∧ n'.Unschedulable = n.Unschedulable ∧ n'.Conditions = n.Conditions ∧
  n'.Addresses = n.Addresses ∧ ∀ k, k ≠ key → n'.Labels.lookup k = n.Labels.lookup k

/-- The test of lines 106-126: the node's label state disagrees with the desired
set, so the loop patches it. -/
def needsPatch (cfg : LabelerConfig) (desired : StrSet) (n : Node) : Bool :=
  hasLabel cfg n != decide (n.Name ∈ desired)

/-- The node that one turn of the loop of lines 101-127 leaves in the store
when its patch, if any, is accepted. -/
def labelStep (cfg : LabelerConfig) (desired : StrSet) (n : Node) : Node :=
  if decide (n.Name ∈ desired) && !hasLabel cfg n then
    NodePatch.apply { NodeName := n.Name, Key := cfg.LabelKey, Value := some cfg.LabelVal } n
  else if !decide (n.Name ∈ desired) && hasLabel cfg n then
    NodePatch.apply { NodeName := n.Name, Key := cfg.LabelKey, Value := none } n
  else n

/-- The node list of `exampleCluster` after a pass: `a` and `b` gained
`role=ingress`, `c` lost it, `d` is as it was. -/
def exampleNodesAfter : List Node :=
  [exampleNode "a" [("role", "ingress")],
   exampleNode "b" [("role", "ingress"), ("zone", "x")],
   exampleNode "c" [], exampleNode "d" [("role", "db")]]

/-- Faults of the example: only the patch of node `c` is rejected. -/
def failOnC : Faults :=
  { Faults.none with patchNode := fun name => decide (name = "c") }

/-- A record of the ingress Service of `exampleConfig`. -/
def ingressSlice : EndpointSlice :=
  { Namespace := "ingress-nginx", Name := "s1",
    Labels := [(LabelServiceName, "ingress-nginx-controller")], Endpoints := [] }

/-- The same record after its service-name label moved to another Service. -/
def movedSlice : EndpointSlice :=
  { ingressSlice with Labels := [(LabelServiceName, "other")] }

/-- A node whose condition list holds two `Ready` conditions, the first false. -/
def twoReadyNode : Node :=
  { Name := "n", Labels := [], Unschedulable := false,
    Conditions := [{ Type_ := "Ready", Status := "False" },
                   { Type_ := "Ready", Status := "True" }],
    Addresses := [] }

/-- The first condition of type `Ready` in a list has status `True`. -/
def firstReadyIsTrue (conds : List NodeCondition) : Prop :=
  ∃ pre c suf, conds = pre ++ c :: suf ∧ (∀ x ∈ pre, x.Type_ ≠ "Ready") ∧
    c.Type_ = "Ready" ∧ c.Status = "True"

/-- The node `n2` of the scenario with another internal address and a changed
condition that is not `Ready`. -/
def readdressedN2 : Node :=
  { nodeN2 with
    Conditions := [{ Type_ := "MemoryPressure", Status := "True" },
                   { Type_ := "Ready", Status := "True" }],
    Addresses := [{ Type_ := "InternalIP", Address := "10.0.0.9" }] }

/-- The node `n2` of the scenario after it was cordoned. -/
def cordonedN2 : Node := { nodeN2 with Unschedulable := true }

/-- A store with the Service `ns/web`, a ClusterIP Service, and a LoadBalancer
Service that carries an empty selector annotation. -/
def threeServices : Cluster :=
  { nodes := [], slices := []
    services := [{ webService "Local" "tier=edge" with Type_ := "ClusterIP", Name := "db" },
                 webService "Local" "tier=edge",
                 { webService "Cluster" "" with Name := "bare" }] }

/-- The gate of lines 175-181 of `ServiceReconciler.Reconcile`: type
LoadBalancer and a selector annotation that is present and not empty. -/
def passesGate (svc : Service) : Prop :=
  svc.Type_ = ServiceTypeLoadBalancer ∧
  ∃ s, svc.Annotations.lookup AnnotationNodeSelector = some s ∧ s ≠ ""

/-- The informational event of lines 266-267 for a non-empty candidate set. -/
def sampleEvent (svc : Service) (n : Nat) (sample : List String) : Event :=
  { Namespace := svc.Namespace, Name := svc.Name, Type_ := EventTypeNormal,
    Reason := "TriggerCCM",
    Message := "Triggered CCM refresh for " ++ toString n ++
      " candidate backend nodes (e.g., " ++ formatStrings sample ++ ")" }

/-- The informational event of lines 269-270 for an empty candidate set. -/
def zeroMatchesEvent (svc : Service) : Event :=
  { Namespace := svc.Namespace, Name := svc.Name, Type_ := EventTypeNormal,
    Reason := "TriggerCCM",
    Message := "Triggered CCM refresh; zero matching backend nodes after filters" }

/-- What a pass changes at most in a Service: the trigger annotation, and only
of the requested Service. -/
def Service.framed (req : Request) (s s' : Service) : Prop :=
  Service.sameButTrigger s s' ∧
  (¬ (s.Namespace = req.Namespace ∧ s.Name = req.Name) → s' = s)

/-- A ready, schedulable node labelled `tier=edge` with one internal address. -/
def edgeNode (name ip : String) : Node :=
  readyNode name [("tier", "edge")] [{ Type_ := "InternalIP", Address := ip }]

/-- A store with seven ready, schedulable, matching nodes. -/
def sevenNodes : Cluster :=
  { nodes := [edgeNode "n1" "10.0.0.1", edgeNode "n2" "10.0.0.2", edgeNode "n3" "10.0.0.3",
              edgeNode "n4" "10.0.0.4", edgeNode "n5" "10.0.0.5", edgeNode "n6" "10.0.0.6",
              edgeNode "n7" "10.0.0.7"]
    services := [webService "Cluster" "tier=edge"]
    slices := [] }

/-- The LoadBalancer Service `ns/web` with an empty selector annotation. -/
def emptySelectorCluster : Cluster :=
  { webCluster "Local" with services := [webService "Local" ""] }

/-! ## Lemmas: string maps and sets -/

theorem StrMap.delete_cons (a b : String) (rest : StrMap) (k : String) :
    StrMap.delete ((a, b) :: rest) k =
      if a = k then StrMap.delete rest k else (a, b) :: StrMap.delete rest k := by
  by_cases h : a = k <;> simp [StrMap.delete, List.filter, h]

theorem StrMap.lookup_cons (a b : String) (rest : StrMap) (k : String) :
    StrMap.lookup ((a, b) :: rest) k = if a = k then some b else StrMap.lookup rest k := rfl

theorem StrMap.lookup_delete_self (m : StrMap) (k : String) :
    (m.delete k).lookup k = none := by
  induction m with
  | nil => rfl
  | cons p rest ih =>
    obtain ⟨a, b⟩ := p
    rw [StrMap.delete_cons]
    by_cases h : a = k
    · rw [if_pos h]; exact ih
    · rw [if_neg h, StrMap.lookup_cons, if_neg h]; exact ih

theorem StrMap.lookup_delete_other (m : StrMap) (k j : String) (h : j ≠ k) :
    (m.delete k).lookup j = m.lookup j := by
  induction m with
  | nil => rfl
  | cons p rest ih =>
    obtain ⟨a, b⟩ := p
    rw [StrMap.delete_cons, StrMap.lookup_cons]
    by_cases hk : a = k
    · have hj : a ≠ j := fun e => h (e ▸ hk)
      rw [if_pos hk, if_neg hj]; exact ih
    · rw [if_neg hk, StrMap.lookup_cons]
      by_cases hj : a = j
      · rw [if_pos hj, if_pos hj]
      · rw [if_neg hj, if_neg hj]; exact ih

theorem StrMap.lookup_set_self (m : StrMap) (k v : String) :
    (m.set k v).lookup k = some v := by
  simp [StrMap.set, StrMap.lookup]

theorem StrMap.lookup_set_other (m : StrMap) (k v j : String) (h : j ≠ k) :
    (m.set k v).lookup j = m.lookup j := by
  have hk : k ≠ j := fun e => h e.symm
  simp [StrMap.set, StrMap.lookup, hk, StrMap.lookup_delete_other m k j h]

theorem StrSet.mem_insert (s : StrSet) (x y : String) :
    y ∈ s.insert x ↔ y = x ∨ y ∈ s := by
  unfold StrSet.insert
  by_cases h : x ∈ s
  · simp only [h, if_true]
    constructor
    · exact Or.inr
    · rintro (rfl | h') <;> assumption
  · simp only [h, if_false, List.mem_append, List.mem_singleton]
    tauto

/-! ## Lemmas: the desired set of Controller A -/

theorem mem_desiredAddEndpoints (eps : List Endpoint) (d : StrSet) (n : String) :
    n ∈ desiredAddEndpoints d eps ↔ n ∈ d ∨ (n ≠ "" ∧ ∃ ep ∈ eps, readyOn n ep) := by
  induction eps generalizing d with
  | nil => simp [desiredAddEndpoints]
  | cons ep rest ih =>
    obtain ⟨nm, rd⟩ := ep
    unfold desiredAddEndpoints
    rcases rd with _ | _ | _ <;> rcases nm with _ | name <;>
      simp only [ih, readyOn, List.mem_cons, exists_eq_or_imp, false_and, and_false,
        false_or, reduceCtorEq, Option.some.injEq, Bool.false_eq_true]
    by_cases hne : name = ""
    · simp only [hne, ne_eq, not_true_eq_false, if_false, ih, and_true]
      constructor
      · rintro (h | ⟨h1, h2⟩)
        · exact Or.inl h
        · exact Or.inr ⟨h1, Or.inr h2⟩
      · rintro (h | ⟨h1, h2 | h2⟩)
        · exact Or.inl h
        · exact absurd h2.symm h1
        · exact Or.inr ⟨h1, h2⟩
    · simp only [ne_eq, hne, not_false_eq_true, if_true, ih, StrSet.mem_insert, and_true]
      constructor
      · rintro ((h | h) | ⟨h1, h2⟩)
        · exact Or.inr ⟨h ▸ hne, Or.inl h.symm⟩
        · exact Or.inl h
        · exact Or.inr ⟨h1, Or.inr h2⟩
      · rintro (h | ⟨h1, h2 | h2⟩)
        · exact Or.inl (Or.inr h)
        · exact Or.inl (Or.inl h2.symm)
        · exact Or.inr ⟨h1, h2⟩

theorem mem_desiredAddSlices (slices : List EndpointSlice) (d : StrSet) (n : String) :
    n ∈ desiredAddSlices d slices ↔
      n ∈ d ∨ (n ≠ "" ∧ ∃ es ∈ slices, ∃ ep ∈ es.Endpoints, readyOn n ep) := by
  induction slices generalizing d with
  | nil => simp [desiredAddSlices]
  | cons es rest ih =>
    unfold desiredAddSlices
    rw [ih, mem_desiredAddEndpoints]
    simp only [List.mem_cons, exists_eq_or_imp]
    generalize (∃ ep ∈ es.Endpoints, readyOn n ep) = P
    generalize (∃ es ∈ rest, ∃ ep ∈ es.Endpoints, readyOn n ep) = Q
    tauto

theorem mem_desiredNodes (slices : List EndpointSlice) (n : String) :
    n ∈ desiredNodes slices ↔
      n ≠ "" ∧ ∃ es ∈ slices, ∃ ep ∈ es.Endpoints, readyOn n ep := by
  unfold desiredNodes
  rw [mem_desiredAddSlices]
  simp

/-! ## Lemmas: the label loop of Controller A -/

theorem hasLabel_iff (cfg : LabelerConfig) (hval : cfg.LabelVal ≠ "") (n : Node) :
    hasLabel cfg n = true ↔ carriesMarker cfg n := by
  unfold hasLabel carriesMarker StrMap.get
  cases h : StrMap.lookup n.Labels cfg.LabelKey with
  | none =>
    simp only [Option.getD_none, beq_iff_eq, reduceCtorEq, iff_false]
    exact fun e => hval e.symm
  | some v => simp

theorem carries_apply_set (cfg : LabelerConfig) (n : Node) :
    carriesMarker cfg
      (NodePatch.apply { NodeName := n.Name, Key := cfg.LabelKey, Value := some cfg.LabelVal } n) := by
  simp [carriesMarker, NodePatch.apply, StrMap.lookup_set_self]

theorem not_carries_apply_delete (cfg : LabelerConfig) (n : Node) :
    ¬ carriesMarker cfg
      (NodePatch.apply { NodeName := n.Name, Key := cfg.LabelKey, Value := none } n) := by
  simp [carriesMarker, NodePatch.apply, StrMap.lookup_delete_self]

theorem NodePatch.apply_name (p : NodePatch) (n : Node) : (p.apply n).Name = n.Name := by
  unfold NodePatch.apply
  cases p.Value <;> rfl

/-- After a pass of the label loop that returns no error, the nodes are the
same nodes by name, and each carries the marker exactly when it is desired. -/
theorem labelNodes_converges (cfg : LabelerConfig) (hval : cfg.LabelVal ≠ "")
    (pf : String → Bool) (d : StrSet) (nodes : List Node)
    (hok : (labelNodes cfg pf d nodes).err = none) :
    (labelNodes cfg pf d nodes).nodes.map Node.Name = nodes.map Node.Name ∧
    ∀ n ∈ (labelNodes cfg pf d nodes).nodes, carriesMarker cfg n ↔ n.Name ∈ d := by
  induction nodes with
  | nil => simp [labelNodes]
  | cons n rest ih =>
    have hh := hasLabel_iff cfg hval n
    unfold labelNodes at hok ⊢
    by_cases hw : n.Name ∈ d <;> by_cases hl : hasLabel cfg n = true <;>
      by_cases hp : pf n.Name = true <;>
      simp only [hw, hl, hp, decide_True, decide_False, Bool.not_true, Bool.not_false,
        Bool.and_true, Bool.and_false, Bool.true_and, Bool.false_and, if_true, if_false,
        Bool.false_eq_true, reduceCtorEq, Bool.not_eq_true] at hok ⊢ <;>
      (obtain ⟨h1, h2⟩ := ih hok
       refine ⟨by simp [h1, NodePatch.apply_name], ?_⟩
       intro m hm
       rcases List.mem_cons.mp hm with rfl | hm
       · first
         | exact iff_of_true (hh.mp hl) hw
         | exact iff_of_false (fun hc => hl (hh.mpr hc)) hw
         | (simp only [NodePatch.apply_name]
            exact iff_of_true (carries_apply_set cfg n) hw)
         | (simp only [NodePatch.apply_name]
            exact iff_of_false (not_carries_apply_delete cfg n) hw)
       · exact h2 m hm)

/-- A label loop over nodes that all agree with the desired set already issues
no patch and returns the nodes as they are. -/
theorem labelNodes_fixed (cfg : LabelerConfig) (pf : String → Bool) (d : StrSet)
    (nodes : List Node) (h : ∀ n ∈ nodes, hasLabel cfg n = decide (n.Name ∈ d)) :
    labelNodes cfg pf d nodes = { nodes := nodes, patches := [], err := none } := by
  induction nodes with
  | nil => rfl
  | cons n rest ih =>
    have hn := h n (List.mem_cons_self _ _)
    have hr := ih (fun m hm => h m (List.mem_cons_of_mem _ hm))
    unfold labelNodes
    simp only [hn, hr]
    by_cases hw : n.Name ∈ d <;> simp [hw]

/-- The patches of a label loop that returns no error: one per node whose label
state disagrees with the desired set, in node order. -/
theorem labelNodes_patches (cfg : LabelerConfig) (pf : String → Bool) (d : StrSet)
    (nodes : List Node) (hok : (labelNodes cfg pf d nodes).err = none) :
    (labelNodes cfg pf d nodes).patches.map NodePatch.NodeName =
      (nodes.filter (fun n => hasLabel cfg n != decide (n.Name ∈ d))).map Node.Name := by
  induction nodes with
  | nil => rfl
  | cons n rest ih =>
    unfold labelNodes at hok ⊢
    by_cases hw : n.Name ∈ d <;> by_cases hl : hasLabel cfg n = true <;>
      by_cases hp : pf n.Name = true <;>
      simp only [hw, hl, hp, decide_True, decide_False, Bool.not_true, Bool.not_false,
        Bool.and_true, Bool.and_false, Bool.true_and, Bool.false_and, if_true, if_false,
        Bool.false_eq_true, reduceCtorEq, Bool.not_eq_true] at hok ⊢ <;>
      simp [List.filter, hl, hw, ih hok]

/-! ## Controller A: the claims -/

/-- C1 (convergence): after a pass of `SliceReconciler.Reconcile` that returns no
error, the store holds the same nodes by name, and every node carries the marker
label (the configured key bound to the configured value) if and only if its name
is in the desired set computed from the records at the start of the pass. The
configured value is not empty, as `getenv` guarantees. -/
theorem sliceReconcile_converges (cfg : LabelerConfig) (f : Faults) (c : Cluster)
    (hval : cfg.LabelVal ≠ "")
    (hok : (SliceReconciler.Reconcile cfg f c).err = none) :
    (SliceReconciler.Reconcile cfg f c).nodes.map Node.Name = c.nodes.map Node.Name ∧
    ∀ n ∈ (SliceReconciler.Reconcile cfg f c).nodes,
      carriesMarker cfg n ↔ n.Name ∈ DesiredNodeSetA cfg c := by
  unfold SliceReconciler.Reconcile at hok ⊢
  by_cases h1 : f.listSlices = true
  · simp [h1] at hok
  · by_cases h2 : f.listNodes = true
    · simp [h1, h2] at hok
    · simp only [h1, h2, Bool.false_eq_true, if_false] at hok ⊢
      exact labelNodes_converges cfg hval f.patchNode _ c.nodes hok

theorem sliceReconcile_converges_witness :
    exampleConfig.LabelVal ≠ "" ∧
    (SliceReconciler.Reconcile exampleConfig Faults.none exampleCluster).err = none ∧
    ((SliceReconciler.Reconcile exampleConfig Faults.none exampleCluster).nodes.map Node.Name
        = exampleCluster.nodes.map Node.Name ∧
      ∀ n ∈ (SliceReconciler.Reconcile exampleConfig Faults.none exampleCluster).nodes,
        carriesMarker exampleConfig n ↔ n.Name ∈ DesiredNodeSetA exampleConfig exampleCluster) :=
  ⟨by decide, by decide,
    sliceReconcile_converges exampleConfig Faults.none exampleCluster (by decide) (by decide)⟩

/-- The value `getenv` returns is never empty when the default is not. -/
theorem getenv_ne_empty (env : String → String) (k dflt : String) (h : dflt ≠ "") :
    getenv env k dflt ≠ "" := by
  unfold getenv
  by_cases hv : trimSpace (env k) ≠ ""
  · simp [hv]
  · simpa [hv] using h

/-- The label value that `main` configures is never the empty string. -/
theorem mainLabelerConfig_labelVal (env : String → String) :
    (mainLabelerConfig env).LabelVal ≠ "" :=
  getenv_ne_empty env "LABEL_VALUE" "ingress" (by decide)

/-- After a pass without error every node agrees with the desired set. -/
theorem sliceReconcile_agrees (cfg : LabelerConfig) (f : Faults) (c : Cluster)
    (hval : cfg.LabelVal ≠ "")
    (hok : (SliceReconciler.Reconcile cfg f c).err = none) :
    ∀ n ∈ (SliceReconciler.Reconcile cfg f c).nodes,
      hasLabel cfg n = decide (n.Name ∈ DesiredNodeSetA cfg c) := by
  intro n hn
  have h : carriesMarker cfg n ↔ n.Name ∈ DesiredNodeSetA cfg c := by
    unfold SliceReconciler.Reconcile at hok hn
    by_cases h1 : f.listSlices = true
    · simp [h1] at hok
    · by_cases h2 : f.listNodes = true
      · simp [h1, h2] at hok
      · simp only [h1, h2, Bool.false_eq_true, if_false] at hok hn
        exact (labelNodes_converges cfg hval f.patchNode _ c.nodes hok).2 n hn
  have hh := hasLabel_iff cfg hval n
  by_cases hw : n.Name ∈ DesiredNodeSetA cfg c
  · simpa [hw] using hh.mpr (h.mpr hw)
  · have : ¬ hasLabel cfg n = true := fun e => hw (h.mp (hh.mp e))
    simpa [hw] using this

/-- A pass never touches the slices, so the desired set is the same after it. -/
theorem desiredNodeSetA_after (cfg : LabelerConfig) (f : Faults) (c : Cluster) :
    DesiredNodeSetA cfg (SliceReconciler.after cfg f c) = DesiredNodeSetA cfg c := rfl

/-- C2 (idempotence): if a pass of `SliceReconciler.Reconcile` returns no error,
a second pass on the resulting store (same membership records), whatever calls
fail in it, issues zero patches and leaves the store unchanged. -/
theorem sliceReconcile_idempotent (cfg : LabelerConfig) (f f2 : Faults) (c : Cluster)
    (hval : cfg.LabelVal ≠ "")
    (hok : (SliceReconciler.Reconcile cfg f c).err = none) :
    (SliceReconciler.Reconcile cfg f2 (SliceReconciler.after cfg f c)).patches = [] ∧
    SliceReconciler.after cfg f2 (SliceReconciler.after cfg f c)
      = SliceReconciler.after cfg f c := by
  have hfix := labelNodes_fixed cfg f2.patchNode (DesiredNodeSetA cfg c)
    (SliceReconciler.Reconcile cfg f c).nodes (sliceReconcile_agrees cfg f c hval hok)
  have key : (SliceReconciler.Reconcile cfg f2 (SliceReconciler.after cfg f c)).patches = [] ∧
      (SliceReconciler.Reconcile cfg f2 (SliceReconciler.after cfg f c)).nodes
        = (SliceReconciler.Reconcile cfg f c).nodes := by
    show (SliceReconciler.Reconcile cfg f2 (SliceReconciler.after cfg f c)).patches = [] ∧
      (SliceReconciler.Reconcile cfg f2 (SliceReconciler.after cfg f c)).nodes
        = (SliceReconciler.after cfg f c).nodes
    generalize hc : SliceReconciler.after cfg f c = c1 at *
    have hd : DesiredNodeSetA cfg c1 = DesiredNodeSetA cfg c := by
      rw [← hc]; rfl
    have hn : c1.nodes = (SliceReconciler.Reconcile cfg f c).nodes := by
      rw [← hc]; rfl
    unfold SliceReconciler.Reconcile
    by_cases h1 : f2.listSlices = true
    · simp [h1]
    · by_cases h2 : f2.listNodes = true
      · simp [h1, h2]
      · simp only [h1, h2, Bool.false_eq_true, if_false, hd, hn, hfix, and_self]
  refine ⟨key.1, ?_⟩
  have h2 := key.2
  unfold SliceReconciler.after at h2 ⊢
  simp only [h2]

theorem sliceReconcile_idempotent_witness :
    exampleConfig.LabelVal ≠ "" ∧
    (SliceReconciler.Reconcile exampleConfig Faults.none exampleCluster).err = none ∧
    ((SliceReconciler.Reconcile exampleConfig Faults.none
        (SliceReconciler.after exampleConfig Faults.none exampleCluster)).patches = [] ∧
      SliceReconciler.after exampleConfig Faults.none
          (SliceReconciler.after exampleConfig Faults.none exampleCluster)
        = SliceReconciler.after exampleConfig Faults.none exampleCluster) :=
  ⟨by decide, by decide,
    sliceReconcile_idempotent exampleConfig Faults.none Faults.none exampleCluster
      (by decide) (by decide)⟩

/-- C3 (minimal diff): take a pass without error on any store (records R1), then
replace the records by any R2 and run a second pass without error. The second
pass issues exactly one patch for each node whose name is in exactly one of the
two desired sets, in node order, and none for any other node; so the number of
patches is the number of such nodes. -/
theorem sliceReconcile_minimal_diff (cfg : LabelerConfig) (f f2 : Faults) (c : Cluster)
    (R2 : List EndpointSlice) (hval : cfg.LabelVal ≠ "")
    (hok : (SliceReconciler.Reconcile cfg f c).err = none)
    (hok2 : (SliceReconciler.Reconcile cfg f2
      { SliceReconciler.after cfg f c with slices := R2 }).err = none) :
    (SliceReconciler.Reconcile cfg f2
        { SliceReconciler.after cfg f c with slices := R2 }).patches.map NodePatch.NodeName
      = ((SliceReconciler.after cfg f c).nodes.filter (fun n =>
          decide (n.Name ∈ DesiredNodeSetA cfg c) !=
          decide (n.Name ∈ DesiredNodeSetA cfg
            { SliceReconciler.after cfg f c with slices := R2 }))).map Node.Name ∧
    (SliceReconciler.Reconcile cfg f2
        { SliceReconciler.after cfg f c with slices := R2 }).patches.length
      = ((SliceReconciler.after cfg f c).nodes.filter (fun n =>
          decide (n.Name ∈ DesiredNodeSetA cfg c) !=
          decide (n.Name ∈ DesiredNodeSetA cfg
            { SliceReconciler.after cfg f c with slices := R2 }))).length := by
  have hagree := sliceReconcile_agrees cfg f c hval hok
  have main : (SliceReconciler.Reconcile cfg f2
        { SliceReconciler.after cfg f c with slices := R2 }).patches.map NodePatch.NodeName
      = ((SliceReconciler.after cfg f c).nodes.filter (fun n =>
          decide (n.Name ∈ DesiredNodeSetA cfg c) !=
          decide (n.Name ∈ DesiredNodeSetA cfg
            { SliceReconciler.after cfg f c with slices := R2 }))).map Node.Name := by
    generalize hd2 : DesiredNodeSetA cfg { SliceReconciler.after cfg f c with slices := R2 } = d2
    have hnodes : (SliceReconciler.after cfg f c).nodes
        = (SliceReconciler.Reconcile cfg f c).nodes := rfl
    unfold SliceReconciler.Reconcile at hok2 ⊢
    by_cases h1 : f2.listSlices = true
    · simp [h1] at hok2
    · by_cases h2 : f2.listNodes = true
      · simp [h1, h2] at hok2
      · simp only [h1, h2, Bool.false_eq_true, if_false, hd2] at hok2 ⊢
        rw [labelNodes_patches cfg f2.patchNode d2 _ hok2, hnodes]
        congr 1
        apply List.filter_congr
        intro n hn
        rw [hagree n hn]
  refine ⟨main, ?_⟩
  have := congrArg List.length main
  simpa using this

theorem sliceReconcile_minimal_diff_witness :
    exampleConfig.LabelVal ≠ "" ∧
    (SliceReconciler.Reconcile exampleConfig Faults.none exampleCluster).err = none ∧
    (SliceReconciler.Reconcile exampleConfig Faults.none
      { SliceReconciler.after exampleConfig Faults.none exampleCluster with
        slices := exampleRecords2 }).err = none ∧
    (SliceReconciler.Reconcile exampleConfig Faults.none
        { SliceReconciler.after exampleConfig Faults.none exampleCluster with
          slices := exampleRecords2 }).patches.map NodePatch.NodeName = ["a", "d"] ∧
    (SliceReconciler.Reconcile exampleConfig Faults.none
        { SliceReconciler.after exampleConfig Faults.none exampleCluster with
          slices := exampleRecords2 }).patches.length = 2 :=
  ⟨by decide, by decide, by decide,
    (sliceReconcile_minimal_diff exampleConfig Faults.none Faults.none exampleCluster
      exampleRecords2 (by decide) (by decide) (by decide)).1.trans (by decide),
    (sliceReconcile_minimal_diff exampleConfig Faults.none Faults.none exampleCluster
      exampleRecords2 (by decide) (by decide) (by decide)).2.trans (by decide)⟩

/-- C10, as stated, fails: a record of the target Service holds a ready endpoint
that references the node name `""`, yet `""` is not in the desired set, because
line 86 skips an endpoint whose node name is empty. -/
theorem desiredNodeSetA_empty_name_counterexample :
    (∃ es ∈ listSlicesFor emptyNameCluster exampleConfig.IngressNS exampleConfig.IngressSvc,
      ∃ ep ∈ es.Endpoints, ep.NodeName = some "" ∧ ep.Ready = some true) ∧
    "" ∉ DesiredNodeSetA exampleConfig emptyNameCluster := by
  decide

/-- C10 (amended): a node name `n` is in the desired set that
`SliceReconciler.Reconcile` computes if and only if `n` is not the empty string
and some endpoint of some record of the target Service (a slice of the
configured namespace whose service-name label is the configured Service)
references `n` and is ready (readiness present and true). -/
theorem mem_DesiredNodeSetA (cfg : LabelerConfig) (c : Cluster) (n : String) :
    n ∈ DesiredNodeSetA cfg c ↔
      n ≠ "" ∧ ∃ es ∈ c.slices,
        es.Namespace = cfg.IngressNS ∧
        es.Labels.lookup LabelServiceName = some cfg.IngressSvc ∧
        ∃ ep ∈ es.Endpoints, ep.NodeName = some n ∧ ep.Ready = some true := by
  unfold DesiredNodeSetA
  rw [mem_desiredNodes]
  simp only [listSlicesFor, List.mem_filter, Bool.and_eq_true, decide_eq_true_eq, readyOn]
  constructor
  · rintro ⟨h, es, ⟨hes, hns, hl⟩, hep⟩
    exact ⟨h, es, hes, hns, hl, hep⟩
  · rintro ⟨h, es, hes, hns, hl, hep⟩
    exact ⟨h, es, ⟨hes, hns, hl⟩, hep⟩

/-! ## Lemmas: the candidate set of Controller B -/

/-- The node is admitted by lines 200-203: ready, schedulable, with address `ip`. -/
theorem mem_candidateLoop (nodes : List Node) (acc : StrSet) (ip : String) :
    ip ∈ candidateLoop acc nodes ↔
      ip ∈ acc ∨ (ip ≠ "" ∧ ∃ n ∈ nodes, isNodeReady n = true ∧ isNodeSchedulable n = true ∧
        nodePrimaryInternalIP n = ip) := by
  induction nodes generalizing acc with
  | nil => simp [candidateLoop]
  | cons n rest ih =>
    unfold candidateLoop
    by_cases hall : (isNodeReady n && isNodeSchedulable n) = true
    · have hall2 := hall
      simp only [Bool.and_eq_true] at hall2
      obtain ⟨h1, h2⟩ := hall2
      by_cases hip : nodePrimaryInternalIP n = ""
      · simp only [hall, if_true, hip, ne_eq, not_true_eq_false, if_false, ih, List.mem_cons,
          exists_eq_or_imp]
        constructor
        · rintro (h | ⟨g1, g2⟩)
          · exact Or.inl h
          · exact Or.inr ⟨g1, Or.inr g2⟩
        · rintro (h | ⟨g1, g2 | g2⟩)
          · exact Or.inl h
          · exact absurd g2.2.2.symm g1
          · exact Or.inr ⟨g1, g2⟩
      · simp only [hall, if_true, hip, ne_eq, not_false_eq_true, ih, List.mem_cons,
          exists_eq_or_imp, StrSet.mem_insert]
        constructor
        · rintro ((h | h) | ⟨g1, g2⟩)
          · exact Or.inr ⟨h ▸ hip, Or.inl ⟨h1, h2, h.symm⟩⟩
          · exact Or.inl h
          · exact Or.inr ⟨g1, Or.inr g2⟩
        · rintro (h | ⟨g1, g2 | g2⟩)
          · exact Or.inl (Or.inr h)
          · exact Or.inl (Or.inl g2.2.2.symm)
          · exact Or.inr ⟨g1, g2⟩
    · have hall2 := hall
      simp only [Bool.and_eq_true, not_and] at hall2
      simp only [hall, Bool.false_eq_true, if_false, ih, List.mem_cons, exists_eq_or_imp]
      constructor
      · rintro (h | ⟨g1, g2⟩)
        · exact Or.inl h
        · exact Or.inr ⟨g1, Or.inr g2⟩
      · rintro (h | ⟨g1, g2 | g2⟩)
        · exact Or.inl h
        · exact absurd g2.2.1 (hall2 g2.1)
        · exact Or.inr ⟨g1, g2⟩

theorem mem_nodesWithEPEndpoints (eps : List Endpoint) (acc : StrSet) (x : String) :
    x ∈ nodesWithEPEndpoints acc eps ↔ x ∈ acc ∨ ∃ ep ∈ eps, ep.NodeName = some x := by
  induction eps generalizing acc with
  | nil => simp [nodesWithEPEndpoints]
  | cons ep rest ih =>
    obtain ⟨nm, rd⟩ := ep
    unfold nodesWithEPEndpoints
    cases nm with
    | none => simp [ih]
    | some name =>
      simp only [ih, StrSet.mem_insert, List.mem_cons, exists_eq_or_imp, Option.some.injEq]
      constructor
      · rintro ((h | h) | h)
        · exact Or.inr (Or.inl h.symm)
        · exact Or.inl h
        · exact Or.inr (Or.inr h)
      · rintro (h | h | h)
        · exact Or.inl (Or.inr h)
        · exact Or.inl (Or.inl h.symm)
        · exact Or.inr h

theorem mem_nodesWithEPSlices (slices : List EndpointSlice) (acc : StrSet) (x : String) :
    x ∈ nodesWithEPSlices acc slices ↔
      x ∈ acc ∨ ∃ es ∈ slices, ∃ ep ∈ es.Endpoints, ep.NodeName = some x := by
  induction slices generalizing acc with
  | nil => simp [nodesWithEPSlices]
  | cons es rest ih =>
    unfold nodesWithEPSlices
    rw [ih, mem_nodesWithEPEndpoints]
    simp only [List.mem_cons, exists_eq_or_imp]
    generalize (∃ ep ∈ es.Endpoints, ep.NodeName = some x) = P
    generalize (∃ es ∈ rest, ∃ ep ∈ es.Endpoints, ep.NodeName = some x) = Q
    tauto

/-- A node name is in `nodesWithEP` exactly when some endpoint, ready or not, of
some record of the Service references it. -/
theorem mem_nodesWithEP (c : Cluster) (svc : Service) (x : String) :
    x ∈ nodesWithEP c svc ↔
      ∃ es ∈ listSlicesFor c svc.Namespace svc.Name, ∃ ep ∈ es.Endpoints,
        ep.NodeName = some x := by
  unfold nodesWithEP
  rw [mem_nodesWithEPSlices]
  simp

theorem mem_filteredLoop {Sel : Type} (lib : SelectorLib Sel) (selector : Sel) (eps : StrSet)
    (nodes : List Node) (acc : StrSet) (ip : String) :
    ip ∈ filteredLoop lib selector eps acc nodes ↔
      ip ∈ acc ∨ (ip ≠ "" ∧ ∃ n ∈ nodes, n.Name ∈ eps ∧ isNodeReady n = true ∧
        isNodeSchedulable n = true ∧ lib.Matches selector n.Labels = true ∧
        nodePrimaryInternalIP n = ip) := by
  induction nodes generalizing acc with
  | nil => simp [filteredLoop]
  | cons n rest ih =>
    unfold filteredLoop
    by_cases hall : (decide (n.Name ∈ eps) && isNodeReady n && isNodeSchedulable n &&
        lib.Matches selector n.Labels) = true
    · have hall2 := hall
      simp only [Bool.and_eq_true, decide_eq_true_eq] at hall2
      obtain ⟨⟨⟨h1, h2⟩, h3⟩, h4⟩ := hall2
      by_cases hip : nodePrimaryInternalIP n = ""
      · simp only [hall, if_true, hip, ne_eq, not_true_eq_false, if_false, ih, List.mem_cons,
          exists_eq_or_imp]
        constructor
        · rintro (h | ⟨g1, g2⟩)
          · exact Or.inl h
          · exact Or.inr ⟨g1, Or.inr g2⟩
        · rintro (h | ⟨g1, g2 | g2⟩)
          · exact Or.inl h
          · exact absurd g2.2.2.2.2.symm g1
          · exact Or.inr ⟨g1, g2⟩
      · simp only [hall, if_true, hip, ne_eq, not_false_eq_true, ih, List.mem_cons,
          exists_eq_or_imp, StrSet.mem_insert]
        constructor
        · rintro ((h | h) | ⟨g1, g2⟩)
          · exact Or.inr ⟨h ▸ hip, Or.inl ⟨h1, h2, h3, h4, h.symm⟩⟩
          · exact Or.inl h
          · exact Or.inr ⟨g1, Or.inr g2⟩
        · rintro (h | ⟨g1, g2 | g2⟩)
          · exact Or.inl (Or.inr h)
          · exact Or.inl (Or.inl g2.2.2.2.2.symm)
          · exact Or.inr ⟨g1, g2⟩
    · have hall2 := hall
      simp only [Bool.and_eq_true, decide_eq_true_eq, not_and] at hall2
      simp only [hall, Bool.false_eq_true, if_false, ih, List.mem_cons, exists_eq_or_imp]
      constructor
      · rintro (h | ⟨g1, g2⟩)
        · exact Or.inl h
        · exact Or.inr ⟨g1, Or.inr g2⟩
      · rintro (h | ⟨g1, g2 | g2⟩)
        · exact Or.inl h
        · exact absurd g2.2.2.2.1 (hall2 ⟨⟨g2.1, g2.2.1⟩, g2.2.2.1⟩)
        · exact Or.inr ⟨g1, g2⟩

/-! ## Lemmas: the pass of Controller B -/

/-- A pass that reads an in-scope Service goes on to the candidate set. -/
theorem reconcile_inScope {Sel : Type} (lib : SelectorLib Sel) (iter : StrSet → List String)
    (now : Time) (f : Faults) (c : Cluster) (req : Request) (svc : Service) (selector : Sel)
    (hread : readService f c req = Except.ok (some svc)) (hscope : InScope lib svc selector) :
    ServiceReconciler.Reconcile lib iter now f c req =
      match candidateIPs lib f c svc selector with
      | Except.error e => SyncPass.ret c (some e)
      | Except.ok candidates => pokeCCM iter now f c svc candidates := by
  obtain ⟨hlb, s, hs, hne, hp⟩ := hscope
  unfold ServiceReconciler.Reconcile
  simp only [hread, hlb, ne_eq, not_true_eq_false, if_false, hs, hne, hp]

theorem candidateIPs_local {Sel : Type} (lib : SelectorLib Sel) (f : Faults) (c : Cluster)
    (svc : Service) (selector : Sel) (hnodes : f.listNodes = false)
    (hslices : f.listSlices = false)
    (hpol : svc.ExternalTrafficPolicy = ServiceExternalTrafficPolicyTypeLocal) :
    candidateIPs lib f c svc selector =
      Except.ok (filteredLoop lib selector (nodesWithEP c svc) []
        (listNodesMatching lib selector c)) := by
  unfold candidateIPs nodesWithEP
  simp [hnodes, hslices, hpol]

theorem candidateIPs_cluster {Sel : Type} (lib : SelectorLib Sel) (f : Faults) (c : Cluster)
    (svc : Service) (selector : Sel) (hnodes : f.listNodes = false)
    (hpol : svc.ExternalTrafficPolicy ≠ ServiceExternalTrafficPolicyTypeLocal) :
    candidateIPs lib f c svc selector =
      Except.ok (candidateLoop [] (listNodesMatching lib selector c)) := by
  unfold candidateIPs
  simp [hnodes, hpol]

theorem pokeCCM_candidates (iter : StrSet → List String) (now : Time) (f : Faults)
    (c : Cluster) (svc : Service) (cands : StrSet) :
    (pokeCCM iter now f c svc cands).candidates = some cands := by
  unfold pokeCCM
  by_cases h : f.patchService = true <;> simp [h]

theorem pokeCCM_patches (iter : StrSet → List String) (now : Time) (f : Faults)
    (c : Cluster) (svc : Service) (cands : StrSet) :
    (pokeCCM iter now f c svc cands).patches = [Patch.service (triggerPatch svc now)] := by
  unfold pokeCCM triggerPatch
  by_cases h : f.patchService = true <;> simp [h]

theorem getService_key (c : Cluster) (req : Request) (svc : Service)
    (h : getService c req = some svc) :
    svc.Namespace = req.Namespace ∧ svc.Name = req.Name := by
  unfold getService at h
  have := List.find?_some h
  simpa using this

theorem getService_mem (c : Cluster) (req : Request) (svc : Service)
    (h : getService c req = some svc) : svc ∈ c.services := by
  unfold getService at h
  exact List.mem_of_find?_eq_some h

/-- The Service read back after an accepted trigger patch: the Service as it
was, with the trigger annotation set. -/
theorem getService_apply (p : ServicePatch) (c : Cluster) (req : Request) :
    getService (p.apply c) req =
      (getService c req).map (fun s =>
        if s.Namespace = p.Namespace ∧ s.Name = p.Name then
          { s with Annotations := s.Annotations.set p.Key p.Value }
        else s) := by
  unfold getService ServicePatch.apply
  rw [List.find?_map]
  have hp : ((fun s : Service => decide (s.Namespace = req.Namespace ∧ s.Name = req.Name)) ∘
      (fun s : Service => if s.Namespace = p.Namespace ∧ s.Name = p.Name then
          { s with Annotations := s.Annotations.set p.Key p.Value } else s)) =
      (fun s : Service => decide (s.Namespace = req.Namespace ∧ s.Name = req.Name)) := by
    funext s
    simp only [Function.comp]
    split <;> rfl
  rw [hp]

theorem readService_ok (f : Faults) (c : Cluster) (req : Request) (o : Option Service)
    (h : readService f c req = Except.ok o) : f.getService = false ∧ getService c req = o := by
  unfold readService at h
  by_cases hf : f.getService = true
  · simp [hf] at h
  · simp only [hf, Bool.false_eq_true, if_false, Except.ok.injEq] at h
    exact ⟨by simpa using hf, h⟩

/-! ## Controller B: the claims -/

/-- C4, as stated, fails in both directions. Under Cluster policy, a node that
matches the selector, is ready and schedulable and hosts no endpoint, but
reports no address of type `InternalIP`, is not included: line 202 skips the
empty address. Under Local policy, such a node that reports the same internal
address as an endpoint-hosting node has its address in the candidate set. -/
theorem locality_narrowing_counterexample :
    (noAddressNode ∈ noAddressCluster.nodes ∧
      eqSelectorLib.Matches ("tier", "edge") noAddressNode.Labels = true ∧
      isNodeReady noAddressNode = true ∧ isNodeSchedulable noAddressNode = true ∧
      hostsNoEndpoint noAddressCluster (webService "Cluster" "tier=edge") noAddressNode ∧
      (ServiceReconciler.Reconcile eqSelectorLib insertionOrder noon Faults.none
        noAddressCluster webRequest).candidates = some ["10.0.0.1"] ∧
      nodePrimaryInternalIP noAddressNode ∉ ["10.0.0.1"]) ∧
    (sharedAddressNode ∈ sharedAddressCluster.nodes ∧
      eqSelectorLib.Matches ("tier", "edge") sharedAddressNode.Labels = true ∧
      isNodeReady sharedAddressNode = true ∧ isNodeSchedulable sharedAddressNode = true ∧
      hostsNoEndpoint sharedAddressCluster (webService "Local" "tier=edge") sharedAddressNode ∧
      (ServiceReconciler.Reconcile eqSelectorLib insertionOrder noon Faults.none
        sharedAddressCluster webRequest).candidates = some ["10.0.0.1"] ∧
      nodePrimaryInternalIP sharedAddressNode ∈ ["10.0.0.1"]) := by
  decide

/-- C4 (amended): for an in-scope Service whose reads succeed and a node that
matches the selector, is ready and schedulable, is referenced by zero endpoints
of the Service's membership records, has a non-empty primary internal address,
and (under Local policy) shares that address with no other node that hosts an
endpoint and is ready, schedulable and selector-matching: the pass computes a candidate set,
and the node's address is in it if and only if the policy is not Local. -/
theorem locality_narrowing {Sel : Type} (lib : SelectorLib Sel) (iter : StrSet → List String)
    (now : Time) (f : Faults) (c : Cluster) (req : Request) (svc : Service) (selector : Sel)
    (n : Node)
    (hread : readService f c req = Except.ok (some svc)) (hscope : InScope lib svc selector)
    (hnodes : f.listNodes = false) (hslices : f.listSlices = false)
    (hn : n ∈ c.nodes) (hm : lib.Matches selector n.Labels = true)
    (hr : isNodeReady n = true) (hs : isNodeSchedulable n = true)
    (hzero : hostsNoEndpoint c svc n)
    (hip : nodePrimaryInternalIP n ≠ "")
    (hshare : ∀ m ∈ c.nodes, m ≠ n →
      svc.ExternalTrafficPolicy = ServiceExternalTrafficPolicyTypeLocal →
      m.Name ∈ nodesWithEP c svc → isNodeReady m = true → isNodeSchedulable m = true →
      lib.Matches selector m.Labels = true →
      nodePrimaryInternalIP m ≠ nodePrimaryInternalIP n) :
    ∃ S, (ServiceReconciler.Reconcile lib iter now f c req).candidates = some S ∧
      (nodePrimaryInternalIP n ∈ S ↔
        svc.ExternalTrafficPolicy ≠ ServiceExternalTrafficPolicyTypeLocal) := by
  rw [reconcile_inScope lib iter now f c req svc selector hread hscope]
  by_cases hpol : svc.ExternalTrafficPolicy = ServiceExternalTrafficPolicyTypeLocal
  · rw [candidateIPs_local lib f c svc selector hnodes hslices hpol]
    refine ⟨_, pokeCCM_candidates _ _ _ _ _ _, ?_⟩
    simp only [hpol, ne_eq, not_true_eq_false, iff_false]
    rw [mem_filteredLoop]
    rintro (h | ⟨_, m, hmem, h1, h2, h3, h4, h5⟩)
    · simp at h
    · have hmc : m ∈ c.nodes := (List.mem_filter.mp hmem).1
      by_cases hmn : m = n
      · subst hmn
        obtain ⟨es, hes, ep, hep, hname⟩ := (mem_nodesWithEP c svc m.Name).mp h1
        exact hzero es hes ep hep hname
      · exact hshare m hmc hmn hpol h1 h2 h3 h4 h5
  · rw [candidateIPs_cluster lib f c svc selector hnodes hpol]
    refine ⟨_, pokeCCM_candidates _ _ _ _ _ _, ?_⟩
    simp only [ne_eq, hpol, not_false_eq_true, iff_true]
    rw [mem_candidateLoop]
    refine Or.inr ⟨hip, n, ?_, hr, hs, rfl⟩
    exact List.mem_filter.mpr ⟨hn, hm⟩

theorem locality_narrowing_witness :
    (∃ S, (ServiceReconciler.Reconcile eqSelectorLib insertionOrder noon Faults.none
        (webCluster "Local") webRequest).candidates = some S ∧
      (nodePrimaryInternalIP nodeN2 ∈ S ↔
        (webService "Local" "tier=edge").ExternalTrafficPolicy
          ≠ ServiceExternalTrafficPolicyTypeLocal)) ∧
    (∃ S, (ServiceReconciler.Reconcile eqSelectorLib insertionOrder noon Faults.none
        (webCluster "Cluster") webRequest).candidates = some S ∧
      (nodePrimaryInternalIP nodeN2 ∈ S ↔
        (webService "Cluster" "tier=edge").ExternalTrafficPolicy
          ≠ ServiceExternalTrafficPolicyTypeLocal)) :=
  ⟨locality_narrowing eqSelectorLib insertionOrder noon Faults.none (webCluster "Local")
      webRequest (webService "Local" "tier=edge") ("tier", "edge") nodeN2
      rfl ⟨by decide, "tier=edge", by decide, by decide, rfl⟩ rfl rfl
      (by decide) (by decide) (by decide) (by decide) (by decide) (by decide) (by decide),
   locality_narrowing eqSelectorLib insertionOrder noon Faults.none (webCluster "Cluster")
      webRequest (webService "Cluster" "tier=edge") ("tier", "edge") nodeN2
      rfl ⟨by decide, "tier=edge", by decide, by decide, rfl⟩ rfl rfl
      (by decide) (by decide) (by decide) (by decide) (by decide) (by decide) (by decide)⟩

/-- C6 (malformed-selector isolation): when the pass reads a LoadBalancer Service
whose selector annotation is present, not empty, and fails to parse, it records
exactly one event, of the warning class, on that Service; it issues no patch to
any Node or Service and leaves the store (the trigger annotation included) as it
was; and it returns no error. -/
theorem malformed_selector_isolated {Sel : Type} (lib : SelectorLib Sel)
    (iter : StrSet → List String) (now : Time) (f : Faults) (c : Cluster) (req : Request)
    (svc : Service) (s e : String)
    (hread : readService f c req = Except.ok (some svc))
    (hlb : svc.Type_ = ServiceTypeLoadBalancer)
    (hs : svc.Annotations.lookup AnnotationNodeSelector = some s) (hne : s ≠ "")
    (hparse : lib.Parse s = Except.error e) :
    (∃ ev, (ServiceReconciler.Reconcile lib iter now f c req).events = [ev] ∧
      ev.Type_ = EventTypeWarning ∧ ev.Namespace = svc.Namespace ∧ ev.Name = svc.Name) ∧
    (ServiceReconciler.Reconcile lib iter now f c req).patches = [] ∧
    (ServiceReconciler.Reconcile lib iter now f c req).cluster = c ∧
    (ServiceReconciler.Reconcile lib iter now f c req).err = none := by
  unfold ServiceReconciler.Reconcile
  simp only [hread, hlb, ne_eq, not_true_eq_false, if_false, hs, hne, hparse, and_self,
    and_true]
  exact ⟨_, rfl, rfl, rfl, rfl⟩

theorem malformed_selector_isolated_witness :
    (∃ ev, (ServiceReconciler.Reconcile eqSelectorLib insertionOrder noon Faults.none
        malformedCluster webRequest).events
          = [ev] ∧
      ev.Type_ = EventTypeWarning ∧ ev.Namespace = (webService "Local" "tier").Namespace ∧
      ev.Name = (webService "Local" "tier").Name) ∧
    (ServiceReconciler.Reconcile eqSelectorLib insertionOrder noon Faults.none
      malformedCluster webRequest).patches
        = [] ∧
    (ServiceReconciler.Reconcile eqSelectorLib insertionOrder noon Faults.none
      malformedCluster webRequest).cluster
        = malformedCluster ∧
    (ServiceReconciler.Reconcile eqSelectorLib insertionOrder noon Faults.none
      malformedCluster webRequest).err
        = none :=
  malformed_selector_isolated eqSelectorLib insertionOrder noon Faults.none
    malformedCluster webRequest
    (webService "Local" "tier") "tier" "invalid selector"
    rfl (by decide) (by decide) (by decide) rfl

/-- C7 (out-of-scope Services are never processed): if the Service the pass reads
is absent, or not of type LoadBalancer, or its selector annotation is absent or
empty, the pass returns no error, issues no patch, records no event and leaves
the store as it was; and whenever a pass issues a patch or records an event,
the requested Service exists, has type LoadBalancer and has a present,
non-empty selector annotation. -/
theorem out_of_scope_noop {Sel : Type} (lib : SelectorLib Sel) (iter : StrSet → List String)
    (now : Time) (f : Faults) (c : Cluster) (req : Request) :
    (OutOfScope f c req →
      (ServiceReconciler.Reconcile lib iter now f c req).err = none ∧
      (ServiceReconciler.Reconcile lib iter now f c req).patches = [] ∧
      (ServiceReconciler.Reconcile lib iter now f c req).events = [] ∧
      (ServiceReconciler.Reconcile lib iter now f c req).cluster = c) ∧
    ((ServiceReconciler.Reconcile lib iter now f c req).patches ≠ [] ∨
      (ServiceReconciler.Reconcile lib iter now f c req).events ≠ [] →
      ∃ svc, getService c req = some svc ∧ svc.Type_ = ServiceTypeLoadBalancer ∧
        ∃ s, svc.Annotations.lookup AnnotationNodeSelector = some s ∧ s ≠ "") := by
  constructor
  · rintro (h | ⟨svc, h, hcase⟩)
    · unfold ServiceReconciler.Reconcile
      simp [h, SyncPass.ret]
    · unfold ServiceReconciler.Reconcile
      rcases hcase with h1 | h1 | h1
      · simp [h, h1, SyncPass.ret]
      · by_cases hlb : svc.Type_ = ServiceTypeLoadBalancer <;> simp [h, h1, hlb, SyncPass.ret]
      · by_cases hlb : svc.Type_ = ServiceTypeLoadBalancer <;> simp [h, h1, hlb, SyncPass.ret]
  · intro hact
    unfold ServiceReconciler.Reconcile at hact
    cases hread : readService f c req with
    | error e => simp [hread, SyncPass.ret] at hact
    | ok o =>
      cases o with
      | none => simp [hread, SyncPass.ret] at hact
      | some svc =>
        have hget := (readService_ok f c req _ hread).2
        by_cases hlb : svc.Type_ = ServiceTypeLoadBalancer
        · cases hl : svc.Annotations.lookup AnnotationNodeSelector with
          | none => simp [hread, hlb, hl, SyncPass.ret] at hact
          | some s =>
            by_cases hs : s = ""
            · simp [hread, hlb, hl, hs, SyncPass.ret] at hact
            · exact ⟨svc, hget, hlb, s, hl, hs⟩
        · simp [hread, hlb, SyncPass.ret] at hact

theorem out_of_scope_noop_witness :
    ((ServiceReconciler.Reconcile eqSelectorLib insertionOrder noon Faults.none
        clusterIPCluster webRequest).err = none ∧
      (ServiceReconciler.Reconcile eqSelectorLib insertionOrder noon Faults.none
        clusterIPCluster webRequest).patches = [] ∧
      (ServiceReconciler.Reconcile eqSelectorLib insertionOrder noon Faults.none
        clusterIPCluster webRequest).events = [] ∧
      (ServiceReconciler.Reconcile eqSelectorLib insertionOrder noon Faults.none
        clusterIPCluster webRequest).cluster = clusterIPCluster) ∧
    (∃ svc, getService (webCluster "Local") webRequest = some svc ∧
      svc.Type_ = ServiceTypeLoadBalancer ∧
      ∃ s, svc.Annotations.lookup AnnotationNodeSelector = some s ∧ s ≠ "") :=
  ⟨(out_of_scope_noop eqSelectorLib insertionOrder noon Faults.none clusterIPCluster
      webRequest).1 (Or.inr ⟨_, rfl, Or.inl (by decide)⟩),
   (out_of_scope_noop eqSelectorLib insertionOrder noon Faults.none (webCluster "Local")
      webRequest).2 (Or.inl (by decide))⟩

/-- C8 (unconditional trigger): when the pass reads an in-scope Service and the
node read (and, under Local policy, the membership-record read) succeeds, it
issues exactly one patch, a patch of that Service that sets the trigger
annotation to the rendering of the current instant, whatever the candidate set
is; and when the store accepts the patch, the pass returns no error and the
Service read back carries that value. -/
theorem trigger_unconditional {Sel : Type} (lib : SelectorLib Sel)
    (iter : StrSet → List String) (now : Time) (f : Faults) (c : Cluster) (req : Request)
    (svc : Service) (selector : Sel)
    (hread : readService f c req = Except.ok (some svc)) (hscope : InScope lib svc selector)
    (hnodes : f.listNodes = false)
    (hslices : svc.ExternalTrafficPolicy = ServiceExternalTrafficPolicyTypeLocal →
      f.listSlices = false) :
    (ServiceReconciler.Reconcile lib iter now f c req).patches =
      [Patch.service { Namespace := svc.Namespace, Name := svc.Name, Key := AnnotationTrigger,
                       Value := formatRFC3339Nano now }] ∧
    (∃ S, (ServiceReconciler.Reconcile lib iter now f c req).candidates = some S) ∧
    (f.patchService = false →
      (ServiceReconciler.Reconcile lib iter now f c req).err = none ∧
      ∃ svc2, getService (ServiceReconciler.Reconcile lib iter now f c req).cluster req
          = some svc2 ∧
        svc2.Annotations.lookup AnnotationTrigger = some (formatRFC3339Nano now)) := by
  rw [reconcile_inScope lib iter now f c req svc selector hread hscope]
  have hget := (readService_ok f c req _ hread).2
  have hkey := getService_key c req svc hget
  have hc : ∃ S, candidateIPs lib f c svc selector = Except.ok S := by
    by_cases hpol : svc.ExternalTrafficPolicy = ServiceExternalTrafficPolicyTypeLocal
    · exact ⟨_, candidateIPs_local lib f c svc selector hnodes (hslices hpol) hpol⟩
    · exact ⟨_, candidateIPs_cluster lib f c svc selector hnodes hpol⟩
  obtain ⟨S, hS⟩ := hc
  simp only [hS]
  refine ⟨pokeCCM_patches _ _ _ _ _ _, ⟨S, pokeCCM_candidates _ _ _ _ _ _⟩, ?_⟩
  intro hp
  unfold pokeCCM
  simp only [hp, Bool.false_eq_true, if_false, true_and]
  rw [getService_apply, hget]
  refine ⟨_, rfl, ?_⟩
  simp [StrMap.lookup_set_self]

theorem trigger_unconditional_witness :
    (ServiceReconciler.Reconcile eqSelectorLib insertionOrder noon Faults.none
        (webCluster "Local") webRequest).patches =
      [Patch.service { Namespace := "ns", Name := "web", Key := AnnotationTrigger,
                       Value := formatRFC3339Nano noon }] ∧
    (∃ S, (ServiceReconciler.Reconcile eqSelectorLib insertionOrder noon Faults.none
        (webCluster "Local") webRequest).candidates = some S) ∧
    (Faults.none.patchService = false →
      (ServiceReconciler.Reconcile eqSelectorLib insertionOrder noon Faults.none
        (webCluster "Local") webRequest).err = none ∧
      ∃ svc2, getService (ServiceReconciler.Reconcile eqSelectorLib insertionOrder noon
          Faults.none (webCluster "Local") webRequest).cluster webRequest = some svc2 ∧
        svc2.Annotations.lookup AnnotationTrigger = some (formatRFC3339Nano noon)) :=
  trigger_unconditional eqSelectorLib insertionOrder noon Faults.none (webCluster "Local")
    webRequest (webService "Local" "tier=edge") ("tier", "edge")
    rfl ⟨by decide, "tier=edge", by decide, by decide, rfl⟩ rfl (fun _ => rfl)

/-! ## Lemmas: the trigger annotation is never read -/

theorem getService_sameButTrigger (l1 l2 : List Service)
    (h : List.Forall₂ Service.sameButTrigger l1 l2) (req : Request) :
    (l1.find? (fun s => decide (s.Namespace = req.Namespace ∧ s.Name = req.Name)) = none ∧
      l2.find? (fun s => decide (s.Namespace = req.Namespace ∧ s.Name = req.Name)) = none) ∨
    ∃ s1 s2,
      l1.find? (fun s => decide (s.Namespace = req.Namespace ∧ s.Name = req.Name)) = some s1 ∧
      l2.find? (fun s => decide (s.Namespace = req.Namespace ∧ s.Name = req.Name)) = some s2 ∧
      Service.sameButTrigger s1 s2 := by
  induction h with
  | nil => exact Or.inl ⟨rfl, rfl⟩
  | @cons a b l1 l2 hab _ ih =>
    obtain ⟨hns, hname, _⟩ := id hab
    by_cases hk : a.Namespace = req.Namespace ∧ a.Name = req.Name
    · have hk2 : b.Namespace = req.Namespace ∧ b.Name = req.Name := by
        rw [← hns, ← hname]; exact hk
      refine Or.inr ⟨a, b, ?_, ?_, hab⟩
      · simp [List.find?, hk]
      · simp [List.find?, hk2]
    · have hk2 : ¬ (b.Namespace = req.Namespace ∧ b.Name = req.Name) := by
        rw [← hns, ← hname]; exact hk
      simpa [List.find?, hk, hk2] using ih

theorem candidateIPs_sameButTrigger {Sel : Type} (lib : SelectorLib Sel) (f : Faults)
    (c1 c2 : Cluster) (s1 s2 : Service) (selector : Sel)
    (hc : Cluster.sameButTrigger c1 c2) (hs : Service.sameButTrigger s1 s2) :
    candidateIPs lib f c1 s1 selector = candidateIPs lib f c2 s2 selector := by
  obtain ⟨hn, hsl, _⟩ := hc
  obtain ⟨hns, hname, _, hpol, _⟩ := hs
  unfold candidateIPs listNodesMatching listSlicesFor
  rw [hn, hsl, hns, hname, hpol]

theorem pokeCCM_sameButTrigger (iter : StrSet → List String) (now : Time) (f : Faults)
    (c1 c2 : Cluster) (s1 s2 : Service) (cands : StrSet)
    (hs : Service.sameButTrigger s1 s2) :
    (pokeCCM iter now f c1 s1 cands).err = (pokeCCM iter now f c2 s2 cands).err ∧
    (pokeCCM iter now f c1 s1 cands).candidates = (pokeCCM iter now f c2 s2 cands).candidates ∧
    (pokeCCM iter now f c1 s1 cands).events = (pokeCCM iter now f c2 s2 cands).events ∧
    (pokeCCM iter now f c1 s1 cands).patches = (pokeCCM iter now f c2 s2 cands).patches := by
  obtain ⟨hns, hname, _⟩ := hs
  unfold pokeCCM
  by_cases hp : f.patchService = true <;> simp [hp, hns, hname]

theorem selector_ne_trigger : AnnotationNodeSelector ≠ AnnotationTrigger := by decide

/-! ## Lemmas: the calendar of `time.Format` -/

theorem yearCycle_step1 (d1 : Int) (h0 : 0 ≤ d1) (h1 : d1 < 146097) :
    0 ≤ d1 / 36524 - d1 / 36524 / 4 ∧ d1 / 36524 - d1 / 36524 / 4 ≤ 3 ∧
    0 ≤ d1 - 36524 * (d1 / 36524 - d1 / 36524 / 4) ∧
    d1 - 36524 * (d1 / 36524 - d1 / 36524 / 4) ≤ 36524 ∧
    (d1 - 36524 * (d1 / 36524 - d1 / 36524 / 4) = 36524 → d1 / 36524 - d1 / 36524 / 4 = 3) := by
  omega

theorem yearCycle_step2 (d2 : Int) (h0 : 0 ≤ d2) (h1 : d2 ≤ 36524) :
    0 ≤ d2 / 1461 ∧ d2 / 1461 ≤ 24 ∧ 0 ≤ d2 - 1461 * (d2 / 1461) ∧
    d2 - 1461 * (d2 / 1461) ≤ 1460 ∧
    (d2 / 1461 = 24 → d2 < 36524 → d2 - 1461 * (d2 / 1461) < 1460) := by
  omega

theorem yearCycle_step3 (d3 : Int) (h0 : 0 ≤ d3) (h1 : d3 ≤ 1460) :
    0 ≤ d3 / 365 - d3 / 365 / 4 ∧ d3 / 365 - d3 / 365 / 4 ≤ 3 ∧
    0 ≤ d3 - 365 * (d3 / 365 - d3 / 365 / 4) ∧
    d3 - 365 * (d3 / 365 - d3 / 365 / 4) ≤ 365 ∧
    (d3 - 365 * (d3 / 365 - d3 / 365 / 4) = 365 → d3 / 365 - d3 / 365 / 4 = 3 ∧ d3 = 1460) := by
  omega

theorem yearDigits_exists (d : Int) : Nonempty (YearDigits d) := by
  have hd0 : 0 ≤ d - 146097 * (d / 146097) := by omega
  have hd1 : d - 146097 * (d / 146097) < 146097 := by omega
  generalize hd1' : d - 146097 * (d / 146097) = d1 at hd0 hd1
  obtain ⟨a1, a2, a3, a4, a5⟩ := yearCycle_step1 d1 hd0 hd1
  generalize hn100 : d1 / 36524 - d1 / 36524 / 4 = n100 at a1 a2 a3 a4 a5
  generalize hd2' : d1 - 36524 * n100 = d2 at a3 a4 a5
  obtain ⟨b1, b2, b3, b4, b5⟩ := yearCycle_step2 d2 a3 a4
  generalize hn4 : d2 / 1461 = n4 at b1 b2 b3 b4 b5
  generalize hd3' : d2 - 1461 * n4 = d3 at b3 b4 b5
  obtain ⟨c1, c2, c3, c4, c5⟩ := yearCycle_step3 d3 b3 b4
  generalize hn1 : d3 / 365 - d3 / 365 / 4 = n1 at c1 c2 c3 c4 c5
  generalize hd4' : d3 - 365 * n1 = yd at c3 c4 c5
  refine ⟨{ n400 := d / 146097, n100 := n100, n4 := n4, n1 := n1, yd := yd,
            hyear := ?_, hsum := by omega, h100 := ⟨a1, a2⟩, h4 := ⟨b1, b2⟩, h1 := ⟨c1, c2⟩,
            hyd := ⟨c3, c4⟩, hlast := ?_, ht3 := by omega, ht2 := by omega, ht2' := ?_,
            ht1 := by omega }⟩
  · simp only [yearOfDays]
    rw [hd1', hn100, hd2', hn4, hd3', hn1, hd4']
  · intro h
    obtain ⟨e1, e2⟩ := c5 h
    refine ⟨e1, fun h24 => ?_⟩
    by_contra hne
    have : d2 < 36524 := by
      rcases lt_or_ge d2 36524 with g | g
      · exact g
      · exact absurd (a5 (by omega)) hne
    have := b5 h24 this
    omega
  · intro h
    exact a5 (by omega)

theorem yearOfDays_mono (d e : Int) (h : d < e) :
    (yearOfDays d).1 < (yearOfDays e).1 ∨
      ((yearOfDays d).1 = (yearOfDays e).1 ∧ (yearOfDays d).2 < (yearOfDays e).2) := by
  obtain ⟨x⟩ := yearDigits_exists d
  obtain ⟨y⟩ := yearDigits_exists e
  rw [x.hyear, y.hyear]
  have hx := x.hsum
  have hy := y.hsum
  have := x.h100; have := x.h4; have := x.h1; have := x.hyd
  have := y.h100; have := y.h4; have := y.h1; have := y.hyd
  have := x.ht3; have := x.ht2; have := x.ht1
  have := y.ht3; have := y.ht2; have := y.ht1
  have hxl := x.hlast; have hyl := y.hlast
  have hx2 := x.ht2'; have hy2 := y.ht2'
  simp only
  rcases lt_trichotomy x.n400 y.n400 with g1 | g1 | g1
  · left; omega
  · rcases lt_trichotomy x.n100 y.n100 with g2 | g2 | g2
    · left; omega
    · rcases lt_trichotomy x.n4 y.n4 with g3 | g3 | g3
      · left; omega
      · rcases lt_trichotomy x.n1 y.n1 with g4 | g4 | g4
        · left; omega
        · right; omega
        · exfalso; omega
      · exfalso; omega
    · exfalso; omega
  · exfalso; omega

/-! ## Lemmas: lexicographic order of character lists -/

theorem lexLt_irrefl (l : List Char) : ¬ List.lt l l := by
  induction l with
  | nil => intro h; cases h
  | cons a l ih =>
    intro h
    cases h with
    | head _ _ h => exact lt_irrefl a h
    | tail _ _ h => exact ih h

theorem lexLt_cons (c : Char) {a b : List Char} (h : List.lt a b) :
    List.lt (c :: a) (c :: b) :=
  List.lt.tail (lt_irrefl c) (lt_irrefl c) h

theorem lexLt_append_left (p : List Char) {a b : List Char} (h : List.lt a b) :
    List.lt (p ++ a) (p ++ b) := by
  induction p with
  | nil => exact h
  | cons c p ih => exact lexLt_cons c ih

/-- Two prefixes of the same length decide the order of the lists they start,
unless they are equal. -/
theorem lexLt_append_iff (p q r s : List Char) (hl : p.length = q.length) :
    List.lt (p ++ r) (q ++ s) ↔ List.lt p q ∨ (p = q ∧ List.lt r s) := by
  induction p generalizing q with
  | nil =>
    cases q with
    | nil =>
      constructor
      · intro h; exact Or.inr ⟨rfl, h⟩
      · rintro (h | ⟨_, h⟩)
        · cases h
        · exact h
    | cons b q => simp at hl
  | cons a p ih =>
    cases q with
    | nil => simp at hl
    | cons b q =>
      have hl2 : p.length = q.length := by simpa using hl
      constructor
      · intro h
        cases h with
        | head _ _ h => exact Or.inl (List.lt.head _ _ h)
        | tail h1 h2 h =>
          have hab : a = b := le_antisymm (not_lt.mp h2) (not_lt.mp h1)
          subst hab
          rcases (ih q hl2).mp h with g | ⟨g1, g2⟩
          · exact Or.inl (List.lt.tail h1 h2 g)
          · exact Or.inr ⟨by rw [g1], g2⟩
      · rintro (h | ⟨h1, h2⟩)
        · cases h with
          | head _ _ h => exact List.lt.head _ _ h
          | tail h1 h2 h => exact List.lt.tail h1 h2 ((ih q hl2).mpr (Or.inl h))
        · rw [h1]; exact lexLt_append_left _ h2

/-! ## Lemmas: decimal digits -/

theorem digitChar_lt : ∀ e < 10, ∀ d < e, digitChar d < digitChar e := by decide

theorem length_padDigits (w u : Nat) : (padDigits w u).length = w := by
  induction w generalizing u with
  | zero => rfl
  | succ w ih => simp [padDigits, ih]

/-- Fixed-width decimal renderings are ordered as the numbers. -/
theorem padDigits_lt (w a b : Nat) (hab : a < b) (hb : b < 10 ^ w) :
    List.lt (padDigits w a) (padDigits w b) := by
  induction w generalizing a b with
  | zero => simp at hb; omega
  | succ w ih =>
    simp only [padDigits]
    have hb2 : b / 10 < 10 ^ w := by
      rw [pow_succ] at hb
      omega
    rcases Nat.lt_or_ge (a / 10) (b / 10) with h | h
    · exact (lexLt_append_iff _ _ _ _ (by simp [length_padDigits])).mpr
        (Or.inl (ih _ _ h hb2))
    · have he : a / 10 = b / 10 := by omega
      rw [he]
      apply lexLt_append_left
      exact List.lt.head _ _ (digitChar_lt _ (by omega) _ (by omega))

theorem countDigits_le (fuel u w : Nat) (h : u < 10 ^ w) : countDigits fuel u ≤ w := by
  induction fuel generalizing u w with
  | zero => simp [countDigits]
  | succ fuel ih =>
    unfold countDigits
    by_cases hu : u = 0
    · simp [hu]
    · simp only [hu, if_false]
      cases w with
      | zero => simp at h; omega
      | succ w =>
        have : u / 10 < 10 ^ w := by
          rw [pow_succ] at h
          omega
        have := ih (u / 10) w this
        omega

theorem numDigits_le (u w : Nat) (hw : 1 ≤ w) (h : u < 10 ^ w) : numDigits u ≤ w := by
  unfold numDigits
  by_cases hu : u = 0
  · simp [hu, hw]
  · simp only [hu, if_false]
    exact countDigits_le u u w h

/-- Within its width, `appendInt` renders a non-negative number with exactly
`width` digits. -/
theorem appendInt_eq (x : Int) (w : Nat) (hw : 1 ≤ w) (h0 : 0 ≤ x) (h1 : x < 10 ^ w) :
    appendInt x w = padDigits w x.toNat := by
  unfold appendInt
  have hx : ¬ x < 0 := by omega
  have hn : x.natAbs = x.toNat := by omega
  have hlt : x.toNat < 10 ^ w := by
    have : ((x.toNat : Nat) : Int) < ((10 ^ w : Nat) : Int) := by
      rw [Int.toNat_of_nonneg h0]; exact_mod_cast h1
    exact_mod_cast this
  simp only [hx, if_false, hn]
  rw [Nat.max_eq_left (numDigits_le _ w hw hlt)]

/-- One fixed-width field: the field decides the order, and the rest decides
it when the fields are equal. -/
theorem field_lt (w : Nat) (hw : 1 ≤ w) (a b : Int) (ra rb : List Char) (P : Prop)
    (ha : 0 ≤ a) (hb : b < 10 ^ w) (hP : P → List.lt ra rb)
    (h : a < b ∨ (a = b ∧ P)) :
    List.lt (appendInt a w ++ ra) (appendInt b w ++ rb) := by
  rcases h with h | ⟨h, hp⟩
  · rw [appendInt_eq a w hw ha (by omega), appendInt_eq b w hw (by omega) hb]
    refine (lexLt_append_iff _ _ _ _ (by simp [length_padDigits])).mpr (Or.inl ?_)
    apply padDigits_lt
    · omega
    · have : ((b.toNat : Nat) : Int) < ((10 ^ w : Nat) : Int) := by
        rw [Int.toNat_of_nonneg (by omega)]; exact_mod_cast hb
      exact_mod_cast this
  · rw [h]
    exact lexLt_append_left _ (hP hp)

/-! ## Lemmas: months and days -/

theorem pairLt_trans {p q r : Int × Int} (h1 : pairLt p q) (h2 : pairLt q r) : pairLt p r := by
  unfold pairLt at *
  omega

set_option maxRecDepth 100000 in
theorem monthDay_bounds_nat : ∀ leap : Bool, ∀ n : Nat, n < 365 + (if leap then 1 else 0) →
    1 ≤ (monthDay leap n).1 ∧ (monthDay leap n).1 ≤ 12 ∧
    1 ≤ (monthDay leap n).2 ∧ (monthDay leap n).2 ≤ 31 := by
  decide

set_option maxRecDepth 100000 in
theorem monthDay_step_nat : ∀ leap : Bool, ∀ n : Nat, n < 364 + (if leap then 1 else 0) →
    pairLt (monthDay leap n) (monthDay leap (n + 1 : Nat)) := by
  decide

/-- Within one year the month and day grow with the day of the year. -/
theorem monthDay_mono (leap : Bool) (a b : Int) (h0 : 0 ≤ a) (hab : a < b)
    (hb : b < 365 + (if leap then 1 else 0)) :
    pairLt (monthDay leap a) (monthDay leap b) := by
  obtain ⟨k, hk⟩ : ∃ k : Nat, b = a + 1 + k := ⟨(b - a - 1).toNat, by omega⟩
  subst hk
  obtain ⟨n, hn⟩ : ∃ n : Nat, a = n := ⟨a.toNat, by omega⟩
  subst hn
  induction k with
  | zero =>
    have := monthDay_step_nat leap n (by
      cases leap <;> simp at hb ⊢ <;> omega)
    simpa using this
  | succ k ih =>
    have h1 := ih (by omega) (by
      cases leap <;> simp at hb ⊢ <;> omega)
    have h2 := monthDay_step_nat leap (n + 1 + k) (by
      cases leap <;> simp at hb ⊢ <;> omega)
    have e1 : ((n + 1 + k : Nat) : Int) = (n : Int) + 1 + (k : Nat) := by push_cast; ring
    have e2 : ((n + 1 + k + 1 : Nat) : Int) = (n : Int) + 1 + ((k + 1 : Nat) : Int) := by
      push_cast; ring
    rw [e1, e2] at h2
    exact pairLt_trans h1 h2

theorem monthDay_bounds (leap : Bool) (a : Int) (h0 : 0 ≤ a)
    (ha : a < 365 + (if leap then 1 else 0)) :
    1 ≤ (monthDay leap a).1 ∧ (monthDay leap a).1 ≤ 12 ∧
    1 ≤ (monthDay leap a).2 ∧ (monthDay leap a).2 ≤ 31 := by
  obtain ⟨n, hn⟩ : ∃ n : Nat, a = n := ⟨a.toNat, by omega⟩
  subst hn
  exact monthDay_bounds_nat leap n (by cases leap <;> simp at ha ⊢ <;> omega)

/-- The day of the year that `yearOfDays` returns lies within its year. -/
theorem yearOfDays_yday (d : Int) :
    0 ≤ (yearOfDays d).2 ∧
    (yearOfDays d).2 < 365 + (if isLeap (yearOfDays d).1 then 1 else 0) := by
  obtain ⟨x⟩ := yearDigits_exists d
  rw [x.hyear]
  have hyd := x.hyd
  have hl := x.hlast
  have := x.h100; have := x.h4; have := x.h1
  refine ⟨hyd.1, ?_⟩
  simp only
  by_cases h365 : x.yd = 365
  · obtain ⟨e1, e2⟩ := hl h365
    have hleap : isLeap (400 * x.n400 + 100 * x.n100 + 4 * x.n4 + x.n1 + 1) = true := by
      unfold isLeap
      simp only [Bool.and_eq_true, Bool.or_eq_true, beq_iff_eq, bne_iff_ne, ne_eq]
      constructor
      · omega
      · by_cases h24 : x.n4 = 24
        · right
          have := e2 h24
          omega
        · left
          omega
    simp [hleap, h365]
  · split <;> omega

theorem yearOfDays_range (d : Int) (h0 : -366 ≤ d) (h1 : d ≤ 3652058) :
    0 ≤ (yearOfDays d).1 ∧ (yearOfDays d).1 < 10 ^ 4 := by
  have e0 : yearOfDays (-366) = (0, 0) := by decide
  have e1 : yearOfDays 3652058 = (9999, 364) := by decide
  constructor
  · rcases eq_or_lt_of_le h0 with h | h
    · rw [← h, e0]
    · have := yearOfDays_mono (-366) d h
      rw [e0] at this
      simp only at this
      omega
  · rcases eq_or_lt_of_le h1 with h | h
    · rw [h, e1]; norm_num
    · have := yearOfDays_mono d 3652058 h
      rw [e1] at this
      simp only at this
      norm_num
      omega

/-! ## Lemmas: the fractional second -/

theorem trimZeros_append (l : List Char) :
    ∃ j, l = trimZeros l ++ List.replicate j '0' := by
  refine ⟨(l.reverse.takeWhile (fun c => c == '0')).length, ?_⟩
  have h1 : l.reverse = l.reverse.takeWhile (fun c => c == '0') ++
      l.reverse.dropWhile (fun c => c == '0') := (List.takeWhile_append_dropWhile _ _).symm
  have h2 : l.reverse.takeWhile (fun c => c == '0') =
      List.replicate (l.reverse.takeWhile (fun c => c == '0')).length '0' := by
    apply List.eq_replicate_of_mem
    intro c hc
    have := List.mem_takeWhile_imp hc
    simpa using this
  have h3 : l = (l.reverse.dropWhile (fun c => c == '0')).reverse ++
      (l.reverse.takeWhile (fun c => c == '0')).reverse := by
    rw [← List.reverse_append, ← h1, List.reverse_reverse]
  unfold trimZeros
  conv_lhs => rw [h3]
  rw [h2, List.reverse_replicate, List.length_replicate]

/-- Two fractional seconds that render with the same number of digits are ordered
as the nanoseconds. -/
theorem appendNano_lt (n1 n2 : Nat) (h : n1 < n2) (h2 : n2 < 1000000000)
    (hlen : (appendNano n1).length = (appendNano n2).length) (r : List Char) :
    List.lt (appendNano n1 ++ r) (appendNano n2 ++ r) := by
  have hn2 : n2 ≠ 0 := by omega
  have e1 : appendInt (n1 : Int) 9 = padDigits 9 n1 := by
    have := appendInt_eq (n1 : Int) 9 (by norm_num) (by omega) (by norm_num; omega)
    simpa using this
  have e2 : appendInt (n2 : Int) 9 = padDigits 9 n2 := by
    have := appendInt_eq (n2 : Int) 9 (by norm_num) (by omega) (by norm_num; omega)
    simpa using this
  by_cases hn1 : n1 = 0
  · simp [appendNano, hn1, hn2] at hlen
  · unfold appendNano at hlen ⊢
    simp only [hn1, hn2, if_false, e1, e2, List.length_cons, add_left_inj] at hlen ⊢
    obtain ⟨j1, hj1⟩ := trimZeros_append (padDigits 9 n1)
    obtain ⟨j2, hj2⟩ := trimZeros_append (padDigits 9 n2)
    have hl1 := congrArg List.length hj1
    have hl2 := congrArg List.length hj2
    simp only [length_padDigits, List.length_append, List.length_replicate] at hl1 hl2
    have hj : j1 = j2 := by omega
    subst hj
    have hlt := padDigits_lt 9 n1 n2 h (by norm_num; omega)
    rw [hj1, hj2] at hlt
    rcases (lexLt_append_iff _ _ _ _ hlen).mp hlt with g | ⟨_, g⟩
    · exact lexLt_cons _ ((lexLt_append_iff _ _ _ _ hlen).mpr (Or.inl g))
    · exact absurd g (lexLt_irrefl _)

/-! ## Lemmas: the order of renderings -/

/-- Six fixed-width fields with their separators: the first field that differs
decides the order, and the tail decides it when all six are equal. -/
theorem fields_lt (Y1 M1 D1 h1 m1 s1 Y2 M2 D2 h2 m2 s2 : Int) (N1 N2 : List Char)
    (hY1 : 0 ≤ Y1) (hY2 : Y2 < 10 ^ 4) (hM1 : 0 ≤ M1) (hM2 : M2 < 10 ^ 2)
    (hD1 : 0 ≤ D1) (hD2 : D2 < 10 ^ 2) (hh1 : 0 ≤ h1) (hh2 : h2 < 10 ^ 2)
    (hm1 : 0 ≤ m1) (hm2 : m2 < 10 ^ 2) (hs1 : 0 ≤ s1) (hs2 : s2 < 10 ^ 2)
    (H : Y1 < Y2 ∨ (Y1 = Y2 ∧ (M1 < M2 ∨ (M1 = M2 ∧ (D1 < D2 ∨ (D1 = D2 ∧
      (h1 < h2 ∨ (h1 = h2 ∧ (m1 < m2 ∨ (m1 = m2 ∧ (s1 < s2 ∨ (s1 = s2 ∧
        List.lt N1 N2)))))))))))) :
    List.lt
      (appendInt Y1 4 ++ '-' :: (appendInt M1 2 ++ '-' :: (appendInt D1 2 ++ 'T' ::
        (appendInt h1 2 ++ ':' :: (appendInt m1 2 ++ ':' :: (appendInt s1 2 ++ N1))))))
      (appendInt Y2 4 ++ '-' :: (appendInt M2 2 ++ '-' :: (appendInt D2 2 ++ 'T' ::
        (appendInt h2 2 ++ ':' :: (appendInt m2 2 ++ ':' :: (appendInt s2 2 ++ N2)))))) := by
  refine field_lt 4 (by norm_num) Y1 Y2 _ _ _ hY1 hY2 (fun H1 => lexLt_cons '-' ?_) H
  refine field_lt 2 (by norm_num) M1 M2 _ _ _ hM1 hM2 (fun H2 => lexLt_cons '-' ?_) H1
  refine field_lt 2 (by norm_num) D1 D2 _ _ _ hD1 hD2 (fun H3 => lexLt_cons 'T' ?_) H2
  refine field_lt 2 (by norm_num) h1 h2 _ _ _ hh1 hh2 (fun H4 => lexLt_cons ':' ?_) H3
  refine field_lt 2 (by norm_num) m1 m2 _ _ _ hm1 hm2 (fun H5 => lexLt_cons ':' ?_) H4
  exact field_lt 2 (by norm_num) s1 s2 _ _ _ hs1 hs2 id H5

/-- The date fields of the rendering: year, month and day of a day count. -/
theorem date_lt (d e : Int) (h : d < e) :
    (yearOfDays d).1 < (yearOfDays e).1 ∨ ((yearOfDays d).1 = (yearOfDays e).1 ∧
      pairLt (monthDay (isLeap (yearOfDays d).1) (yearOfDays d).2)
        (monthDay (isLeap (yearOfDays e).1) (yearOfDays e).2)) := by
  rcases yearOfDays_mono d e h with g | ⟨g1, g2⟩
  · exact Or.inl g
  · refine Or.inr ⟨g1, ?_⟩
    rw [g1]
    exact monthDay_mono _ _ _ (yearOfDays_yday d).1 g2 (yearOfDays_yday e).2

/-! ## Lemmas: the fractional second, digit by digit -/

theorem digitChar_bounds : ∀ d < 10, '0' ≤ digitChar d ∧ digitChar d < 'Z' := by decide

/-- Every character of a fixed-width rendering is a decimal digit. -/
theorem padDigits_chars (w u : Nat) : ∀ c ∈ padDigits w u, '0' ≤ c ∧ c < 'Z' := by
  induction w generalizing u with
  | zero => intro c hc; simp [padDigits] at hc
  | succ w ih =>
    intro c hc
    simp only [padDigits, List.mem_append, List.mem_singleton] at hc
    rcases hc with hc | hc
    · exact ih _ c hc
    · rw [hc]
      exact digitChar_bounds _ (Nat.mod_lt _ (by norm_num))

/-- What `appendNano` writes, in terms of `fractionDigits`. -/
theorem appendNano_eq (n : Nat) :
    appendNano n = if n = 0 then [] else '.' :: fractionDigits n := rfl

theorem fractionDigits_zero : fractionDigits 0 = [] := by decide

/-- The nine digits of a nanosecond are its fraction digits and some zeros. -/
theorem fractionDigits_append (n : Nat) (h : n < 1000000000) :
    ∃ j, padDigits 9 n = fractionDigits n ++ List.replicate j '0' := by
  have e : appendInt (n : Int) 9 = padDigits 9 n := by
    have := appendInt_eq (n : Int) 9 (by norm_num) (by omega) (by norm_num; omega)
    simpa using this
  unfold fractionDigits
  rw [e]
  exact trimZeros_append _

/-- Nothing made of digits, and at least as long, is below a run of zeros. -/
theorem not_lexLt_zeros (l : List Char) (k : Nat) (hd : ∀ c ∈ l, '0' ≤ c)
    (hk : k ≤ l.length) : ¬ List.lt l (List.replicate k '0') := by
  induction l generalizing k with
  | nil =>
    have : k = 0 := by simpa using hk
    subst this
    intro h; cases h
  | cons a l ih =>
    cases k with
    | zero => intro h; cases h
    | succ k =>
      rw [List.replicate_succ]
      intro h
      cases h with
      | head _ _ h => exact absurd h (not_lt.mpr (hd a (List.mem_cons_self _ _)))
      | tail _ _ h =>
        exact ih k (fun c hc => hd c (List.mem_cons_of_mem _ hc))
          (by simpa using hk) h

/-- Two digit strings padded with zeros to the same length and ordered there stay
ordered when a common tail replaces the zeros, unless the first is a prefix of
the second. -/
theorem lexLt_of_not_initial (T1 T2 : List Char) (j1 j2 : Nat) (r : List Char)
    (hd : ∀ c ∈ T1, '0' ≤ c)
    (hlen : (T1 ++ List.replicate j1 '0').length = (T2 ++ List.replicate j2 '0').length)
    (hlt : List.lt (T1 ++ List.replicate j1 '0') (T2 ++ List.replicate j2 '0'))
    (hp : ¬ T1 <+: T2) : List.lt (T1 ++ r) (T2 ++ r) := by
  induction T1 generalizing T2 with
  | nil => exact absurd ⟨T2, rfl⟩ hp
  | cons a T1 ih =>
    cases T2 with
    | nil =>
      exfalso
      rw [List.nil_append] at hlt hlen
      refine not_lexLt_zeros _ j2 ?_ ?_ hlt
      · intro c hc
        rcases List.mem_append.mp hc with h | h
        · exact hd c h
        · rw [List.eq_of_mem_replicate h]
      · rw [hlen, List.length_replicate]
    | cons b T2 =>
      rw [List.cons_append, List.cons_append] at hlt hlen ⊢
      cases hlt with
      | head _ _ h => exact List.lt.head _ _ h
      | tail h1 h2 h =>
        have hab : a = b := le_antisymm (not_lt.mp h2) (not_lt.mp h1)
        subst hab
        refine List.lt.tail h1 h2 (ih T2 (fun c hc => hd c (List.mem_cons_of_mem _ hc))
          (by simpa using hlen) h ?_)
        intro hpre
        obtain ⟨t, ht⟩ := hpre
        exact hp ⟨t, by rw [List.cons_append, ht]⟩

/-- A digit string that is a prefix of another is not below it once both end in
`Z`: the `Z` meets a digit, or the end. -/
theorem not_lexLt_of_initial (T1 T2 : List Char) (hd : ∀ c ∈ T2, c < 'Z')
    (hp : T1 <+: T2) : ¬ List.lt (T1 ++ ['Z']) (T2 ++ ['Z']) := by
  obtain ⟨R, rfl⟩ := hp
  rw [List.append_assoc]
  intro h
  rcases (lexLt_append_iff T1 T1 _ _ rfl).mp h with g | ⟨_, g⟩
  · exact lexLt_irrefl _ g
  · cases R with
    | nil => exact lexLt_irrefl _ g
    | cons c R =>
      have hc : c < 'Z' := hd c (by simp)
      rw [List.cons_append] at g
      cases g with
      | head _ _ h => exact lt_asymm h hc
      | tail _ h2 _ => exact h2 hc

/-- Within one second: the fractional parts, each followed by the `Z` of the
layout, are ordered as the nanoseconds exactly when the digits written for the
earlier one are not a prefix of the digits written for the later one. -/
theorem appendNano_lt_iff (n1 n2 : Nat) (h : n1 < n2) (h2 : n2 < 1000000000) :
    List.lt (appendNano n1 ++ ['Z']) (appendNano n2 ++ ['Z']) ↔
      ¬ fractionDigits n1 <+: fractionDigits n2 := by
  have hn2 : n2 ≠ 0 := by omega
  obtain ⟨j1, hj1⟩ := fractionDigits_append n1 (by omega)
  obtain ⟨j2, hj2⟩ := fractionDigits_append n2 h2
  by_cases hn1 : n1 = 0
  · subst hn1
    rw [fractionDigits_zero]
    simp only [appendNano_eq, hn2, if_true, if_false, List.nil_append, List.cons_append]
    constructor
    · intro g
      cases g with
      | head _ _ h => exact absurd h (by decide)
      | tail _ h2 _ => exact absurd (by decide) h2
    · intro hp
      exact absurd ⟨fractionDigits n2, rfl⟩ hp
  · simp only [appendNano_eq, hn1, hn2, if_false, List.cons_append]
    have hd1 : ∀ c ∈ fractionDigits n1, '0' ≤ c := by
      intro c hc
      exact (padDigits_chars 9 n1 c (by rw [hj1]; exact List.mem_append_left _ hc)).1
    have hd2 : ∀ c ∈ fractionDigits n2, c < 'Z' := by
      intro c hc
      exact (padDigits_chars 9 n2 c (by rw [hj2]; exact List.mem_append_left _ hc)).2
    have hlt := padDigits_lt 9 n1 n2 h (by norm_num; omega)
    have hlen : (padDigits 9 n1).length = (padDigits 9 n2).length := by
      rw [length_padDigits, length_padDigits]
    rw [hj1, hj2] at hlt hlen
    constructor
    · intro g hp
      cases g with
      | head _ _ h => exact absurd h (by decide)
      | tail _ _ g => exact not_lexLt_of_initial _ _ hd2 hp g
    · intro hp
      exact lexLt_cons _ (lexLt_of_not_initial _ _ j1 j2 _ hd1 hlen hlt hp)

/-! ## Lemmas: the order of renderings, second by second -/

/-- Two instants with four-digit years in different seconds: the renderings are
ordered as the instants, whatever their fractional parts. -/
theorem rfc3339NanoChars_lt_of_fourDigit (t1 t2 : Time) (hs : t1.sec < t2.sec)
    (y1 : t1.fourDigitYear) (y2 : t2.fourDigitYear) :
    List.lt (rfc3339NanoChars t1) (rfc3339NanoChars t2) := by
  unfold Time.fourDigitYear at y1 y2
  unfold rfc3339NanoChars
  simp only [List.append_assoc, List.cons_append]
  have hd1 := yearOfDays_range (t1.sec / 86400 + 719162) (by omega) (by omega)
  have hd2 := yearOfDays_range (t2.sec / 86400 + 719162) (by omega) (by omega)
  have hy1 := yearOfDays_yday (t1.sec / 86400 + 719162)
  have hy2 := yearOfDays_yday (t2.sec / 86400 + 719162)
  have hm1 := monthDay_bounds _ _ hy1.1 hy1.2
  have hm2 := monthDay_bounds _ _ hy2.1 hy2.2
  apply fields_lt
  · exact hd1.1
  · exact hd2.2
  · omega
  · norm_num; omega
  · omega
  · norm_num; omega
  · omega
  · norm_num; omega
  · omega
  · norm_num; omega
  · omega
  · norm_num; omega
  · rcases lt_or_ge (t1.sec / 86400 + 719162) (t2.sec / 86400 + 719162) with hd | hd
    · rcases date_lt _ _ hd with g | ⟨g1, g2 | ⟨g2, g3⟩⟩
      · exact Or.inl g
      · exact Or.inr ⟨g1, Or.inl g2⟩
      · exact Or.inr ⟨g1, Or.inr ⟨g2, Or.inl g3⟩⟩
    · have he : t1.sec / 86400 = t2.sec / 86400 := by omega
      rw [he]
      refine Or.inr ⟨rfl, Or.inr ⟨rfl, Or.inr ⟨rfl, ?_⟩⟩⟩
      have hrem : t1.sec % 86400 < t2.sec % 86400 := by omega
      have h0 : 0 ≤ t1.sec % 86400 := by omega
      have h3 : t2.sec % 86400 < 86400 := by omega
      generalize t1.sec % 86400 = r1 at hrem h0
      generalize t2.sec % 86400 = r2 at hrem h3
      rcases lt_trichotomy (r1 / 3600) (r2 / 3600) with k | k | k
      · exact Or.inl k
      · refine Or.inr ⟨k, ?_⟩
        rcases lt_trichotomy (r1 % 3600 / 60) (r2 % 3600 / 60) with k2 | k2 | k2
        · exact Or.inl k2
        · exact Or.inr ⟨k2, Or.inl (by omega)⟩
        · omega
      · omega

theorem lexLt_cons_iff (c : Char) (a b : List Char) :
    List.lt (c :: a) (c :: b) ↔ List.lt a b := by
  constructor
  · intro h
    cases h with
    | head _ _ h => exact absurd h (lt_irrefl c)
    | tail _ _ h => exact h
  · exact lexLt_cons c

theorem lexLt_append_left_iff (p a b : List Char) :
    List.lt (p ++ a) (p ++ b) ↔ List.lt a b := by
  rw [lexLt_append_iff p p a b rfl]
  constructor
  · rintro (g | ⟨_, g⟩)
    · exact absurd g (lexLt_irrefl _)
    · exact g
  · intro g
    exact Or.inr ⟨rfl, g⟩

/-- Two instants of the same second: their renderings share everything up to the
seconds field, and are ordered as their fractional parts followed by `Z`. -/
theorem rfc3339NanoChars_lt_same_sec (t1 t2 : Time) (hs : t1.sec = t2.sec) :
    List.lt (rfc3339NanoChars t1) (rfc3339NanoChars t2) ↔
      List.lt (appendNano t1.nsec ++ ['Z']) (appendNano t2.nsec ++ ['Z']) := by
  unfold rfc3339NanoChars
  simp only [hs, List.append_assoc, List.cons_append, lexLt_append_left_iff, lexLt_cons_iff]

/-- A year before 0000 is rendered with a leading minus sign, which sorts before
every digit: an instant before year 0000 is rendered below an instant with a
four-digit year. -/
theorem rfc3339NanoChars_lt_of_negative (t1 t2 : Time) (h1 : t1.sec < -62167219200)
    (y2 : t2.fourDigitYear) :
    List.lt (rfc3339NanoChars t1) (rfc3339NanoChars t2) := by
  unfold Time.fourDigitYear at y2
  have e0 : yearOfDays (-366) = (0, 0) := by decide
  have hneg : (yearOfDays (t1.sec / 86400 + 719162)).1 < 0 := by
    have hy := yearOfDays_yday (t1.sec / 86400 + 719162)
    rcases yearOfDays_mono (t1.sec / 86400 + 719162) (-366) (by omega) with g | ⟨_, g⟩
    · rw [e0] at g; exact g
    · rw [e0] at g
      have := hy.1
      omega
  have hd2 := yearOfDays_range (t2.sec / 86400 + 719162) (by omega) (by omega)
  unfold rfc3339NanoChars
  simp only [List.append_assoc, List.cons_append]
  rw [appendInt_eq _ 4 (by norm_num) hd2.1 hd2.2]
  unfold appendInt
  simp only [hneg, if_true, List.cons_append, padDigits, List.append_assoc, List.nil_append]
  exact List.lt.head _ _ (lt_of_lt_of_le (by decide)
    (digitChar_bounds _ (Nat.mod_lt _ (by norm_num))).1)

/-- Two instants in different seconds, the later one with a four-digit year: the
renderings are ordered as the instants, whatever their fractional parts. -/
theorem rfc3339NanoChars_lt_of_sec (t1 t2 : Time) (hs : t1.sec < t2.sec)
    (y2 : t2.fourDigitYear) :
    List.lt (rfc3339NanoChars t1) (rfc3339NanoChars t2) := by
  rcases lt_or_ge t1.sec (-62167219200) with h | h
  · exact rfc3339NanoChars_lt_of_negative t1 t2 h y2
  · exact rfc3339NanoChars_lt_of_fourDigit t1 t2 hs ⟨h, lt_trans hs y2.2⟩ y2

/-- The renderings of two instants, the first before the second and the second
with a four-digit year, are ordered as the instants exactly when the instants
fall in different seconds or the fraction digits of the first are not a prefix
of those of the second. -/
theorem formatRFC3339Nano_lt_iff (t1 t2 : Time) (hb : t1.before t2) (w2 : t2.wellFormed)
    (y2 : t2.fourDigitYear) :
    formatRFC3339Nano t1 < formatRFC3339Nano t2 ↔
      (t1.sec < t2.sec ∨ ¬ fractionDigits t1.nsec <+: fractionDigits t2.nsec) := by
  rw [String.lt_iff_toList_lt]
  change List.Lex (· < ·) (rfc3339NanoChars t1) (rfc3339NanoChars t2) ↔ _
  rw [← List.lt_iff_lex_lt]
  rcases hb with hs | ⟨hs, hn⟩
  · constructor
    · intro _; exact Or.inl hs
    · intro _; exact rfc3339NanoChars_lt_of_sec t1 t2 hs y2
  · rw [rfc3339NanoChars_lt_same_sec t1 t2 hs, appendNano_lt_iff _ _ hn w2]
    constructor
    · intro g; exact Or.inr g
    · rintro (g | g)
      · omega
      · exact g

/-- In particular, renderings with the same number of fractional digits are
ordered as the instants. -/
theorem formatRFC3339Nano_lt (t1 t2 : Time) (hb : t1.before t2) (w2 : t2.wellFormed)
    (y2 : t2.fourDigitYear)
    (hfrac : (appendNano t1.nsec).length = (appendNano t2.nsec).length) :
    formatRFC3339Nano t1 < formatRFC3339Nano t2 := by
  rw [String.lt_iff_toList_lt]
  change List.Lex (· < ·) (rfc3339NanoChars t1) (rfc3339NanoChars t2)
  rw [← List.lt_iff_lex_lt]
  rcases hb with hs | ⟨hs, hn⟩
  · exact rfc3339NanoChars_lt_of_sec t1 t2 hs y2
  · exact (rfc3339NanoChars_lt_same_sec t1 t2 hs).mpr (appendNano_lt _ _ hn w2 hfrac _)

/-! ## Lemmas: two passes of Controller B in a row -/

/-- A pass that reads an in-scope Service and returns no error has applied the
trigger patch to the store. -/
theorem reconcile_ok_inScope {Sel : Type} (lib : SelectorLib Sel)
    (iter : StrSet → List String) (now : Time) (f : Faults) (c : Cluster) (req : Request)
    (svc : Service) (selector : Sel)
    (hread : readService f c req = Except.ok (some svc)) (hscope : InScope lib svc selector)
    (hok : (ServiceReconciler.Reconcile lib iter now f c req).err = none) :
    (ServiceReconciler.Reconcile lib iter now f c req).cluster =
      (triggerPatch svc now).apply c := by
  rw [reconcile_inScope lib iter now f c req svc selector hread hscope] at hok ⊢
  cases hc : candidateIPs lib f c svc selector with
  | error e => simp [hc, SyncPass.ret] at hok
  | ok S =>
    simp only [hc] at hok ⊢
    unfold pokeCCM at hok ⊢
    by_cases hp : f.patchService = true
    · simp [hp] at hok
    · simp [hp, triggerPatch]

/-- A pass whose read of the Service fails returns an error. -/
theorem reconcile_ok_read {Sel : Type} (lib : SelectorLib Sel)
    (iter : StrSet → List String) (now : Time) (f : Faults) (c : Cluster) (req : Request)
    (hok : (ServiceReconciler.Reconcile lib iter now f c req).err = none) :
    readService f c req = Except.ok (getService c req) := by
  unfold readService
  by_cases hg : f.getService = true
  · unfold ServiceReconciler.Reconcile readService at hok
    simp [hg, SyncPass.ret] at hok
  · simp [hg]

/-- The Service read back after its trigger patch. -/
theorem getService_triggerPatch (c : Cluster) (req : Request) (svc : Service) (now : Time)
    (h : getService c req = some svc) :
    getService ((triggerPatch svc now).apply c) req =
      some { svc with
        Annotations := svc.Annotations.set AnnotationTrigger (formatRFC3339Nano now) } := by
  rw [getService_apply, h]
  simp [triggerPatch]

/-- The trigger patch leaves a Service in scope. -/
theorem inScope_triggerPatch {Sel : Type} (lib : SelectorLib Sel) (svc : Service)
    (selector : Sel) (v : String) (h : InScope lib svc selector) :
    InScope lib { svc with Annotations := svc.Annotations.set AnnotationTrigger v }
      selector := by
  obtain ⟨hlb, s, hs, hne, hp⟩ := h
  refine ⟨hlb, s, ?_, hne, hp⟩
  show StrMap.lookup (StrMap.set svc.Annotations AnnotationTrigger v) AnnotationNodeSelector
    = some s
  rw [StrMap.lookup_set_other _ _ _ _ selector_ne_trigger]
  exact hs

/-- The trigger value in the store after a pass that reads an in-scope Service
and returns no error: the rendering of the instant of the pass. -/
theorem triggerOf_after {Sel : Type} (lib : SelectorLib Sel)
    (iter : StrSet → List String) (now : Time) (f : Faults) (c : Cluster) (req : Request)
    (svc : Service) (selector : Sel)
    (hread : readService f c req = Except.ok (some svc)) (hscope : InScope lib svc selector)
    (hok : (ServiceReconciler.Reconcile lib iter now f c req).err = none) :
    triggerOf (ServiceReconciler.Reconcile lib iter now f c req).cluster req =
      some (formatRFC3339Nano now) := by
  rw [reconcile_ok_inScope lib iter now f c req svc selector hread hscope hok]
  unfold triggerOf
  rw [getService_triggerPatch c req svc now (readService_ok f c req _ hread).2]
  simp [StrMap.lookup_set_self]

/-! ## Controller B: the trigger value across passes -/

/-- C5, as stated, fails: two consecutive passes without error on the scenario,
the second a tenth of a second after the first, write `2024-01-01T12:00:00Z`
and then `2024-01-01T12:00:00.1Z`, and the second value is strictly smaller in
lexicographic order (`.` sorts before `Z`), because the layout drops the
trailing zeros of the fractional second. It fails as well when the later
instant leaves the years 0000 to 9999: from `9999-12-31T23:59:59Z` to
`10000-01-01T00:00:00Z` (the year takes a fifth digit), and from
`-0002-01-01T00:00:00Z` to `-0001-01-01T00:00:00Z` (the digits of a year before
0000 count down). -/
theorem trigger_monotonic_counterexample :
    (noon.before noonTenth ∧
    (ServiceReconciler.Reconcile eqSelectorLib insertionOrder noon Faults.none
      (webCluster "Local") webRequest).err = none ∧
    (ServiceReconciler.Reconcile eqSelectorLib insertionOrder noonTenth Faults.none
      (ServiceReconciler.Reconcile eqSelectorLib insertionOrder noon Faults.none
        (webCluster "Local") webRequest).cluster webRequest).err = none ∧
    triggerOf (ServiceReconciler.Reconcile eqSelectorLib insertionOrder noon Faults.none
      (webCluster "Local") webRequest).cluster webRequest = some "2024-01-01T12:00:00Z" ∧
    triggerOf (ServiceReconciler.Reconcile eqSelectorLib insertionOrder noonTenth Faults.none
      (ServiceReconciler.Reconcile eqSelectorLib insertionOrder noon Faults.none
        (webCluster "Local") webRequest).cluster webRequest).cluster webRequest
      = some "2024-01-01T12:00:00.1Z" ∧
    formatRFC3339Nano noon = "2024-01-01T12:00:00Z" ∧
    formatRFC3339Nano noonTenth = "2024-01-01T12:00:00.1Z" ∧
    ("2024-01-01T12:00:00.1Z" : String) < "2024-01-01T12:00:00Z") ∧
    (lastOf9999.before firstOf10000 ∧
    (ServiceReconciler.Reconcile eqSelectorLib insertionOrder lastOf9999 Faults.none
      (webCluster "Local") webRequest).err = none ∧
    (ServiceReconciler.Reconcile eqSelectorLib insertionOrder firstOf10000 Faults.none
      (ServiceReconciler.Reconcile eqSelectorLib insertionOrder lastOf9999 Faults.none
        (webCluster "Local") webRequest).cluster webRequest).err = none ∧
    triggerOf (ServiceReconciler.Reconcile eqSelectorLib insertionOrder lastOf9999 Faults.none
      (webCluster "Local") webRequest).cluster webRequest = some "9999-12-31T23:59:59Z" ∧
    triggerOf (ServiceReconciler.Reconcile eqSelectorLib insertionOrder firstOf10000 Faults.none
      (ServiceReconciler.Reconcile eqSelectorLib insertionOrder lastOf9999 Faults.none
        (webCluster "Local") webRequest).cluster webRequest).cluster webRequest
      = some "10000-01-01T00:00:00Z" ∧
    ("10000-01-01T00:00:00Z" : String) < "9999-12-31T23:59:59Z") ∧
    (firstOfMinus2.before firstOfMinus1 ∧
    (ServiceReconciler.Reconcile eqSelectorLib insertionOrder firstOfMinus2 Faults.none
      (webCluster "Local") webRequest).err = none ∧
    (ServiceReconciler.Reconcile eqSelectorLib insertionOrder firstOfMinus1 Faults.none
      (ServiceReconciler.Reconcile eqSelectorLib insertionOrder firstOfMinus2 Faults.none
        (webCluster "Local") webRequest).cluster webRequest).err = none ∧
    triggerOf (ServiceReconciler.Reconcile eqSelectorLib insertionOrder firstOfMinus2 Faults.none
      (webCluster "Local") webRequest).cluster webRequest = some "-0002-01-01T00:00:00Z" ∧
    triggerOf (ServiceReconciler.Reconcile eqSelectorLib insertionOrder firstOfMinus1 Faults.none
      (ServiceReconciler.Reconcile eqSelectorLib insertionOrder firstOfMinus2 Faults.none
        (webCluster "Local") webRequest).cluster webRequest).cluster webRequest
      = some "-0001-01-01T00:00:00Z" ∧
    ("-0001-01-01T00:00:00Z" : String) < "-0002-01-01T00:00:00Z") := by
  refine ⟨⟨by decide, by decide, by decide, by decide, by decide, by decide, by decide, ?_⟩,
    ⟨by decide, by decide, by decide, by decide, by decide, ?_⟩,
    ⟨by decide, by decide, by decide, by decide, by decide, ?_⟩⟩
  · rw [String.lt_iff_toList_lt]
    decide
  · rw [String.lt_iff_toList_lt]
    decide
  · rw [String.lt_iff_toList_lt]
    decide

/-- C5 (amended): for an in-scope Service and two consecutive passes without
error at instants `t1` and `t2`, the first pass leaves the rendering of `t1` and
the second the rendering of `t2` as the trigger annotation value, whatever the
candidate sets are. When `t1` is before `t2` and `t2` has a four-digit year, the
second value is strictly greater in lexicographic string order exactly when the
instants fall in different seconds or, within one second, the fraction digits
written for `t1` are not a prefix of those written for `t2`. -/
theorem trigger_monotonic {Sel : Type} (lib : SelectorLib Sel)
    (iter : StrSet → List String) (t1 t2 : Time) (f1 f2 : Faults) (c : Cluster)
    (req : Request) (svc : Service) (selector : Sel)
    (hread : readService f1 c req = Except.ok (some svc)) (hscope : InScope lib svc selector)
    (hok1 : (ServiceReconciler.Reconcile lib iter t1 f1 c req).err = none)
    (hok2 : (ServiceReconciler.Reconcile lib iter t2 f2
      (ServiceReconciler.Reconcile lib iter t1 f1 c req).cluster req).err = none) :
    triggerOf (ServiceReconciler.Reconcile lib iter t1 f1 c req).cluster req
      = some (formatRFC3339Nano t1) ∧
    triggerOf (ServiceReconciler.Reconcile lib iter t2 f2
      (ServiceReconciler.Reconcile lib iter t1 f1 c req).cluster req).cluster req
      = some (formatRFC3339Nano t2) ∧
    (t1.before t2 → t2.wellFormed → t2.fourDigitYear →
      (formatRFC3339Nano t1 < formatRFC3339Nano t2 ↔
        (t1.sec < t2.sec ∨ ¬ fractionDigits t1.nsec <+: fractionDigits t2.nsec))) := by
  refine ⟨triggerOf_after lib iter t1 f1 c req svc selector hread hscope hok1, ?_,
    fun hb w2 y2 => formatRFC3339Nano_lt_iff t1 t2 hb w2 y2⟩
  have hread2 := reconcile_ok_read lib iter t2 f2 _ req hok2
  have hc1 := reconcile_ok_inScope lib iter t1 f1 c req svc selector hread hscope hok1
  have hget := getService_triggerPatch c req svc t1 (readService_ok f1 c req _ hread).2
  rw [← hc1] at hget
  rw [hget] at hread2
  exact triggerOf_after lib iter t2 f2 _ req _ selector hread2
    (inScope_triggerPatch lib svc selector _ hscope) hok2

theorem trigger_monotonic_witness :
    (triggerOf (ServiceReconciler.Reconcile eqSelectorLib insertionOrder noonHalf Faults.none
      (webCluster "Local") webRequest).cluster webRequest
      = some (formatRFC3339Nano noonHalf) ∧
    triggerOf (ServiceReconciler.Reconcile eqSelectorLib insertionOrder noonNext Faults.none
      (ServiceReconciler.Reconcile eqSelectorLib insertionOrder noonHalf Faults.none
        (webCluster "Local") webRequest).cluster webRequest).cluster webRequest
      = some (formatRFC3339Nano noonNext) ∧
    formatRFC3339Nano noonHalf < formatRFC3339Nano noonNext) ∧
    (triggerOf (ServiceReconciler.Reconcile eqSelectorLib insertionOrder noonQuarter Faults.none
      (webCluster "Local") webRequest).cluster webRequest
      = some (formatRFC3339Nano noonQuarter) ∧
    triggerOf (ServiceReconciler.Reconcile eqSelectorLib insertionOrder noonHalf Faults.none
      (ServiceReconciler.Reconcile eqSelectorLib insertionOrder noonQuarter Faults.none
        (webCluster "Local") webRequest).cluster webRequest).cluster webRequest
      = some (formatRFC3339Nano noonHalf) ∧
    formatRFC3339Nano noonQuarter < formatRFC3339Nano noonHalf) ∧
    (noon.before noonTenth ∧ noonTenth.wellFormed ∧ noonTenth.fourDigitYear ∧
      ¬ formatRFC3339Nano noon < formatRFC3339Nano noonTenth) :=
  have a := trigger_monotonic eqSelectorLib insertionOrder noonHalf noonNext Faults.none
    Faults.none (webCluster "Local") webRequest (webService "Local" "tier=edge")
    ("tier", "edge") rfl ⟨by decide, "tier=edge", by decide, by decide, rfl⟩
    (by decide) (by decide)
  have b := trigger_monotonic eqSelectorLib insertionOrder noonQuarter noonHalf Faults.none
    Faults.none (webCluster "Local") webRequest (webService "Local" "tier=edge")
    ("tier", "edge") rfl ⟨by decide, "tier=edge", by decide, by decide, rfl⟩
    (by decide) (by decide)
  have c := trigger_monotonic eqSelectorLib insertionOrder noon noonTenth Faults.none
    Faults.none (webCluster "Local") webRequest (webService "Local" "tier=edge")
    ("tier", "edge") rfl ⟨by decide, "tier=edge", by decide, by decide, rfl⟩
    (by decide) (by decide)
  ⟨⟨a.1, a.2.1, (a.2.2 (by decide) (by decide) (by decide)).mpr (Or.inl (by decide))⟩,
    ⟨b.1, b.2.1, (b.2.2 (by decide) (by decide) (by decide)).mpr (Or.inr (by decide))⟩,
    ⟨by decide, by decide, by decide,
      fun h => ((c.2.2 (by decide) (by decide) (by decide)).mp h).elim (by decide)
        (fun g => g (by decide))⟩⟩

/-! ## Controller B: the trigger annotation is never read -/

/-- Stores that differ at most in the trigger annotation give the same error,
candidate set, events and patches. -/
theorem reconcile_sameButTrigger {Sel : Type} (lib : SelectorLib Sel)
    (iter : StrSet → List String) (now : Time) (f : Faults) (c1 c2 : Cluster) (req : Request)
    (hc : Cluster.sameButTrigger c1 c2) :
    (ServiceReconciler.Reconcile lib iter now f c1 req).err =
      (ServiceReconciler.Reconcile lib iter now f c2 req).err ∧
    (ServiceReconciler.Reconcile lib iter now f c1 req).candidates =
      (ServiceReconciler.Reconcile lib iter now f c2 req).candidates ∧
    (ServiceReconciler.Reconcile lib iter now f c1 req).events =
      (ServiceReconciler.Reconcile lib iter now f c2 req).events ∧
    (ServiceReconciler.Reconcile lib iter now f c1 req).patches =
      (ServiceReconciler.Reconcile lib iter now f c2 req).patches := by
  unfold ServiceReconciler.Reconcile readService
  by_cases hg : f.getService = true
  · simp [hg, SyncPass.ret]
  · simp only [hg, Bool.false_eq_true, if_false]
    have hfind := getService_sameButTrigger c1.services c2.services hc.2.2 req
    change (getService c1 req = none ∧ getService c2 req = none) ∨
      ∃ s1 s2, getService c1 req = some s1 ∧ getService c2 req = some s2 ∧
        Service.sameButTrigger s1 s2 at hfind
    rcases hfind with ⟨h1, h2⟩ | ⟨s1, s2, h1, h2, hs⟩
    · simp only [h1, h2, SyncPass.ret, and_self]
    · obtain ⟨hns, hname, hty, hpol, hann⟩ := id hs
      have hsel := hann AnnotationNodeSelector selector_ne_trigger
      simp only [h1, h2, hty, hsel]
      by_cases hlb : s2.Type_ = ServiceTypeLoadBalancer
      · simp only [hlb, ne_eq, not_true_eq_false, if_false]
        cases hl : s2.Annotations.lookup AnnotationNodeSelector with
        | none => simp [SyncPass.ret]
        | some str =>
          by_cases hstr : str = ""
          · simp [hstr, SyncPass.ret]
          · simp only [hstr, if_false]
            cases hp : lib.Parse str with
            | error e => simp [invalidSelectorEvent, hns, hname]
            | ok selector =>
              simp only [candidateIPs_sameButTrigger lib f c1 c2 s1 s2 selector hc hs]
              cases hcand : candidateIPs lib f c2 s2 selector with
              | error e => simp [SyncPass.ret]
              | ok cands => exact pokeCCM_sameButTrigger iter now f c1 c2 s1 s2 cands hs
      · simp [hlb, SyncPass.ret]


/-- A pass that issues a patch has read an in-scope Service. -/
theorem reconcile_patches_inScope {Sel : Type} (lib : SelectorLib Sel)
    (iter : StrSet → List String) (now : Time) (f : Faults) (c : Cluster) (req : Request)
    (hp : (ServiceReconciler.Reconcile lib iter now f c req).patches ≠ []) :
    ∃ svc selector, readService f c req = Except.ok (some svc) ∧ InScope lib svc selector := by
  unfold ServiceReconciler.Reconcile at hp
  cases hread : readService f c req with
  | error e => simp [hread, SyncPass.ret] at hp
  | ok o =>
    cases o with
    | none => simp [hread, SyncPass.ret] at hp
    | some svc =>
      by_cases hlb : svc.Type_ = ServiceTypeLoadBalancer
      · cases hl : svc.Annotations.lookup AnnotationNodeSelector with
        | none => simp [hread, hlb, hl, SyncPass.ret] at hp
        | some s =>
          by_cases hs : s = ""
          · simp [hread, hlb, hl, hs, SyncPass.ret] at hp
          · cases hparse : lib.Parse s with
            | error e => simp [hread, hlb, hl, hs, hparse] at hp
            | ok selector => exact ⟨svc, selector, rfl, hlb, s, hl, hs, hparse⟩
      · simp [hread, hlb, SyncPass.ret] at hp

/-- C9 (the trigger annotation is write-only): for two stores that differ at most
in the value or presence of the trigger annotation on their Services, a pass at
the same instant, with the same faults and the same map order, returns the same
error, computes the same candidate set, records the same events and issues the
same patches; and when the pass writes the trigger annotation, the new value in
either store is the rendering of that instant. -/
theorem trigger_write_only {Sel : Type} (lib : SelectorLib Sel)
    (iter : StrSet → List String) (now : Time) (f : Faults) (c1 c2 : Cluster) (req : Request)
    (hc : Cluster.sameButTrigger c1 c2) :
    (ServiceReconciler.Reconcile lib iter now f c1 req).err =
      (ServiceReconciler.Reconcile lib iter now f c2 req).err ∧
    (ServiceReconciler.Reconcile lib iter now f c1 req).candidates =
      (ServiceReconciler.Reconcile lib iter now f c2 req).candidates ∧
    (ServiceReconciler.Reconcile lib iter now f c1 req).events =
      (ServiceReconciler.Reconcile lib iter now f c2 req).events ∧
    (ServiceReconciler.Reconcile lib iter now f c1 req).patches =
      (ServiceReconciler.Reconcile lib iter now f c2 req).patches ∧
    ((ServiceReconciler.Reconcile lib iter now f c1 req).err = none →
      (ServiceReconciler.Reconcile lib iter now f c1 req).patches ≠ [] →
      triggerOf (ServiceReconciler.Reconcile lib iter now f c1 req).cluster req
        = some (formatRFC3339Nano now) ∧
      triggerOf (ServiceReconciler.Reconcile lib iter now f c2 req).cluster req
        = some (formatRFC3339Nano now)) := by
  have main := reconcile_sameButTrigger lib iter now f c1 c2 req hc
  refine ⟨main.1, main.2.1, main.2.2.1, main.2.2.2, ?_⟩
  intro hok hp
  obtain ⟨s1, sel1, hr1, hs1⟩ := reconcile_patches_inScope lib iter now f c1 req hp
  obtain ⟨s2, sel2, hr2, hs2⟩ := reconcile_patches_inScope lib iter now f c2 req
    (main.2.2.2 ▸ hp)
  exact ⟨triggerOf_after lib iter now f c1 req s1 sel1 hr1 hs1 hok,
    triggerOf_after lib iter now f c2 req s2 sel2 hr2 hs2 (main.1 ▸ hok)⟩

theorem webCluster_sameButTrigger :
    Cluster.sameButTrigger (webCluster "Local") triggeredCluster := by
  refine ⟨rfl, rfl, List.Forall₂.cons ⟨rfl, rfl, rfl, rfl, ?_⟩ List.Forall₂.nil⟩
  intro k hk
  show StrMap.lookup _ k = StrMap.lookup ((AnnotationTrigger, _) :: _) k
  rw [StrMap.lookup_cons, if_neg (fun e => hk e.symm)]

theorem trigger_write_only_witness :
    (ServiceReconciler.Reconcile eqSelectorLib insertionOrder noon Faults.none
        (webCluster "Local") webRequest).err =
      (ServiceReconciler.Reconcile eqSelectorLib insertionOrder noon Faults.none
        triggeredCluster webRequest).err ∧
    (ServiceReconciler.Reconcile eqSelectorLib insertionOrder noon Faults.none
        (webCluster "Local") webRequest).candidates =
      (ServiceReconciler.Reconcile eqSelectorLib insertionOrder noon Faults.none
        triggeredCluster webRequest).candidates ∧
    (ServiceReconciler.Reconcile eqSelectorLib insertionOrder noon Faults.none
        (webCluster "Local") webRequest).events =
      (ServiceReconciler.Reconcile eqSelectorLib insertionOrder noon Faults.none
        triggeredCluster webRequest).events ∧
    (ServiceReconciler.Reconcile eqSelectorLib insertionOrder noon Faults.none
        (webCluster "Local") webRequest).patches =
      (ServiceReconciler.Reconcile eqSelectorLib insertionOrder noon Faults.none
        triggeredCluster webRequest).patches ∧
    ((ServiceReconciler.Reconcile eqSelectorLib insertionOrder noon Faults.none
        (webCluster "Local") webRequest).err = none →
      (ServiceReconciler.Reconcile eqSelectorLib insertionOrder noon Faults.none
        (webCluster "Local") webRequest).patches ≠ [] →
      triggerOf (ServiceReconciler.Reconcile eqSelectorLib insertionOrder noon Faults.none
        (webCluster "Local") webRequest).cluster webRequest
        = some (formatRFC3339Nano noon) ∧
      triggerOf (ServiceReconciler.Reconcile eqSelectorLib insertionOrder noon Faults.none
        triggeredCluster webRequest).cluster webRequest
        = some (formatRFC3339Nano noon)) :=
  trigger_write_only eqSelectorLib insertionOrder noon Faults.none (webCluster "Local")
    triggeredCluster webRequest webCluster_sameButTrigger

/-! ## Controller B: the candidate set -/

/-- C11, as stated, fails: under Cluster policy the node `n2` of the scenario,
reporting no address of type `InternalIP`, is ready, schedulable and
selector-matching, and its primary internal address is the empty string, but
the candidate set does not hold it: line 202 skips the empty address. -/
theorem candidateSet_counterexample :
    noAddressNode ∈ noAddressCluster.nodes ∧
    isNodeReady noAddressNode = true ∧ isNodeSchedulable noAddressNode = true ∧
    eqSelectorLib.Matches ("tier", "edge") noAddressNode.Labels = true ∧
    nodePrimaryInternalIP noAddressNode = "" ∧
    (ServiceReconciler.Reconcile eqSelectorLib insertionOrder noon Faults.none
      noAddressCluster webRequest).candidates = some ["10.0.0.1"] ∧
    nodePrimaryInternalIP noAddressNode ∉ ["10.0.0.1"] := by
  decide

theorem StrSet.nodup_insert (s : StrSet) (x : String) (h : s.Nodup) : (s.insert x).Nodup := by
  unfold StrSet.insert
  by_cases hx : x ∈ s
  · simpa [hx] using h
  · simp only [hx, if_false]
    rw [List.nodup_append]
    refine ⟨h, List.nodup_singleton x, ?_⟩
    intro a ha hb
    simp only [List.mem_singleton] at hb
    exact hx (hb ▸ ha)

theorem nodup_candidateLoop (nodes : List Node) (acc : StrSet) (h : acc.Nodup) :
    (candidateLoop acc nodes).Nodup := by
  induction nodes generalizing acc with
  | nil => exact h
  | cons n rest ih =>
    unfold candidateLoop
    split
    · simp only
      split
      · exact ih _ (StrSet.nodup_insert _ _ h)
      · exact ih _ h
    · exact ih _ h

theorem nodup_filteredLoop {Sel : Type} (lib : SelectorLib Sel) (selector : Sel)
    (eps : StrSet) (nodes : List Node) (acc : StrSet) (h : acc.Nodup) :
    (filteredLoop lib selector eps acc nodes).Nodup := by
  induction nodes generalizing acc with
  | nil => exact h
  | cons n rest ih =>
    unfold filteredLoop
    split
    · simp only
      split
      · exact ih _ (StrSet.nodup_insert _ _ h)
      · exact ih _ h
    · exact ih _ h

/-- The candidate set of a pass whose reads succeed: its members, and that it
holds no address twice. -/
theorem candidateIPs_spec {Sel : Type} (lib : SelectorLib Sel) (f : Faults) (c : Cluster)
    (svc : Service) (selector : Sel) (hnodes : f.listNodes = false)
    (hslices : svc.ExternalTrafficPolicy = ServiceExternalTrafficPolicyTypeLocal →
      f.listSlices = false) :
    ∃ S, candidateIPs lib f c svc selector = Except.ok S ∧ S.Nodup ∧
      ∀ ip, ip ∈ S ↔ ip ≠ "" ∧ ∃ n ∈ c.nodes,
        isNodeReady n = true ∧ isNodeSchedulable n = true ∧
        lib.Matches selector n.Labels = true ∧
        (svc.ExternalTrafficPolicy = ServiceExternalTrafficPolicyTypeLocal →
          ∃ es ∈ listSlicesFor c svc.Namespace svc.Name, ∃ ep ∈ es.Endpoints,
            ep.NodeName = some n.Name) ∧
        nodePrimaryInternalIP n = ip := by
  by_cases hpol : svc.ExternalTrafficPolicy = ServiceExternalTrafficPolicyTypeLocal
  · refine ⟨_, candidateIPs_local lib f c svc selector hnodes (hslices hpol) hpol,
      nodup_filteredLoop _ _ _ _ _ List.nodup_nil, ?_⟩
    intro ip
    rw [mem_filteredLoop]
    constructor
    · rintro (h | ⟨h0, n, hn, h1, h2, h3, h4, h5⟩)
      · simp at h
      · exact ⟨h0, n, (List.mem_filter.mp hn).1, h2, h3, h4,
          fun _ => (mem_nodesWithEP c svc n.Name).mp h1, h5⟩
    · rintro ⟨h0, n, hn, h2, h3, h4, h1, h5⟩
      exact Or.inr ⟨h0, n, List.mem_filter.mpr ⟨hn, h4⟩,
        (mem_nodesWithEP c svc n.Name).mpr (h1 hpol), h2, h3, h4, h5⟩
  · refine ⟨_, candidateIPs_cluster lib f c svc selector hnodes hpol,
      nodup_candidateLoop _ _ List.nodup_nil, ?_⟩
    intro ip
    rw [mem_candidateLoop]
    constructor
    · rintro (h | ⟨h0, n, hn, h2, h3, h5⟩)
      · simp at h
      · exact ⟨h0, n, (List.mem_filter.mp hn).1, h2, h3, (List.mem_filter.mp hn).2,
          fun e => absurd e hpol, h5⟩
    · rintro ⟨h0, n, hn, h2, h3, h4, _, h5⟩
      exact Or.inr ⟨h0, n, List.mem_filter.mpr ⟨hn, h4⟩, h2, h3, h5⟩

/-- C11 (amended): for an in-scope Service whose reads succeed, the candidate set
that `ServiceReconciler.Reconcile` computes is the set of the non-empty primary
internal addresses of the nodes that are ready, schedulable and
selector-matching and, when external-traffic-policy is Local, whose name is
referenced by at least one endpoint (ready or not) of that Service's membership
records. -/
theorem candidateSet_spec {Sel : Type} (lib : SelectorLib Sel) (iter : StrSet → List String)
    (now : Time) (f : Faults) (c : Cluster) (req : Request) (svc : Service) (selector : Sel)
    (hread : readService f c req = Except.ok (some svc)) (hscope : InScope lib svc selector)
    (hnodes : f.listNodes = false)
    (hslices : svc.ExternalTrafficPolicy = ServiceExternalTrafficPolicyTypeLocal →
      f.listSlices = false) :
    ∃ S, (ServiceReconciler.Reconcile lib iter now f c req).candidates = some S ∧
      ∀ ip, ip ∈ S ↔ ip ≠ "" ∧ ∃ n ∈ c.nodes,
        isNodeReady n = true ∧ isNodeSchedulable n = true ∧
        lib.Matches selector n.Labels = true ∧
        (svc.ExternalTrafficPolicy = ServiceExternalTrafficPolicyTypeLocal →
          ∃ es ∈ listSlicesFor c svc.Namespace svc.Name, ∃ ep ∈ es.Endpoints,
            ep.NodeName = some n.Name) ∧
        nodePrimaryInternalIP n = ip := by
  obtain ⟨S, hS, _, hmem⟩ := candidateIPs_spec lib f c svc selector hnodes hslices
  rw [reconcile_inScope lib iter now f c req svc selector hread hscope, hS]
  exact ⟨S, pokeCCM_candidates _ _ _ _ _ _, hmem⟩

theorem candidateSet_spec_witness :
    (ServiceReconciler.Reconcile eqSelectorLib insertionOrder noon Faults.none
      (webCluster "Local") webRequest).candidates = some ["10.0.0.1"] ∧
    ∃ S, (ServiceReconciler.Reconcile eqSelectorLib insertionOrder noon Faults.none
        (webCluster "Local") webRequest).candidates = some S ∧
      ∀ ip, ip ∈ S ↔ ip ≠ "" ∧ ∃ n ∈ (webCluster "Local").nodes,
        isNodeReady n = true ∧ isNodeSchedulable n = true ∧
        eqSelectorLib.Matches ("tier", "edge") n.Labels = true ∧
        ((webService "Local" "tier=edge").ExternalTrafficPolicy
            = ServiceExternalTrafficPolicyTypeLocal →
          ∃ es ∈ listSlicesFor (webCluster "Local") (webService "Local" "tier=edge").Namespace
              (webService "Local" "tier=edge").Name,
            ∃ ep ∈ es.Endpoints, ep.NodeName = some n.Name) ∧
        nodePrimaryInternalIP n = ip :=
  ⟨by decide,
   candidateSet_spec eqSelectorLib insertionOrder noon Faults.none (webCluster "Local")
    webRequest (webService "Local" "tier=edge") ("tier", "edge")
    rfl ⟨by decide, "tier=edge", by decide, by decide, rfl⟩ rfl (fun _ => rfl)⟩

/-! ## Controller A: frame and failure -/

theorem StrMap.delete_absent (m : StrMap) (k : String) (h : m.lookup k = none) :
    m.delete k = m := by
  induction m with
  | nil => rfl
  | cons p rest ih =>
    obtain ⟨a, b⟩ := p
    rw [StrMap.lookup_cons] at h
    by_cases hk : a = k
    · simp [hk] at h
    · rw [if_neg hk] at h
      rw [StrMap.delete_cons, if_neg hk, ih h]

theorem StrMap.delete_delete (m : StrMap) (k : String) :
    (m.delete k).delete k = m.delete k :=
  StrMap.delete_absent _ _ (StrMap.lookup_delete_self m k)

theorem Node.sameButLabel_refl (key : String) (n : Node) : Node.sameButLabel key n n :=
  ⟨rfl, rfl, rfl, rfl, fun _ _ => rfl⟩

/-- One turn of the loop changes at most the marker label key. -/
theorem labelStep_sameButLabel (cfg : LabelerConfig) (d : StrSet) (n : Node) :
    Node.sameButLabel cfg.LabelKey n (labelStep cfg d n) := by
  unfold labelStep
  split
  · exact ⟨rfl, rfl, rfl, rfl, fun k hk => StrMap.lookup_set_other _ _ _ _ hk⟩
  · split
    · exact ⟨rfl, rfl, rfl, rfl, fun k hk => StrMap.lookup_delete_other _ _ _ hk⟩
    · exact Node.sameButLabel_refl _ _

/-- One turn of the loop leaves a node that agrees with the desired set as it is. -/
theorem labelStep_agree (cfg : LabelerConfig) (d : StrSet) (n : Node)
    (h : carriesMarker cfg n ↔ n.Name ∈ d) : labelStep cfg d n = n := by
  unfold labelStep
  unfold carriesMarker at h
  by_cases hw : n.Name ∈ d
  · have hc := h.mpr hw
    have hl : hasLabel cfg n = true := by simp [hasLabel, StrMap.get, hc]
    simp [hw, hl]
  · have hc : ¬ n.Labels.lookup cfg.LabelKey = some cfg.LabelVal := fun e => hw (h.mp e)
    by_cases hl : hasLabel cfg n = true
    · simp only [hw, hl, decide_False, Bool.false_and, Bool.false_eq_true, if_false,
        Bool.not_false, Bool.and_self, if_true]
      have hnone : n.Labels.lookup cfg.LabelKey = none := by
        cases hlk : n.Labels.lookup cfg.LabelKey with
        | none => rfl
        | some v =>
          exfalso
          apply hc
          simp only [hasLabel, StrMap.get, hlk, Option.getD_some, beq_iff_eq] at hl
          rw [hlk, hl]
      show ({ n with Labels := n.Labels.delete cfg.LabelKey } : Node) = n
      rw [StrMap.delete_absent _ _ hnone]
    · simp [hw, hl]

theorem labelStep_name (cfg : LabelerConfig) (d : StrSet) (n : Node) :
    (labelStep cfg d n).Name = n.Name :=
  (labelStep_sameButLabel cfg d n).1

/-- A second turn of the loop on the same node changes nothing more. -/
theorem labelStep_idem (cfg : LabelerConfig) (d : StrSet) (n : Node) :
    labelStep cfg d (labelStep cfg d n) = labelStep cfg d n := by
  by_cases hw : n.Name ∈ d <;> by_cases hl : hasLabel cfg n = true
  · have e : labelStep cfg d n = n := by simp [labelStep, hw, hl]
    rw [e, e]
  · have e : labelStep cfg d n =
        { n with Labels := n.Labels.set cfg.LabelKey cfg.LabelVal } := by
      simp [labelStep, hw, hl, NodePatch.apply]
    rw [e]
    have hl2 : hasLabel cfg { n with Labels := n.Labels.set cfg.LabelKey cfg.LabelVal }
        = true := by
      simp [hasLabel, StrMap.get, StrMap.lookup_set_self]
    simp [labelStep, hw, hl2]
  · have e : labelStep cfg d n = { n with Labels := n.Labels.delete cfg.LabelKey } := by
      simp [labelStep, hw, hl, NodePatch.apply]
    rw [e]
    by_cases hl2 : hasLabel cfg { n with Labels := n.Labels.delete cfg.LabelKey } = true
    · simp [labelStep, hw, hl2, NodePatch.apply, StrMap.delete_delete]
    · simp [labelStep, hw, hl2]
  · have e : labelStep cfg d n = n := by simp [labelStep, hw, hl]
    rw [e, e]

/-- The label loop, turn by turn: a node needing no patch is kept, a node whose
patch is accepted becomes `labelStep`, and a rejected patch ends the loop. -/
theorem labelNodes_cons (cfg : LabelerConfig) (pf : String → Bool) (d : StrSet) (n : Node)
    (rest : List Node) :
    labelNodes cfg pf d (n :: rest) =
      if needsPatch cfg d n = true then
        if pf n.Name = true then
          { nodes := n :: rest,
            patches := [{ NodeName := n.Name, Key := cfg.LabelKey,
                          Value := if n.Name ∈ d then some cfg.LabelVal else none }],
            err := some (Err.patchNode n.Name) }
        else
          { nodes := labelStep cfg d n :: (labelNodes cfg pf d rest).nodes,
            patches := { NodeName := n.Name, Key := cfg.LabelKey,
                         Value := if n.Name ∈ d then some cfg.LabelVal else none } ::
              (labelNodes cfg pf d rest).patches,
            err := (labelNodes cfg pf d rest).err }
      else
        { nodes := labelStep cfg d n :: (labelNodes cfg pf d rest).nodes,
          patches := (labelNodes cfg pf d rest).patches,
          err := (labelNodes cfg pf d rest).err } := by
  conv_lhs => unfold labelNodes
  by_cases hw : n.Name ∈ d <;> by_cases hl : hasLabel cfg n = true <;>
    by_cases hp : pf n.Name = true <;>
    simp [needsPatch, labelStep, hw, hl, hp]

/-- The label loop returns no error exactly when it attempts no patch that the
store rejects. -/
theorem labelNodes_err_iff (cfg : LabelerConfig) (pf : String → Bool) (d : StrSet)
    (nodes : List Node) :
    (labelNodes cfg pf d nodes).err ≠ none ↔
      ∃ n ∈ nodes, needsPatch cfg d n = true ∧ pf n.Name = true := by
  induction nodes with
  | nil => simp [labelNodes]
  | cons n rest ih =>
    rw [labelNodes_cons]
    by_cases hn : needsPatch cfg d n = true <;> by_cases hp : pf n.Name = true <;>
      simp only [hn, hp, if_true, if_false, Bool.false_eq_true, List.mem_cons,
        exists_eq_or_imp, ih, and_self, true_and, false_and, and_false, false_or, ne_eq,
        reduceCtorEq, not_false_eq_true, true_or]

/-- Every node after the loop is the node as it was or the node after its turn. -/
theorem labelNodes_rel (cfg : LabelerConfig) (pf : String → Bool) (d : StrSet)
    (nodes : List Node) :
    List.Forall₂ (fun n n' => n' = n ∨ n' = labelStep cfg d n) nodes
      (labelNodes cfg pf d nodes).nodes := by
  induction nodes with
  | nil => simp [labelNodes]
  | cons n rest ih =>
    rw [labelNodes_cons]
    by_cases hn : needsPatch cfg d n = true <;> by_cases hp : pf n.Name = true <;>
      simp only [hn, hp, if_true, if_false, Bool.false_eq_true]
    · exact List.forall₂_same.mpr (fun _ _ => Or.inl rfl)
    · exact List.Forall₂.cons (Or.inr rfl) ih
    · exact List.Forall₂.cons (Or.inr rfl) ih
    · exact List.Forall₂.cons (Or.inr rfl) ih

/-- A loop without error has given every node its turn. -/
theorem labelNodes_ok_nodes (cfg : LabelerConfig) (pf : String → Bool) (d : StrSet)
    (nodes : List Node) (hok : (labelNodes cfg pf d nodes).err = none) :
    (labelNodes cfg pf d nodes).nodes = nodes.map (labelStep cfg d) := by
  induction nodes with
  | nil => simp [labelNodes]
  | cons n rest ih =>
    rw [labelNodes_cons] at hok ⊢
    by_cases hn : needsPatch cfg d n = true <;> by_cases hp : pf n.Name = true <;>
      simp only [hn, hp, if_true, if_false, Bool.false_eq_true, reduceCtorEq] at hok ⊢ <;>
      simp [ih hok]

/-- A loop that a rejected patch ends: the nodes before the failing node had
their turn, the failing node and all later nodes are as they were, and the last
patch issued is the rejected one. -/
theorem labelNodes_fail (cfg : LabelerConfig) (pf : String → Bool) (d : StrSet)
    (nodes : List Node) (e : Err) (herr : (labelNodes cfg pf d nodes).err = some e) :
    ∃ pre n suf, nodes = pre ++ n :: suf ∧ e = Err.patchNode n.Name ∧
      needsPatch cfg d n = true ∧ pf n.Name = true ∧
      (labelNodes cfg pf d nodes).nodes = pre.map (labelStep cfg d) ++ n :: suf ∧
      (labelNodes cfg pf d nodes).patches.map NodePatch.NodeName =
        (pre.filter (needsPatch cfg d)).map Node.Name ++ [n.Name] := by
  induction nodes with
  | nil => simp [labelNodes] at herr
  | cons m rest ih =>
    rw [labelNodes_cons] at herr ⊢
    by_cases hn : needsPatch cfg d m = true <;> by_cases hp : pf m.Name = true <;>
      simp only [hn, hp, if_true, if_false, Bool.false_eq_true, Option.some.injEq]
        at herr ⊢
    · exact ⟨[], m, rest, rfl, herr.symm, hn, hp, rfl, rfl⟩
    · obtain ⟨pre, n, suf, h1, h2, h3, h4, h5, h6⟩ := ih herr
      refine ⟨m :: pre, n, suf, by rw [h1]; rfl, h2, h3, h4, by rw [h5]; rfl, ?_⟩
      simp [List.filter, hn, h6]
    · obtain ⟨pre, n, suf, h1, h2, h3, h4, h5, h6⟩ := ih herr
      refine ⟨m :: pre, n, suf, by rw [h1]; rfl, h2, h3, h4, by rw [h5]; rfl, ?_⟩
      simp [List.filter, hn, h6]
    · obtain ⟨pre, n, suf, h1, h2, h3, h4, h5, h6⟩ := ih herr
      refine ⟨m :: pre, n, suf, by rw [h1]; rfl, h2, h3, h4, by rw [h5]; rfl, ?_⟩
      simp [List.filter, hn, h6]

/-- Giving every node its turn after a partial loop is the same as giving every
node its turn from the start. -/
theorem map_labelStep_of_rel (cfg : LabelerConfig) (d : StrSet) (nodes nodes' : List Node)
    (h : List.Forall₂ (fun n n' => n' = n ∨ n' = labelStep cfg d n) nodes nodes') :
    nodes'.map (labelStep cfg d) = nodes.map (labelStep cfg d) := by
  induction h with
  | nil => rfl
  | @cons a b l1 l2 hab _ ih =>
    simp only [List.map_cons, ih]
    rcases hab with e | e
    · rw [e]
    · rw [e, labelStep_idem]

/-- The nodes of a pass of Controller A, whatever fails in it. -/
theorem sliceReconcile_nodes_rel (cfg : LabelerConfig) (f : Faults) (c : Cluster) :
    List.Forall₂ (fun n n' => n' = n ∨ n' = labelStep cfg (DesiredNodeSetA cfg c) n) c.nodes
      (SliceReconciler.Reconcile cfg f c).nodes := by
  unfold SliceReconciler.Reconcile
  by_cases h1 : f.listSlices = true
  · simp only [h1, if_true]
    exact List.forall₂_same.mpr (fun _ _ => Or.inl rfl)
  · by_cases h2 : f.listNodes = true
    · simp only [h1, h2, if_true, if_false]
      exact List.forall₂_same.mpr (fun _ _ => Or.inl rfl)
    · simp only [h1, h2, if_false]
      exact labelNodes_rel cfg f.patchNode _ c.nodes

/-- C12 (frame of the Node Label Reconciler): a pass of `SliceReconciler.Reconcile`,
whatever fails in it, leaves the Services and the membership records as they
were and keeps the node list position by position (no node is created or
deleted); each node keeps its name, schedulability, conditions, addresses and
every label other than the configured key; and a node whose marker label
already agrees with its membership in the desired set is left entirely
unchanged. -/
theorem sliceReconcile_frame (cfg : LabelerConfig) (f : Faults) (c : Cluster) :
    (SliceReconciler.after cfg f c).services = c.services ∧
    (SliceReconciler.after cfg f c).slices = c.slices ∧
    List.Forall₂ (fun n n' =>
        Node.sameButLabel cfg.LabelKey n n' ∧
        ((carriesMarker cfg n ↔ n.Name ∈ DesiredNodeSetA cfg c) → n' = n))
      c.nodes (SliceReconciler.after cfg f c).nodes := by
  refine ⟨rfl, rfl, ?_⟩
  show List.Forall₂ _ c.nodes (SliceReconciler.Reconcile cfg f c).nodes
  refine List.Forall₂.imp ?_ (sliceReconcile_nodes_rel cfg f c)
  intro n n' h
  rcases h with e | e
  · rw [e]
    exact ⟨Node.sameButLabel_refl _ _, fun _ => rfl⟩
  · rw [e]
    exact ⟨labelStep_sameButLabel cfg _ n, labelStep_agree cfg _ n⟩

theorem sliceReconcile_frame_witness :
    (SliceReconciler.Reconcile exampleConfig Faults.none exampleCluster).nodes
      = exampleNodesAfter ∧
    (SliceReconciler.Reconcile exampleConfig Faults.none exampleCluster).patches.map
      NodePatch.NodeName = ["a", "b", "c"] ∧
    ((SliceReconciler.after exampleConfig Faults.none exampleCluster).services
        = exampleCluster.services ∧
      (SliceReconciler.after exampleConfig Faults.none exampleCluster).slices
        = exampleCluster.slices ∧
      List.Forall₂ (fun n n' =>
          Node.sameButLabel exampleConfig.LabelKey n n' ∧
          ((carriesMarker exampleConfig n ↔
              n.Name ∈ DesiredNodeSetA exampleConfig exampleCluster) → n' = n))
        exampleCluster.nodes
        (SliceReconciler.after exampleConfig Faults.none exampleCluster).nodes) :=
  ⟨by decide, by decide, sliceReconcile_frame exampleConfig Faults.none exampleCluster⟩

/-- A pass of Controller A whose two reads succeed is the label loop. -/
theorem sliceReconcile_reads_ok (cfg : LabelerConfig) (f : Faults) (c : Cluster)
    (h1 : f.listSlices = false) (h2 : f.listNodes = false) :
    SliceReconciler.Reconcile cfg f c =
      labelNodes cfg f.patchNode (DesiredNodeSetA cfg c) c.nodes := by
  unfold SliceReconciler.Reconcile
  simp [h1, h2]

/-- A pass of Controller A without error has read the records and the nodes. -/
theorem sliceReconcile_ok_reads (cfg : LabelerConfig) (f : Faults) (c : Cluster)
    (hok : (SliceReconciler.Reconcile cfg f c).err = none) :
    f.listSlices = false ∧ f.listNodes = false := by
  unfold SliceReconciler.Reconcile at hok
  by_cases h1 : f.listSlices = true
  · simp [h1] at hok
  · by_cases h2 : f.listNodes = true
    · simp [h1, h2] at hok
    · exact ⟨by simpa using h1, by simpa using h2⟩

/-- The nodes after a pass of Controller A without error. -/
theorem sliceReconcile_ok_nodes (cfg : LabelerConfig) (f : Faults) (c : Cluster)
    (hok : (SliceReconciler.Reconcile cfg f c).err = none) :
    (SliceReconciler.Reconcile cfg f c).nodes =
      c.nodes.map (labelStep cfg (DesiredNodeSetA cfg c)) := by
  obtain ⟨h1, h2⟩ := sliceReconcile_ok_reads cfg f c hok
  rw [sliceReconcile_reads_ok cfg f c h1 h2] at hok ⊢
  exact labelNodes_ok_nodes cfg f.patchNode _ c.nodes hok

/-- C13 (patch failure fails the whole pass): `SliceReconciler.Reconcile` returns
an error if and only if the membership-record read fails, or the node read
fails, or the store rejects the patch of some node that needs one; when a
patch is rejected the pass stops there: the earlier nodes had their turn, the
failing node and every later node are as they were, and the rejected patch is
the last one issued; and a retry without error on the store the pass left
reaches the same nodes as a pass without error on the original store. -/
theorem sliceReconcile_failure (cfg : LabelerConfig) (f : Faults) (c : Cluster) :
    ((SliceReconciler.Reconcile cfg f c).err ≠ none ↔
      f.listSlices = true ∨ f.listNodes = true ∨
      ∃ n ∈ c.nodes, needsPatch cfg (DesiredNodeSetA cfg c) n = true ∧
        f.patchNode n.Name = true) ∧
    (∀ name, (SliceReconciler.Reconcile cfg f c).err = some (Err.patchNode name) →
      ∃ pre n suf, c.nodes = pre ++ n :: suf ∧ n.Name = name ∧
        (SliceReconciler.Reconcile cfg f c).nodes =
          pre.map (labelStep cfg (DesiredNodeSetA cfg c)) ++ n :: suf ∧
        (SliceReconciler.Reconcile cfg f c).patches.map NodePatch.NodeName =
          (pre.filter (needsPatch cfg (DesiredNodeSetA cfg c))).map Node.Name ++ [name]) ∧
    (∀ f2 f3 : Faults,
      (SliceReconciler.Reconcile cfg f2 (SliceReconciler.after cfg f c)).err = none →
      (SliceReconciler.Reconcile cfg f3 c).err = none →
      (SliceReconciler.Reconcile cfg f2 (SliceReconciler.after cfg f c)).nodes =
        (SliceReconciler.Reconcile cfg f3 c).nodes) := by
  refine ⟨?_, ?_, ?_⟩
  · by_cases h1 : f.listSlices = true
    · simp [SliceReconciler.Reconcile, h1]
    · by_cases h2 : f.listNodes = true
      · simp [SliceReconciler.Reconcile, h1, h2]
      · rw [sliceReconcile_reads_ok cfg f c (by simpa using h1) (by simpa using h2)]
        simp only [h1, h2, false_or, Bool.false_eq_true]
        exact labelNodes_err_iff cfg f.patchNode _ c.nodes
  · intro name herr
    by_cases h1 : f.listSlices = true
    · simp [SliceReconciler.Reconcile, h1] at herr
    · by_cases h2 : f.listNodes = true
      · simp [SliceReconciler.Reconcile, h1, h2] at herr
      · rw [sliceReconcile_reads_ok cfg f c (by simpa using h1) (by simpa using h2)]
          at herr ⊢
        obtain ⟨pre, n, suf, e1, e2, _, _, e5, e6⟩ :=
          labelNodes_fail cfg f.patchNode _ c.nodes _ herr
        have hname : n.Name = name := by
          injection e2 with e2
          exact e2.symm
        exact ⟨pre, n, suf, e1, hname, e5, hname ▸ e6⟩
  · intro f2 f3 hok2 hok3
    have hrel := sliceReconcile_nodes_rel cfg f c
    rw [sliceReconcile_ok_nodes cfg f2 _ hok2, sliceReconcile_ok_nodes cfg f3 c hok3]
    exact map_labelStep_of_rel cfg _ _ _ hrel

theorem sliceReconcile_failure_witness :
    (SliceReconciler.Reconcile exampleConfig failOnC exampleCluster).err
      = some (Err.patchNode "c") ∧
    (SliceReconciler.Reconcile exampleConfig failOnC exampleCluster).patches.map
      NodePatch.NodeName = ["a", "b", "c"] ∧
    (SliceReconciler.Reconcile exampleConfig failOnC exampleCluster).nodes =
      [exampleNode "a" [("role", "ingress")],
       exampleNode "b" [("role", "ingress"), ("zone", "x")],
       exampleNode "c" [("role", "ingress")], exampleNode "d" [("role", "db")]] ∧
    (SliceReconciler.Reconcile exampleConfig Faults.none
        (SliceReconciler.after exampleConfig failOnC exampleCluster)).nodes =
      (SliceReconciler.Reconcile exampleConfig Faults.none exampleCluster).nodes ∧
    (∃ pre n suf, exampleCluster.nodes = pre ++ n :: suf ∧ n.Name = "c" ∧
      (SliceReconciler.Reconcile exampleConfig failOnC exampleCluster).nodes =
        pre.map (labelStep exampleConfig (DesiredNodeSetA exampleConfig exampleCluster))
          ++ n :: suf ∧
      (SliceReconciler.Reconcile exampleConfig failOnC exampleCluster).patches.map
          NodePatch.NodeName =
        (pre.filter (needsPatch exampleConfig
          (DesiredNodeSetA exampleConfig exampleCluster))).map Node.Name ++ ["c"]) :=
  ⟨by decide, by decide, by decide,
   (sliceReconcile_failure exampleConfig failOnC exampleCluster).2.2 Faults.none Faults.none
      (by decide) (by decide),
   (sliceReconcile_failure exampleConfig failOnC exampleCluster).2.1 "c" (by decide)⟩

/-! ## Predicates and mappers -/

/-- The Service name that `main` configures is never the empty string. -/
theorem mainLabelerConfig_ingressSvc (env : String → String) :
    (mainLabelerConfig env).IngressSvc ≠ "" :=
  getenv_ne_empty env "INGRESS_SERVICE" "ingress-nginx-controller" (by decide)

theorem StrMap.get_eq_iff (m : StrMap) (k v : String) (hv : v ≠ "") :
    m.get k = v ↔ m.lookup k = some v := by
  unfold StrMap.get
  cases h : StrMap.lookup m k with
  | none =>
    simp only [Option.getD_none, reduceCtorEq, iff_false]
    exact fun e => hv e.symm
  | some w => simp

/-- C14 (Controller A's inclusion predicate): `isIngressSlice` is true of a record
if and only if its namespace equals the configured namespace and its
owning-Service label, as line 153 reads it, equals the configured Service name
(for a non-empty configured name: the label is present with that value); it is
false of any other kind of object; the create and delete predicates equal
`isIngressSlice` of the object; and the update predicate is true if and only if
`isIngressSlice` holds for the old object or for the new object, so an update
that moves a record out of scope still passes. -/
theorem isIngressSlice_spec (cfg : LabelerConfig) :
    (∀ es, isIngressSlice cfg (ClientObject.slice es) = true ↔
      es.Namespace = cfg.IngressNS ∧ es.Labels.get LabelServiceName = cfg.IngressSvc) ∧
    (cfg.IngressSvc ≠ "" → ∀ es, isIngressSlice cfg (ClientObject.slice es) = true ↔
      es.Namespace = cfg.IngressNS ∧
      es.Labels.lookup LabelServiceName = some cfg.IngressSvc) ∧
    (∀ n, isIngressSlice cfg (ClientObject.node n) = false) ∧
    (∀ s, isIngressSlice cfg (ClientObject.service s) = false) ∧
    (∀ e, SliceReconciler.CreateFunc cfg e = isIngressSlice cfg e.Object) ∧
    (∀ e, SliceReconciler.DeleteFunc cfg e = isIngressSlice cfg e.Object) ∧
    (∀ e, SliceReconciler.UpdateFunc cfg e = true ↔
      isIngressSlice cfg e.ObjectOld = true ∨ isIngressSlice cfg e.ObjectNew = true) ∧
    (∀ e, isIngressSlice cfg e.ObjectOld = true → isIngressSlice cfg e.ObjectNew = false →
      SliceReconciler.UpdateFunc cfg e = true) := by
  have h1 : ∀ es, isIngressSlice cfg (ClientObject.slice es) = true ↔
      es.Namespace = cfg.IngressNS ∧ es.Labels.get LabelServiceName = cfg.IngressSvc := by
    intro es
    unfold isIngressSlice
    by_cases hns : es.Namespace = cfg.IngressNS <;> simp [hns]
  refine ⟨h1, ?_, fun _ => rfl, fun _ => rfl, fun _ => rfl, fun _ => rfl, ?_, ?_⟩
  · intro hsvc es
    rw [h1, StrMap.get_eq_iff _ _ _ hsvc]
  · intro e
    unfold SliceReconciler.UpdateFunc
    rw [Bool.or_eq_true]
    exact Or.comm
  · intro e hold _
    unfold SliceReconciler.UpdateFunc
    rw [hold, Bool.or_true]

theorem isIngressSlice_spec_witness :
    (isIngressSlice exampleConfig (ClientObject.slice ingressSlice) = true ↔
      ingressSlice.Namespace = exampleConfig.IngressNS ∧
      ingressSlice.Labels.lookup LabelServiceName = some exampleConfig.IngressSvc) ∧
    isIngressSlice exampleConfig (ClientObject.slice ingressSlice) = true ∧
    isIngressSlice exampleConfig (ClientObject.slice movedSlice) = false ∧
    SliceReconciler.UpdateFunc exampleConfig
      { ObjectOld := ClientObject.slice ingressSlice,
        ObjectNew := ClientObject.slice movedSlice } = true :=
  ⟨(isIngressSlice_spec exampleConfig).2.1 (by decide) ingressSlice, by decide, by decide,
   (isIngressSlice_spec exampleConfig).2.2.2.2.2.2.2
     { ObjectOld := ClientObject.slice ingressSlice,
       ObjectNew := ClientObject.slice movedSlice } (by decide) (by decide)⟩

/-! ## Lemmas: `labels.Equals` -/

theorem StrMap.mem_keys (m : StrMap) (k : String) :
    k ∈ StrMap.keys m ↔ m.lookup k ≠ none := by
  induction m with
  | nil => simp [StrMap.keys, StrMap.lookup]
  | cons p rest ih =>
    obtain ⟨a, b⟩ := p
    rw [StrMap.lookup_cons]
    unfold StrMap.keys
    by_cases hk : a = k
    · subst hk
      by_cases ha : a ∈ StrMap.keys rest <;> simp [ha]
    · have hk2 : ¬ k = a := fun e => hk e.symm
      by_cases ha : a ∈ StrMap.keys rest <;> simp [ha, hk, hk2, ih]

theorem StrMap.nodup_keys (m : StrMap) : (StrMap.keys m).Nodup := by
  induction m with
  | nil => simp [StrMap.keys]
  | cons p rest ih =>
    obtain ⟨a, b⟩ := p
    unfold StrMap.keys
    by_cases ha : a ∈ StrMap.keys rest
    · simpa [ha] using ih
    · simp only [ha, if_false]
      exact List.nodup_cons.mpr ⟨ha, ih⟩

/-- The function `labels.Equals` holds exactly when the two label sets bind the
same keys to the same values. -/
theorem labelsEquals_iff (m1 m2 : StrMap) :
    labelsEquals m1 m2 = true ↔ ∀ k, m1.lookup k = m2.lookup k := by
  unfold labelsEquals StrMap.len
  constructor
  · intro h
    by_cases hlen : (StrMap.keys m1).length = (StrMap.keys m2).length
    · simp only [hlen, ne_eq, not_true_eq_false, if_false, List.all_eq_true] at h
      have hall : ∀ k ∈ StrMap.keys m1, m1.lookup k = m2.lookup k := by
        intro k hk
        have := h k hk
        cases h2 : StrMap.lookup m2 k with
        | none => simp [h2] at this
        | some v => simpa [h2] using this
      have hsub : StrMap.keys m1 ⊆ StrMap.keys m2 := by
        intro k hk
        rw [StrMap.mem_keys] at hk ⊢
        rw [← hall k ((StrMap.mem_keys m1 k).mpr hk)]
        exact hk
      have hperm : (StrMap.keys m1).Perm (StrMap.keys m2) :=
        (List.subperm_of_subset (StrMap.nodup_keys m1) hsub).perm_of_length_le
          (le_of_eq hlen.symm)
      intro k
      by_cases hk : k ∈ StrMap.keys m1
      · exact hall k hk
      · have hk2 : k ∉ StrMap.keys m2 := fun e => hk (hperm.mem_iff.mpr e)
        rw [StrMap.mem_keys, not_not] at hk hk2
        rw [hk, hk2]
    · simp [hlen] at h
  · intro h
    have hmem : ∀ k, k ∈ StrMap.keys m1 ↔ k ∈ StrMap.keys m2 := by
      intro k
      rw [StrMap.mem_keys, StrMap.mem_keys, h k]
    have hperm : (StrMap.keys m1).Perm (StrMap.keys m2) :=
      (List.perm_ext_iff_of_nodup (StrMap.nodup_keys m1) (StrMap.nodup_keys m2)).mpr hmem
    simp only [hperm.length_eq, ne_eq, not_true_eq_false, if_false, List.all_eq_true]
    intro k hk
    have hk1 := (StrMap.mem_keys m1 k).mp hk
    rw [← h k]
    cases h1 : StrMap.lookup m1 k with
    | none => exact absurd h1 hk1
    | some v => simp

/-- C15 (node event predicate of Controller B): every node create and every node
delete passes; a node update passes if and only if readiness differs, or
schedulability differs, or the label sets of old and new differ (some key is
bound differently); so an update that leaves labels, schedulability and
conditions as they were, changing addresses only, is dropped, and so is any
update that keeps labels, schedulability and readiness. -/
theorem nodePred_spec :
    (∀ e, nodePred.CreateFunc e = true) ∧
    (∀ e, nodePred.DeleteFunc e = true) ∧
    (∀ oldN newN, ∃ b,
      nodePred.UpdateFunc { ObjectOld := ClientObject.node oldN,
                            ObjectNew := ClientObject.node newN } = some b ∧
      (b = true ↔
        isNodeReady oldN ≠ isNodeReady newN ∨
        isNodeSchedulable oldN ≠ isNodeSchedulable newN ∨
        ¬ ∀ k, oldN.Labels.lookup k = newN.Labels.lookup k)) ∧
    (∀ oldN newN, (∀ k, oldN.Labels.lookup k = newN.Labels.lookup k) →
      isNodeSchedulable oldN = isNodeSchedulable newN →
      isNodeReady oldN = isNodeReady newN →
      nodePred.UpdateFunc { ObjectOld := ClientObject.node oldN,
                            ObjectNew := ClientObject.node newN } = some false) ∧
    (∀ oldN newN, oldN.Labels = newN.Labels → oldN.Unschedulable = newN.Unschedulable →
      oldN.Conditions = newN.Conditions →
      nodePred.UpdateFunc { ObjectOld := ClientObject.node oldN,
                            ObjectNew := ClientObject.node newN } = some false) := by
  have key : ∀ oldN newN, (∀ k, oldN.Labels.lookup k = newN.Labels.lookup k) →
      isNodeSchedulable oldN = isNodeSchedulable newN →
      isNodeReady oldN = isNodeReady newN →
      nodePred.UpdateFunc { ObjectOld := ClientObject.node oldN,
                            ObjectNew := ClientObject.node newN } = some false := by
    intro oldN newN hl hs hr
    unfold nodePred.UpdateFunc
    simp [hs, hr, (labelsEquals_iff _ _).mpr hl]
  refine ⟨fun _ => rfl, fun _ => rfl, ?_, key, ?_⟩
  · intro oldN newN
    unfold nodePred.UpdateFunc
    by_cases hr : isNodeReady oldN = isNodeReady newN
    · by_cases hs : isNodeSchedulable oldN = isNodeSchedulable newN
      · refine ⟨!labelsEquals oldN.Labels newN.Labels, by simp [hr, hs], ?_⟩
        simp only [hr, hs, ne_eq, not_true_eq_false, false_or, Bool.not_eq_true',
          ← labelsEquals_iff]
        simp
      · exact ⟨true, by simp [hs], by simp [hs]⟩
    · exact ⟨true, by simp [hr], by simp [hr]⟩
  · intro oldN newN hl hu hc
    apply key oldN newN
    · intro k; rw [hl]
    · unfold isNodeSchedulable; rw [hu]
    · unfold isNodeReady; rw [hc]

theorem nodePred_spec_witness :
    nodePred.UpdateFunc { ObjectOld := ClientObject.node nodeN2,
                          ObjectNew := ClientObject.node readdressedN2 } = some false ∧
    nodePred.UpdateFunc { ObjectOld := ClientObject.node nodeN2,
                          ObjectNew := ClientObject.node cordonedN2 } = some true :=
  ⟨nodePred_spec.2.2.2.1 nodeN2 readdressedN2 (fun _ => rfl) (by decide) (by decide),
   by decide⟩

/-! ## Lemmas: the mappers -/

theorem nodeToSvcLoop_eq (services : List Service) (out : List Request) :
    nodeToSvcLoop out services =
      out ++ (services.filter (fun s => isLBWithSelector (ClientObject.service s))).map
        requestFor := by
  induction services generalizing out with
  | nil => simp [nodeToSvcLoop]
  | cons s rest ih =>
    unfold nodeToSvcLoop
    by_cases h : isLBWithSelector (ClientObject.service s) = true
    · simp [h, ih, List.filter]
    · simp [h, ih, List.filter]

theorem isLBWithSelector_iff (svc : Service) :
    isLBWithSelector (ClientObject.service svc) = true ↔
      svc.Type_ = ServiceTypeLoadBalancer ∧
      ∃ v, svc.Annotations.lookup AnnotationNodeSelector = some v := by
  unfold isLBWithSelector
  by_cases hlb : svc.Type_ = ServiceTypeLoadBalancer
  · simp [hlb, Option.isSome_iff_exists]
  · simp [hlb]

/-- C16 (fan-out): when its list call succeeds, `nodeToSvc` returns, in list
order, exactly one request (namespace, name) for each Service that passes
`isLBWithSelector` (type LoadBalancer, selector annotation present) and none
for any other Service; `esToSvc` returns at most one request for a record, and
when the record's owning-Service label is non-empty and the read finds the
Service of that name in the record's namespace and it passes
`isLBWithSelector`, exactly the request for that Service; in every other case
it returns none. -/
theorem mappers_spec (f : Faults) (c : Cluster) :
    (∀ obj, nodeToSvc false c obj =
      (c.services.filter (fun s => isLBWithSelector (ClientObject.service s))).map
        requestFor) ∧
    (∀ svc, isLBWithSelector (ClientObject.service svc) = true ↔
      svc.Type_ = ServiceTypeLoadBalancer ∧
      ∃ v, svc.Annotations.lookup AnnotationNodeSelector = some v) ∧
    (∀ es, ∃ l, esToSvc f c (ClientObject.slice es) = some l ∧ l.length ≤ 1) ∧
    (∀ es svc, es.Labels.get LabelServiceName ≠ "" → f.getService = false →
      getService c { Namespace := es.Namespace, Name := es.Labels.get LabelServiceName }
        = some svc →
      isLBWithSelector (ClientObject.service svc) = true →
      esToSvc f c (ClientObject.slice es) =
        some [{ Namespace := es.Namespace, Name := es.Labels.get LabelServiceName }]) ∧
    (∀ es r, esToSvc f c (ClientObject.slice es) = some [r] →
      es.Labels.get LabelServiceName ≠ "" ∧
      r = { Namespace := es.Namespace, Name := es.Labels.get LabelServiceName } ∧
      ∃ svc, getService c r = some svc ∧
        isLBWithSelector (ClientObject.service svc) = true) := by
  refine ⟨?_, isLBWithSelector_iff, ?_, ?_, ?_⟩
  · intro obj
    unfold nodeToSvc
    simp [nodeToSvcLoop_eq]
  · intro es
    unfold esToSvc
    by_cases h1 : es.Labels.get LabelServiceName = ""
    · exact ⟨[], by simp [h1], by simp⟩
    · by_cases h2 : f.getService = true
      · exact ⟨[], by simp [h1, h2], by simp⟩
      · cases h3 : getService c
            { Namespace := es.Namespace, Name := es.Labels.get LabelServiceName } with
        | none => exact ⟨[], by simp [h1, h2, h3], by simp⟩
        | some svc =>
          by_cases h4 : isLBWithSelector (ClientObject.service svc) = true
          · exact ⟨[requestFor svc], by simp [h1, h2, h3, h4], by simp⟩
          · exact ⟨[], by simp [h1, h2, h3, h4], by simp⟩
  · intro es svc h1 h2 h3 h4
    have hkey := getService_key c _ svc h3
    unfold esToSvc
    simp only [h1, h2, h3, h4, if_false, Bool.false_eq_true, Bool.not_true, requestFor]
    rw [hkey.1, hkey.2]
  · intro es r h
    unfold esToSvc at h
    by_cases h1 : es.Labels.get LabelServiceName = ""
    · simp [h1] at h
    · by_cases h2 : f.getService = true
      · simp [h1, h2] at h
      · cases h3 : getService c
            { Namespace := es.Namespace, Name := es.Labels.get LabelServiceName } with
        | none => simp [h1, h2, h3] at h
        | some svc =>
          by_cases h4 : isLBWithSelector (ClientObject.service svc) = true
          · simp only [h1, h2, h3, h4, if_false, Bool.false_eq_true, Bool.not_true,
              Option.some.injEq, List.cons.injEq, and_true] at h
            have hkey := getService_key c _ svc h3
            have hr : r = { Namespace := es.Namespace,
                            Name := es.Labels.get LabelServiceName } := by
              rw [← h]
              unfold requestFor
              rw [hkey.1, hkey.2]
            exact ⟨h1, hr, svc, hr ▸ h3, h4⟩
          · simp [h1, h2, h3, h4] at h

theorem mappers_spec_witness :
    nodeToSvc false threeServices (ClientObject.node nodeN2) =
      [{ Namespace := "ns", Name := "web" }, { Namespace := "ns", Name := "bare" }] ∧
    esToSvc Faults.none (webCluster "Local") (ClientObject.slice webSlice) =
      some [{ Namespace := webSlice.Namespace,
              Name := webSlice.Labels.get LabelServiceName }] :=
  ⟨((mappers_spec Faults.none threeServices).1 (ClientObject.node nodeN2)).trans (by decide),
   (mappers_spec Faults.none (webCluster "Local")).2.2.2.1 webSlice
     (webService "Local" "tier=edge") (by decide) rfl (by decide) (by decide)⟩

/-! ## Node readiness -/

theorem isNodeReadyConds_iff (conds : List NodeCondition) :
    isNodeReadyConds conds = true ↔ firstReadyIsTrue conds := by
  unfold firstReadyIsTrue
  induction conds with
  | nil =>
    simp only [isNodeReadyConds, Bool.false_eq_true, false_iff]
    rintro ⟨pre, c, suf, h, _⟩
    cases pre <;> simp at h
  | cons x rest ih =>
    unfold isNodeReadyConds
    by_cases hx : x.Type_ = "Ready"
    · simp only [hx, if_true, decide_eq_true_eq]
      constructor
      · intro hs
        exact ⟨[], x, rest, rfl, by simp, hx, hs⟩
      · rintro ⟨pre, c, suf, h, hpre, _, hs⟩
        cases pre with
        | nil =>
          simp only [List.nil_append, List.cons.injEq] at h
          rw [h.1]; exact hs
        | cons y pre =>
          simp only [List.cons_append, List.cons.injEq] at h
          exact absurd (h.1 ▸ hx) (hpre y (List.mem_cons_self _ _))
    · simp only [hx, if_false, ih]
      constructor
      · rintro ⟨pre, c, suf, h, hpre, hc, hs⟩
        refine ⟨x :: pre, c, suf, by rw [h]; rfl, ?_, hc, hs⟩
        intro y hy
        rcases List.mem_cons.mp hy with e | e
        · rw [e]; exact hx
        · exact hpre y e
      · rintro ⟨pre, c, suf, h, hpre, hc, hs⟩
        cases pre with
        | nil =>
          simp only [List.nil_append, List.cons.injEq] at h
          exact absurd (h.1 ▸ hc) hx
        | cons y pre =>
          simp only [List.cons_append, List.cons.injEq] at h
          exact ⟨pre, c, suf, h.2, fun z hz => hpre z (List.mem_cons_of_mem _ hz), hc, hs⟩

theorem isNodeReadyConds_unique (conds : List NodeCondition)
    (h1 : (conds.filter (fun c => decide (c.Type_ = "Ready"))).length ≤ 1) :
    isNodeReadyConds conds = true ↔ ∃ c ∈ conds, c.Type_ = "Ready" ∧ c.Status = "True" := by
  induction conds with
  | nil => simp [isNodeReadyConds]
  | cons x rest ih =>
    unfold isNodeReadyConds
    by_cases hx : x.Type_ = "Ready"
    · simp only [hx, if_true, decide_eq_true_eq, List.mem_cons, exists_eq_or_imp, true_and]
      simp only [List.filter, hx, decide_True, List.length_cons, add_le_iff_nonpos_left,
        nonpos_iff_eq_zero, List.length_eq_zero] at h1
      constructor
      · exact Or.inl
      · rintro (h | ⟨c, hc, ht, _⟩)
        · exact h
        · have : c ∈ rest.filter (fun c => decide (c.Type_ = "Ready")) :=
            List.mem_filter.mpr ⟨hc, by simpa using ht⟩
          rw [h1] at this
          simp at this
    · have h2 : (rest.filter (fun c => decide (c.Type_ = "Ready"))).length ≤ 1 := by
        simpa [List.filter, hx] using h1
      simp only [hx, if_false, ih h2, List.mem_cons, exists_eq_or_imp, false_and, false_or]

/-- C17, as stated, fails: the condition list of `twoReadyNode` holds a `Ready`
condition with status `True`, but `isNodeReady` is false, because the loop
returns at the first `Ready` condition, whose status is `False`. -/
theorem isNodeReady_counterexample :
    (∃ c ∈ twoReadyNode.Conditions, c.Type_ = "Ready" ∧ c.Status = "True") ∧
    isNodeReady twoReadyNode = false := by
  decide

/-- C17 (amended): `isNodeReady` is true if and only if the first condition of
type `Ready` in the list has status `True`; for a list that holds at most one
`Ready` condition, if and only if a `Ready` condition with status `True` is
present; and it is false when no `Ready` condition is present. -/
theorem isNodeReady_spec (n : Node) :
    (isNodeReady n = true ↔ firstReadyIsTrue n.Conditions) ∧
    ((n.Conditions.filter (fun c => decide (c.Type_ = "Ready"))).length ≤ 1 →
      (isNodeReady n = true ↔
        ∃ c ∈ n.Conditions, c.Type_ = "Ready" ∧ c.Status = "True")) ∧
    ((∀ c ∈ n.Conditions, c.Type_ ≠ "Ready") → isNodeReady n = false) := by
  refine ⟨isNodeReadyConds_iff n.Conditions, isNodeReadyConds_unique n.Conditions, ?_⟩
  intro hno
  have hlen : (n.Conditions.filter (fun c => decide (c.Type_ = "Ready"))).length ≤ 1 := by
    have : n.Conditions.filter (fun c => decide (c.Type_ = "Ready")) = [] := by
      rw [List.filter_eq_nil_iff]
      intro c hc
      simpa using hno c hc
    simp [this]
  have h := isNodeReadyConds_unique n.Conditions hlen
  unfold isNodeReady
  rw [Bool.eq_false_iff]
  intro ht
  obtain ⟨c, hc, hty, _⟩ := h.mp ht
  exact hno c hc hty

theorem isNodeReady_spec_witness :
    (isNodeReady nodeN2 = true ↔
      ∃ c ∈ nodeN2.Conditions, c.Type_ = "Ready" ∧ c.Status = "True") ∧
    isNodeReady nodeN2 = true ∧
    isNodeReady (exampleNode "a" []) = false :=
  ⟨(isNodeReady_spec nodeN2).2.1 (by decide), by decide,
   (isNodeReady_spec (exampleNode "a" [])).2.2 (by decide)⟩

/-! ## Controller B: the diagnostic sample -/

theorem sampleLoop_eq (l : List String) (i : Nat) (acc : List String) (hi : i < 5) :
    sampleLoop i acc l = acc ++ l.take (5 - i) := by
  induction l generalizing i acc with
  | nil => simp [sampleLoop]
  | cons ip rest ih =>
    unfold sampleLoop
    by_cases h5 : i + 1 = 5
    · have : 5 - i = 1 := by omega
      simp [h5, this]
    · have h1 : 5 - i = (5 - (i + 1)) + 1 := by omega
      simp only [h5, if_false]
      rw [ih (i + 1) (acc ++ [ip]) (by omega), h1, List.take_succ_cons]
      simp

/-- The sample of lines 257-265 is the first five addresses of the iteration. -/
theorem sampleLoop_take (l : List String) : sampleLoop 0 [] l = l.take 5 := by
  rw [sampleLoop_eq l 0 [] (by norm_num)]
  rfl

theorem sample_props (iter : StrSet → List String) (S : StrSet) (hS : S.Nodup)
    (hiter : (iter S).Perm S) :
    (sampleLoop 0 [] (iter S)).length = min 5 S.length ∧
    (sampleLoop 0 [] (iter S)).Nodup ∧
    ∀ ip ∈ sampleLoop 0 [] (iter S), ip ∈ S := by
  rw [sampleLoop_take]
  refine ⟨?_, ?_, ?_⟩
  · rw [List.length_take, hiter.length_eq]
  · exact List.Nodup.sublist (List.take_sublist _ _) (hiter.nodup_iff.mpr hS)
  · intro ip hip
    exact hiter.mem_iff.mp (List.mem_of_mem_take hip)

theorem pokeCCM_events (iter : StrSet → List String) (now : Time) (f : Faults) (c : Cluster)
    (svc : Service) (S : StrSet) (hp : f.patchService = false) :
    (pokeCCM iter now f c svc S).events =
      [if S.length > 0 then sampleEvent svc S.length (sampleLoop 0 [] (iter S))
       else zeroMatchesEvent svc] := by
  unfold pokeCCM sampleEvent zeroMatchesEvent
  by_cases h : S.length > 0 <;> simp [hp, h]

/-- C18 (bounded diagnostic sample): for an in-scope Service whose reads and patch
succeed, with Go ranging over each address of the candidate set once (in any
order): the candidate set holds no address twice; when it is not empty the
pass records the one informational event whose message reports the size of the
set and a sample of exactly min(5, size) addresses, all distinct and all
members of the set; when it is empty the pass records the zero-matches event
instead, which carries no sample. -/
theorem sample_bounded {Sel : Type} (lib : SelectorLib Sel) (iter : StrSet → List String)
    (now : Time) (f : Faults) (c : Cluster) (req : Request) (svc : Service) (selector : Sel)
    (hread : readService f c req = Except.ok (some svc)) (hscope : InScope lib svc selector)
    (hnodes : f.listNodes = false)
    (hslices : svc.ExternalTrafficPolicy = ServiceExternalTrafficPolicyTypeLocal →
      f.listSlices = false)
    (hpatch : f.patchService = false) (hiter : ∀ S, (iter S).Perm S) :
    ∃ S, (ServiceReconciler.Reconcile lib iter now f c req).candidates = some S ∧ S.Nodup ∧
      (S ≠ [] → ∃ sample,
        (ServiceReconciler.Reconcile lib iter now f c req).events
          = [sampleEvent svc S.length sample] ∧
        sample.length = min 5 S.length ∧ sample.Nodup ∧ ∀ ip ∈ sample, ip ∈ S) ∧
      (S = [] →
        (ServiceReconciler.Reconcile lib iter now f c req).events = [zeroMatchesEvent svc]) := by
  obtain ⟨S, hS, hnd, _⟩ := candidateIPs_spec lib f c svc selector hnodes hslices
  rw [reconcile_inScope lib iter now f c req svc selector hread hscope, hS]
  refine ⟨S, pokeCCM_candidates _ _ _ _ _ _, hnd, ?_, ?_⟩
  · intro hne
    have hlen : S.length > 0 := List.length_pos.mpr hne
    obtain ⟨p1, p2, p3⟩ := sample_props iter S hnd (hiter S)
    refine ⟨sampleLoop 0 [] (iter S), ?_, p1, p2, p3⟩
    show (pokeCCM iter now f c svc S).events = _
    rw [pokeCCM_events iter now f c svc S hpatch, if_pos hlen]
  · intro he
    show (pokeCCM iter now f c svc S).events = _
    rw [pokeCCM_events iter now f c svc S hpatch, he]
    simp

theorem sample_bounded_witness :
    (ServiceReconciler.Reconcile eqSelectorLib insertionOrder noon Faults.none
      sevenNodes webRequest).candidates =
      some ["10.0.0.1", "10.0.0.2", "10.0.0.3", "10.0.0.4", "10.0.0.5", "10.0.0.6",
            "10.0.0.7"] ∧
    (ServiceReconciler.Reconcile eqSelectorLib insertionOrder noon Faults.none
      sevenNodes webRequest).events =
      [sampleEvent (webService "Cluster" "tier=edge") 7
        ["10.0.0.1", "10.0.0.2", "10.0.0.3", "10.0.0.4", "10.0.0.5"]] ∧
    ∃ S, (ServiceReconciler.Reconcile eqSelectorLib insertionOrder noon Faults.none
        sevenNodes webRequest).candidates = some S ∧ S.Nodup ∧
      (S ≠ [] → ∃ sample,
        (ServiceReconciler.Reconcile eqSelectorLib insertionOrder noon Faults.none
          sevenNodes webRequest).events
          = [sampleEvent (webService "Cluster" "tier=edge") S.length sample] ∧
        sample.length = min 5 S.length ∧ sample.Nodup ∧ ∀ ip ∈ sample, ip ∈ S) ∧
      (S = [] →
        (ServiceReconciler.Reconcile eqSelectorLib insertionOrder noon Faults.none
          sevenNodes webRequest).events = [zeroMatchesEvent (webService "Cluster" "tier=edge")]) :=
  ⟨by decide, by decide,
   sample_bounded eqSelectorLib insertionOrder noon Faults.none sevenNodes webRequest
    (webService "Cluster" "tier=edge") ("tier", "edge")
    rfl ⟨by decide, "tier=edge", by decide, by decide, rfl⟩ rfl (fun _ => rfl) rfl
    (fun _ => List.Perm.refl _)⟩

/-! ## Controller B: frame and gate -/

/-- The store after a pass of Controller B: as it was, or with the trigger patch
of the Service it read applied. -/
theorem reconcile_cluster_cases {Sel : Type} (lib : SelectorLib Sel)
    (iter : StrSet → List String) (now : Time) (f : Faults) (c : Cluster) (req : Request) :
    (ServiceReconciler.Reconcile lib iter now f c req).cluster = c ∨
    ∃ svc, getService c req = some svc ∧
      (ServiceReconciler.Reconcile lib iter now f c req).cluster =
        (triggerPatch svc now).apply c := by
  unfold ServiceReconciler.Reconcile
  cases hread : readService f c req with
  | error e => exact Or.inl rfl
  | ok o =>
    cases o with
    | none => exact Or.inl rfl
    | some svc =>
      have hget := (readService_ok f c req _ hread).2
      by_cases hlb : svc.Type_ = ServiceTypeLoadBalancer
      · cases hl : svc.Annotations.lookup AnnotationNodeSelector with
        | none => simp [hlb, hl, SyncPass.ret]
        | some s =>
          by_cases hs : s = ""
          · simp [hlb, hl, hs, SyncPass.ret]
          · cases hparse : lib.Parse s with
            | error e => simp [hlb, hl, hs, hparse]
            | ok selector =>
              cases hc : candidateIPs lib f c svc selector with
              | error e => simp [hlb, hl, hs, hparse, hc, SyncPass.ret]
              | ok S =>
                by_cases hp : f.patchService = true
                · simp [hlb, hl, hs, hparse, hc, pokeCCM, hp]
                · refine Or.inr ⟨svc, hget, ?_⟩
                  simp [hlb, hl, hs, hparse, hc, pokeCCM, hp, triggerPatch]
      · simp [hlb, SyncPass.ret]

/-- The trigger patch of the requested Service changes that Service only, and
only its trigger annotation. -/
theorem triggerPatch_framed (c : Cluster) (req : Request) (svc : Service) (now : Time)
    (hget : getService c req = some svc) :
    List.Forall₂ (Service.framed req) c.services ((triggerPatch svc now).apply c).services := by
  obtain ⟨k1, k2⟩ := getService_key c req svc hget
  unfold ServicePatch.apply
  simp only [List.forall₂_map_right_iff]
  apply List.forall₂_same.mpr
  intro s _
  by_cases hk : s.Namespace = (triggerPatch svc now).Namespace ∧
      s.Name = (triggerPatch svc now).Name
  · rw [if_pos hk]
    refine ⟨⟨rfl, rfl, rfl, rfl, ?_⟩, ?_⟩
    · intro k hne
      exact (StrMap.lookup_set_other _ _ _ _ hne).symm
    · intro hnot
      exfalso
      apply hnot
      have h1 : s.Namespace = svc.Namespace := hk.1
      have h2 : s.Name = svc.Name := hk.2
      exact ⟨h1.trans k1, h2.trans k2⟩
  · rw [if_neg hk]
    exact ⟨⟨rfl, rfl, rfl, rfl, fun _ _ => rfl⟩, fun _ => rfl⟩

/-- C19 (frame of the Backend Candidate Reconciler): a pass of
`ServiceReconciler.Reconcile`, whatever fails in it, leaves every Node and
every membership record as it was and keeps the Service list position by
position (nothing is created or deleted); every Service keeps its namespace,
name, type, traffic policy and every annotation other than the trigger
annotation (the selector annotation included); and every Service other than the
requested one is left entirely unchanged. -/
theorem serviceReconcile_frame {Sel : Type} (lib : SelectorLib Sel)
    (iter : StrSet → List String) (now : Time) (f : Faults) (c : Cluster) (req : Request) :
    (ServiceReconciler.Reconcile lib iter now f c req).cluster.nodes = c.nodes ∧
    (ServiceReconciler.Reconcile lib iter now f c req).cluster.slices = c.slices ∧
    List.Forall₂ (Service.framed req) c.services
      (ServiceReconciler.Reconcile lib iter now f c req).cluster.services := by
  rcases reconcile_cluster_cases lib iter now f c req with h | ⟨svc, hget, h⟩
  · rw [h]
    refine ⟨rfl, rfl, List.forall₂_same.mpr ?_⟩
    intro s _
    exact ⟨⟨rfl, rfl, rfl, rfl, fun _ _ => rfl⟩, fun _ => rfl⟩
  · rw [h]
    exact ⟨rfl, rfl, triggerPatch_framed c req svc now hget⟩

theorem passesGate_iff_acts {Sel : Type} (lib : SelectorLib Sel)
    (iter : StrSet → List String) (now : Time) (f : Faults) (c : Cluster) (req : Request)
    (svc : Service) (hread : readService f c req = Except.ok (some svc)) :
    passesGate svc ↔
      ServiceReconciler.Reconcile lib iter now f c req ≠ SyncPass.ret c none := by
  unfold passesGate ServiceReconciler.Reconcile
  simp only [hread]
  by_cases hlb : svc.Type_ = ServiceTypeLoadBalancer
  · cases hl : svc.Annotations.lookup AnnotationNodeSelector with
    | none => simp [hlb]
    | some s =>
      by_cases hs : s = ""
      · simp [hlb, hs]
      · simp only [hlb, ne_eq, not_true_eq_false, if_false, hs, Option.some.injEq,
          exists_eq_left', not_false_eq_true, and_self, true_iff]
        cases hparse : lib.Parse s with
        | error e =>
          intro h
          have := congrArg SyncPass.events h
          simp [SyncPass.ret] at this
        | ok selector =>
          cases hc : candidateIPs lib f c svc selector with
          | error e =>
            intro h
            simp only [hc] at h
            have := congrArg SyncPass.err h
            simp [SyncPass.ret] at this
          | ok S =>
            intro h
            simp only [hc] at h
            have h2 := congrArg SyncPass.patches h
            rw [pokeCCM_patches] at h2
            simp [SyncPass.ret] at h2
  · simp [hlb]

/-- C20 (the dispatch predicate is never stricter than the reconciler's gate):
every Service that passes the gate of `ServiceReconciler.Reconcile` (type
LoadBalancer, selector annotation present and not empty) satisfies
`isLBWithSelector`; a Service satisfies `isLBWithSelector` without passing the
gate exactly when it is of type LoadBalancer with a selector annotation that is
present and empty, and a pass that reads such a Service is a no-op; the gate is
the one of the code: a pass that reads a Service does something other than the
no-op return exactly when the Service passes it. -/
theorem dispatch_not_stricter :
    (∀ svc, passesGate svc → isLBWithSelector (ClientObject.service svc) = true) ∧
    (∀ svc, (isLBWithSelector (ClientObject.service svc) = true ∧ ¬ passesGate svc) ↔
      (svc.Type_ = ServiceTypeLoadBalancer ∧
        svc.Annotations.lookup AnnotationNodeSelector = some "")) ∧
    (∀ {Sel : Type} (lib : SelectorLib Sel) (iter : StrSet → List String) (now : Time)
      (f : Faults) (c : Cluster) (req : Request) (svc : Service),
      readService f c req = Except.ok (some svc) →
      svc.Type_ = ServiceTypeLoadBalancer →
      svc.Annotations.lookup AnnotationNodeSelector = some "" →
      ServiceReconciler.Reconcile lib iter now f c req = SyncPass.ret c none) ∧
    (∀ {Sel : Type} (lib : SelectorLib Sel) (iter : StrSet → List String) (now : Time)
      (f : Faults) (c : Cluster) (req : Request) (svc : Service),
      readService f c req = Except.ok (some svc) →
      (passesGate svc ↔
        ServiceReconciler.Reconcile lib iter now f c req ≠ SyncPass.ret c none)) := by
  refine ⟨?_, ?_, ?_, ?_⟩
  · rintro svc ⟨hlb, s, hs, _⟩
    exact (isLBWithSelector_iff svc).mpr ⟨hlb, s, hs⟩
  · intro svc
    rw [isLBWithSelector_iff]
    unfold passesGate
    constructor
    · rintro ⟨⟨hlb, v, hv⟩, hnot⟩
      refine ⟨hlb, ?_⟩
      by_cases he : v = ""
      · rw [hv, he]
      · exact absurd ⟨hlb, v, hv, he⟩ hnot
    · rintro ⟨hlb, hv⟩
      refine ⟨⟨hlb, "", hv⟩, ?_⟩
      rintro ⟨_, s, hs, hne⟩
      rw [hv] at hs
      exact hne (Option.some.inj hs).symm
  · intro Sel lib iter now f c req svc hread hlb hv
    unfold ServiceReconciler.Reconcile
    simp [hread, hlb, hv]
  · intro Sel lib iter now f c req svc hread
    exact passesGate_iff_acts lib iter now f c req svc hread

theorem dispatch_not_stricter_witness :
    isLBWithSelector (ClientObject.service (webService "Local" "")) = true ∧
    ServiceReconciler.Reconcile eqSelectorLib insertionOrder noon Faults.none
      emptySelectorCluster webRequest = SyncPass.ret emptySelectorCluster none ∧
    isLBWithSelector (ClientObject.service (webService "Local" "tier=edge")) = true :=
  ⟨by decide,
   dispatch_not_stricter.2.2.1 eqSelectorLib insertionOrder noon Faults.none
     emptySelectorCluster webRequest (webService "Local" "") rfl (by decide) (by decide),
   dispatch_not_stricter.1 (webService "Local" "tier=edge")
     ⟨by decide, "tier=edge", by decide, by decide⟩⟩

end OkeIngress
